import Mathlib

/-!
# rEFIt file system wrapper: string functions (`fsw_lib.c`)

A shallow embedding of the string functions of the file system wrapper core
(`fsw_strlen`, `fsw_streq`, `fsw_streq_cstr`, `fsw_strdup_coerce`,
`fsw_strsplit`, `fsw_strfree`) over an explicit byte-addressed memory, and
theorems about them. The node store, of which the sources only hold the
declarations in `fsw_core.h`, is modelled from the specification.

Conventions of the embedding:
* C `int` values are `Int`; the one place where a value is converted back to
  `int` after unsigned arithmetic (`len * sizeof(fsw_u16)`) wraps explicitly
  through `toInt32`.
* Pointers are addresses (`Nat`), `NULL` is address `0`, memory is a total map
  from addresses to byte values.
* `fsw_streq` is recursive without a structural measure in C, so the embedding
  carries a fuel argument that counts nested calls; running out of fuel is
  `none`.
* The host macros `fsw_alloc` and `fsw_free` are not part of the sources. The
  allocator is an argument of `fsw_strdup_coerce`; the byte counts requested
  from it and the pointers handed to `fsw_free` are returned as logs.
-/

namespace Fsw

/-! ## Memory -/

/-- Byte-addressed memory. A cell may hold any natural number; every read keeps
the low eight bits, so each memory is a valid byte memory. -/
abbrev Mem := Nat → Nat

/-- The null pointer. -/
abbrev NULL : Nat := 0

/-- Read of a `fsw_u8` through a pointer. -/
def readU8 (mem : Mem) (a : Nat) : Nat := mem a % 256

/-- Read of a `fsw_u16` through a pointer (little-endian, as on the EFI targets). -/
def readU16 (mem : Mem) (a : Nat) : Nat := readU8 mem a + 256 * readU8 mem (a + 1)

/-- A memory holding the given bytes from address `base` on and zero elsewhere. -/
def memOfList (base : Nat) (bytes : List Nat) : Mem :=
  fun a => if a < base then 0 else bytes.getD (a - base) 0

/-! ## Integers -/

/-- Largest value of a C `int` (32 bit). -/
abbrev INT_MAX : Int := 2147483647

/-- Conversion of an integer value to a 32-bit `int`, reducing modulo `2^32`. -/
def toInt32 (x : Int) : Int := (x + 2147483648) % 4294967296 - 2147483648

/-! ## Data model (`fsw_core.h`) -/

abbrev FSW_STRING_TYPE_EMPTY : Int := 0
abbrev FSW_STRING_TYPE_ISO88591 : Int := 1
abbrev FSW_STRING_TYPE_UTF8 : Int := 2
abbrev FSW_STRING_TYPE_UTF16 : Int := 3

/-- The descriptor `struct fsw_string`: encoding tag, length in characters,
data size in bytes and data pointer. -/
structure fsw_string where
  type : Int
  len : Int
  size : Int
  data : Nat
deriving DecidableEq, Repr

/-- The type tag is one of the four enumerators. -/
def definedType (t : Int) : Prop :=
  t = FSW_STRING_TYPE_EMPTY ∨ t = FSW_STRING_TYPE_ISO88591 ∨
    t = FSW_STRING_TYPE_UTF8 ∨ t = FSW_STRING_TYPE_UTF16

instance (t : Int) : Decidable (definedType t) := by
  unfold definedType; infer_instance

/-! ## Host macro -/

/-- Modelled from the spec: `fsw_memeq` is a macro of the host header
`fsw_base.h`, which is not part of the sources at hand. The spec says that
same-encoding strings "compare by exact byte equality"; the model compares the
first `size` bytes behind the two pointers and is true when there are none. -/
def fsw_memeq (mem : Mem) (p1 p2 : Nat) (size : Int) : Bool :=
  (List.range size.toNat).all fun i => readU8 mem (p1 + i) == readU8 mem (p2 + i)

/-! ## `fsw_strlen` -/

/-- Number of characters of a string (`fsw_strlen`). -/
def fsw_strlen (s : fsw_string) : Int :=
  if s.type = FSW_STRING_TYPE_EMPTY then 0 else s.len

/-! ## `fsw_streq` -/

/-- The descriptor `temp_s` that `fsw_streq` substitutes for an empty operand. -/
def streq_temp : fsw_string :=
  { type := FSW_STRING_TYPE_ISO88591, len := 0, size := 0, data := NULL }

/-- The comparison loop of the ISO-8859-1 / UTF-16 case of `fsw_streq`:
`n` iterations remain, `p1` walks bytes and `p2` walks 16-bit units. -/
def streq_iso_utf16 (mem : Mem) : Nat → Nat → Nat → Bool
  | 0, _, _ => true
  | n + 1, p1, p2 =>
    if readU8 mem p1 ≠ readU16 mem p2 then false
    else streq_iso_utf16 mem n (p1 + 1) (p2 + 2)

/-- Comparison of two strings (`fsw_streq`). The first argument bounds the
depth of nested calls, the outermost call included; `none` means the bound was
reached. -/
def fsw_streq : Nat → Mem → fsw_string → fsw_string → Option Bool
  | 0, _, _, _ => none
  | fuel + 1, mem, s1, s2 =>
    if s1.type = FSW_STRING_TYPE_EMPTY then
      fsw_streq fuel mem streq_temp s2
    else if s2.type = FSW_STRING_TYPE_EMPTY then
      fsw_streq fuel mem s1 streq_temp
    else if s1.len ≠ s2.len then
      some false
    else if s1.len = 0 then
      some true
    else if s1.type = s2.type then
      if s1.size ≠ s2.size then some false
      else some (fsw_memeq mem s1.data s2.data s1.size)
    else if s1.type = FSW_STRING_TYPE_ISO88591 ∧ s2.type = FSW_STRING_TYPE_UTF8 then
      some false
    else if s1.type = FSW_STRING_TYPE_ISO88591 ∧ s2.type = FSW_STRING_TYPE_UTF16 then
      some (streq_iso_utf16 mem s1.len.toNat s1.data s2.data)
    else if s1.type = FSW_STRING_TYPE_UTF8 ∧ s2.type = FSW_STRING_TYPE_UTF16 then
      some false
    else
      fsw_streq fuel mem s2 s1

/-! ## `fsw_streq_cstr` -/

/-- The length loop of `fsw_streq_cstr`, `for (i = 0; s2[i]; i++)`, entered with
counter `i`. The first argument bounds the number of iterations. Incrementing
the `int` counter beyond `INT_MAX` has no defined result and gives `none`. -/
def cstr_len (mem : Mem) (s2 : Nat) : Nat → Nat → Option Int
  | 0, _ => none
  | fuel + 1, i =>
    if readU8 mem (s2 + i) ≠ 0 then
      if (i : Int) + 1 > INT_MAX then none else cstr_len mem s2 fuel (i + 1)
    else some (i : Int)

/-- Comparison of a string with a C string constant (`fsw_streq_cstr`). The
fuel bounds both the length loop and the nested calls of `fsw_streq`. -/
def fsw_streq_cstr (fuel : Nat) (mem : Mem) (s1 : fsw_string) (s2 : Nat) : Option Bool :=
  match cstr_len mem s2 fuel 0 with
  | none => none
  | some i =>
    fsw_streq fuel mem s1
      { type := FSW_STRING_TYPE_ISO88591, len := i, size := i, data := s2 }

/-! ## `fsw_strsplit` -/

/-- The search loop of `fsw_strsplit`, `for (i = 0; i < maxlen; i++, p++)`, for
characters read by `rd` and `width` bytes wide. The first argument is the
number of iterations left before `i` reaches `maxlen`. The result is the final
`i`, the final `p`, and whether the loop was left through `break`. -/
def strsplit_scan (rd : Nat → Nat) (width : Nat) (separator : Int) :
    Nat → Int → Nat → Int × Nat × Bool
  | 0, i, p => (i, p, false)
  | n + 1, i, p =>
    if (rd p : Int) = separator then (i, p, true)
    else strsplit_scan rd width separator n (i + 1) (p + width)

/-- Splitting at the first separator (`fsw_strsplit`). The arguments are the two
descriptors before the call, the result is the pair (`element`, `buffer`) after
it. `separator` is the value of the `char` argument after integer promotion.
Pointers are byte addresses, so `p + 1` on a `fsw_u16 *` adds two. -/
def fsw_strsplit (mem : Mem) (element buffer : fsw_string) (separator : Int) :
    fsw_string × fsw_string :=
  if buffer.type = FSW_STRING_TYPE_EMPTY ∨ buffer.len = 0 then
    ({ element with type := FSW_STRING_TYPE_EMPTY }, buffer)
  else
    let maxlen := buffer.len
    let element := buffer
    if buffer.type = FSW_STRING_TYPE_ISO88591 then
      let r := strsplit_scan (readU8 mem) 1 separator maxlen.toNat 0 element.data
      let i := r.1
      let p := r.2.1
      let buffer := if r.2.2 then { buffer with data := p + 1, len := buffer.len - (i + 1) }
        else buffer
      let element := { element with len := i }
      let buffer := if i = maxlen then { buffer with data := p, len := buffer.len - i }
        else buffer
      let element := { element with size := element.len }
      let buffer := { buffer with size := buffer.len }
      (element, buffer)
    else if buffer.type = FSW_STRING_TYPE_UTF16 then
      let r := strsplit_scan (readU16 mem) 2 separator maxlen.toNat 0 element.data
      let i := r.1
      let p := r.2.1
      let buffer := if r.2.2 then { buffer with data := p + 2, len := buffer.len - (i + 1) }
        else buffer
      let element := { element with len := i }
      let buffer := if i = maxlen then { buffer with data := p, len := buffer.len - i }
        else buffer
      let element := { element with size := toInt32 (element.len * 2) }
      let buffer := { buffer with size := toInt32 (buffer.len * 2) }
      (element, buffer)
    else
      (element, { buffer with type := FSW_STRING_TYPE_EMPTY })

/-! ## `fsw_strdup_coerce` -/

abbrev FSW_SUCCESS : Int := 0
abbrev FSW_OUT_OF_MEMORY : Int := 1
abbrev FSW_IO_ERROR : Int := 2
abbrev FSW_UNSUPPORTED : Int := 3
abbrev FSW_NOT_FOUND : Int := 4
abbrev FSW_VOLUME_CORRUPTED : Int := 5
abbrev FSW_UNKNOWN_ERROR : Int := 6

/-- Store of a `fsw_u8` through a pointer. -/
def writeU8 (mem : Mem) (a v : Nat) : Mem := fun x => if x = a then v % 256 else mem x

/-- Store of a `fsw_u16` through a pointer (little-endian). -/
def writeU16 (mem : Mem) (a v : Nat) : Mem := writeU8 (writeU8 mem a v) (a + 1) (v / 256)

/-- Modelled from the spec: `fsw_memcpy` is a macro of the host header
`fsw_base.h`, which is not part of the sources at hand. The spec says that
same-encoding duplication "is a byte copy"; the model copies the first `size`
bytes behind `src` to `dest` and copies nothing when `size` is not positive. -/
def fsw_memcpy (mem : Mem) (dest src : Nat) (size : Int) : Mem :=
  fun a => if dest ≤ a ∧ a < dest + size.toNat then readU8 mem (src + (a - dest)) else mem a

/-- The widening loop of `fsw_strdup_coerce`,
`for (i = 0; i < src->len; i++) *dp++ = *sp++;`, with `n` iterations left. -/
def strdup_widen : Nat → Mem → Nat → Nat → Mem
  | 0, mem, _, _ => mem
  | n + 1, mem, sp, dp => strdup_widen n (writeU16 mem dp (readU8 mem sp)) (sp + 1) (dp + 2)

/-- What a call of `fsw_strdup_coerce` leaves behind: the returned status, the
descriptor `dest`, the memory, and the byte counts requested from `fsw_alloc`. -/
structure strdup_result where
  status : Int
  dest : fsw_string
  mem : Mem
  allocs : List Int

/-- Duplication with conversion (`fsw_strdup_coerce`). The host macro
`fsw_alloc(size, &ptr)` is the argument `fsw_alloc`: for a requested byte count
it gives the status and the pointer it stores. -/
def fsw_strdup_coerce (fsw_alloc : Int → Int × Nat) (mem : Mem) (dest : fsw_string)
    (type : Int) (src : fsw_string) : strdup_result :=
  if src.type = FSW_STRING_TYPE_EMPTY ∨ src.len = 0 then
    { status := FSW_SUCCESS, dest := { type := type, len := 0, size := 0, data := NULL },
      mem := mem, allocs := [] }
  else if src.type = type then
    let dest := { dest with type := type, len := src.len, size := src.size }
    let a := fsw_alloc dest.size
    let dest := { dest with data := a.2 }
    if a.1 ≠ 0 then
      { status := a.1, dest := dest, mem := mem, allocs := [dest.size] }
    else
      { status := FSW_SUCCESS, dest := dest,
        mem := fsw_memcpy mem dest.data src.data dest.size, allocs := [dest.size] }
  else if src.type = FSW_STRING_TYPE_ISO88591 ∧ type = FSW_STRING_TYPE_UTF16 then
    let dest := { dest with type := type, len := src.len, size := toInt32 (src.len * 2) }
    let a := fsw_alloc dest.size
    let dest := { dest with data := a.2 }
    if a.1 ≠ 0 then
      { status := a.1, dest := dest, mem := mem, allocs := [dest.size] }
    else
      { status := FSW_SUCCESS, dest := dest,
        mem := strdup_widen src.len.toNat mem src.data dest.data, allocs := [dest.size] }
  else
    { status := FSW_UNSUPPORTED, dest := dest, mem := mem, allocs := [] }

/-! ## `fsw_strfree` -/

/-- Release of a string (`fsw_strfree`): the descriptor after the call and the
pointers handed to the host macro `fsw_free`. -/
def fsw_strfree (s : fsw_string) : fsw_string × List Nat :=
  ({ s with type := FSW_STRING_TYPE_EMPTY },
    if s.type ≠ FSW_STRING_TYPE_EMPTY ∧ s.data ≠ NULL then [s.data] else [])

/-! ## The size invariant of the data model -/

/-- The byte size is consistent with the encoding: twice the character count
for UTF-16, the character count for ISO-8859-1. -/
def sizeConsistent (s : fsw_string) : Prop :=
  (s.type = FSW_STRING_TYPE_UTF16 → s.size = 2 * s.len) ∧
    (s.type = FSW_STRING_TYPE_ISO88591 → s.size = s.len)

instance (s : fsw_string) : Decidable (sizeConsistent s) := by
  unfold sizeConsistent; infer_instance

/-- A well-formed string: a defined type tag, a character count that is not
negative, and a byte size consistent with the encoding. -/
def wellFormed (s : fsw_string) : Prop :=
  definedType s.type ∧ 0 ≤ s.len ∧ sizeConsistent s

instance (s : fsw_string) : Decidable (wellFormed s) := by
  unfold wellFormed; infer_instance

/-! ## The node store (`fsw_core.h`) -/

/-- Modelled from the spec: a node of the node store. The sources at hand only
declare `struct fsw_dnode`; the fields kept are the ones the spec names: the
identity of the node (its address), the reference count, the identifier, the
type tag, the parent back-reference and the name. -/
structure fsw_dnode where
  addr : Nat
  refcount : Nat
  dnode_id : Nat
  type : Int
  parent : Option Nat
  name : fsw_string

/-- Modelled from the spec: the part of `struct fsw_volume` that the node store
uses, "the list of all live nodes on this volume" (`dnode_head`), together with
a log of the invocations of the driver's per-node teardown hook (`dnode_free`),
one entry per invocation, naming the node. -/
structure fsw_volume where
  dnode_head : List fsw_dnode
  dnode_free_calls : List Nat

/-- The node of a volume's list that lives at the given address. -/
def dnode_at (vol : fsw_volume) (a : Nat) : Option fsw_dnode :=
  vol.dnode_head.find? fun d => d.addr = a

/-- Modelled from the spec: `fsw_dnode_create`, whose code is not part of the
sources at hand. The spec says it "allocates a child node, ..., inserts into the
volume's list, refcount = 1". The address `a` is the one the allocation hands
out. -/
def fsw_dnode_create (vol : fsw_volume) (a : Nat) (parent : Option Nat) (dnode_id : Nat)
    (type : Int) (name : fsw_string) : fsw_volume :=
  { vol with
    dnode_head :=
      { addr := a, refcount := 1, dnode_id := dnode_id, type := type, parent := parent,
        name := name } :: vol.dnode_head }

/-- Modelled from the spec: `fsw_dnode_retain`, whose code is not part of the
sources at hand. The spec says it increments the refcount. -/
def fsw_dnode_retain (vol : fsw_volume) (a : Nat) : fsw_volume :=
  { vol with
    dnode_head := vol.dnode_head.map fun d =>
      if d.addr = a then { d with refcount := d.refcount + 1 } else d }

/-- Modelled from the spec: `fsw_dnode_release`, whose code is not part of the
sources at hand. The spec says it decrements the refcount and "on reaching zero,
invoke the driver's per-node teardown, unlink from the list, free storage". -/
def fsw_dnode_release (vol : fsw_volume) (a : Nat) : fsw_volume :=
  match dnode_at vol a with
  | none => vol
  | some d =>
    if d.refcount - 1 = 0 then
      { dnode_head := vol.dnode_head.filter fun x => x.addr ≠ a,
        dnode_free_calls := vol.dnode_free_calls ++ [a] }
    else
      { vol with
        dnode_head := vol.dnode_head.map fun x =>
          if x.addr = a then { x with refcount := x.refcount - 1 } else x }

/-! ## Reading a string character by character -/

/-- The `k`-th character of a string as the code reads it: byte `k` for a
single-byte encoding, 16-bit unit `k` for UTF-16. -/
def charAt (mem : Mem) (s : fsw_string) (k : Nat) : Nat :=
  if s.type = FSW_STRING_TYPE_UTF16 then readU16 mem (s.data + 2 * k)
  else readU8 mem (s.data + k)

/-- Width in bytes of one character of the encoding. -/
def charWidth (t : Int) : Nat := if t = FSW_STRING_TYPE_UTF16 then 2 else 1

/-! ## Closed form of the comparison, used in the proofs -/

/-- What `fsw_streq` computes on two operands that are not `EMPTY` and carry
defined tags, with the operand flip resolved. -/
def streq_closed (mem : Mem) (s1 s2 : fsw_string) : Bool :=
  if s1.len ≠ s2.len then false
  else if s1.len = 0 then true
  else if s1.type = s2.type then
    if s1.size ≠ s2.size then false else fsw_memeq mem s1.data s2.data s1.size
  else if s1.type = FSW_STRING_TYPE_ISO88591 ∧ s2.type = FSW_STRING_TYPE_UTF16 then
    streq_iso_utf16 mem s1.len.toNat s1.data s2.data
  else if s1.type = FSW_STRING_TYPE_UTF16 ∧ s2.type = FSW_STRING_TYPE_ISO88591 then
    streq_iso_utf16 mem s2.len.toNat s2.data s1.data
  else false

/-- The operand as `fsw_streq` compares it: `temp_s` in place of an `EMPTY` one. -/
def streq_norm (s : fsw_string) : fsw_string :=
  if s.type = FSW_STRING_TYPE_EMPTY then streq_temp else s

/-- The characters of a string, in order, as the code reads them. -/
def strChars (mem : Mem) (s : fsw_string) : List Nat :=
  (List.range (fsw_strlen s).toNat).map (charAt mem s)

/-! ## Iterated splitting -/

/-- The loop `while (fsw_strlen(&buffer) > 0) fsw_strsplit(&element, &buffer,
separator);`, collecting the element of every call in order. The first
argument bounds the number of calls; `none` means the bound was reached with
the buffer still not exhausted. -/
def strsplit_all (mem : Mem) (separator : Int) :
    Nat → fsw_string → fsw_string → Option (List fsw_string)
  | 0, _, buffer => if fsw_strlen buffer > 0 then none else some []
  | fuel + 1, element, buffer =>
    if fsw_strlen buffer > 0 then
      (strsplit_all mem separator fuel (fsw_strsplit mem element buffer separator).1
        (fsw_strsplit mem element buffer separator).2).map
        fun l => (fsw_strsplit mem element buffer separator).1 :: l
    else some []

/-- A character sequence split on the separator: the segments between
separators, in order, empty segments included, so that `n` separators give
`n + 1` segments. -/
def splitOnSep (separator : Int) : List Nat → List (List Nat)
  | [] => [[]]
  | c :: cs =>
    if (c : Int) = separator then [] :: splitOnSep separator cs
    else
      match splitOnSep separator cs with
      | [] => [[c]]
      | seg :: rest => (c :: seg) :: rest

/-- A list of segments with one trailing empty segment dropped, if there is
one. -/
def dropTrailingEmpty (l : List (List Nat)) : List (List Nat) :=
  if l.getLast? = some [] then l.dropLast else l

/-! ## Concrete data used in examples -/

/-- The bytes of the path `boot\efi\x64`. -/
def bootPath : List Nat := [98, 111, 111, 116, 92, 101, 102, 105, 92, 120, 54, 52]

/-- A memory holding `boot` as ISO-8859-1 at address 100 and as UTF-16 at
address 200. -/
def mixMem : Mem :=
  fun a => if a < 200 then memOfList 100 [98, 111, 111, 116] a
    else memOfList 200 [98, 0, 111, 0, 111, 0, 116, 0] a

/-- The ISO-8859-1 descriptor of `boot` in `mixMem`. -/
def isoBoot : fsw_string :=
  { type := FSW_STRING_TYPE_ISO88591, len := 4, size := 4, data := 100 }

/-- The UTF-16 descriptor of `boot` in `mixMem`. -/
def utf16Boot : fsw_string :=
  { type := FSW_STRING_TYPE_UTF16, len := 4, size := 8, data := 200 }

/-- A UTF-8 string of length zero. -/
def utf8Zero : fsw_string :=
  { type := FSW_STRING_TYPE_UTF8, len := 0, size := 0, data := NULL }

/-- An ISO-8859-1 string of length zero. -/
def isoZero : fsw_string :=
  { type := FSW_STRING_TYPE_ISO88591, len := 0, size := 0, data := NULL }

/-- A UTF-8 descriptor of four bytes over the ISO-8859-1 data of `mixMem`. -/
def utf8Boot : fsw_string :=
  { type := FSW_STRING_TYPE_UTF8, len := 4, size := 4, data := 100 }

/-- The remainder of `bootBuf` after its first split on the backslash. -/
def bootRest : fsw_string :=
  { type := FSW_STRING_TYPE_ISO88591, len := 7, size := 7, data := 105 }

/-- A memory that is zero except for a backslash at address `4096 + 2^31`. -/
def bigMem : Mem := fun a => if a = 2147487744 then 92 else 0

/-- A UTF-16 descriptor of `2^30 + 1` characters at address 4096; in `bigMem`
its only backslash is the character of index `2^30`. -/
def bigBuf : fsw_string :=
  { type := FSW_STRING_TYPE_UTF16, len := 1073741825, size := 0, data := 4096 }

/-- An empty string as `FSW_STRING_INIT` builds it. -/
def emptyString : fsw_string :=
  { type := FSW_STRING_TYPE_EMPTY, len := 0, size := 0, data := NULL }

/-- A memory holding `boot\efi\x64` as ISO-8859-1 at address 100. -/
def bootMem : Mem := memOfList 100 bootPath

/-- The ISO-8859-1 descriptor of `boot\efi\x64` in `bootMem`. -/
def bootBuf : fsw_string :=
  { type := FSW_STRING_TYPE_ISO88591, len := 12, size := 12, data := 100 }

/-- An allocator that always succeeds and hands out address 300. -/
def allocAt300 : Int → Int × Nat := fun _ => (FSW_SUCCESS, 300)

/-- An allocator that always fails with `FSW_OUT_OF_MEMORY`. -/
def allocFail : Int → Int × Nat := fun _ => (FSW_OUT_OF_MEMORY, NULL)

/-- An allocator that hands out address 300 for every non-negative byte count
and fails with `FSW_OUT_OF_MEMORY` for a negative one. -/
def allocFrom300 : Int → Int × Nat :=
  fun z => if z < 0 then (FSW_OUT_OF_MEMORY, NULL) else (FSW_SUCCESS, 300)

/-- A volume holding one node, at address 16, with two references and one
earlier teardown of a node that lived at address 64. -/
def oneNodeVolume : fsw_volume :=
  { dnode_head :=
      [{ addr := 16, refcount := 2, dnode_id := 2, type := 0, parent := none,
         name := emptyString }],
    dnode_free_calls := [64] }

/-- A memory holding `a/` as ISO-8859-1 at address 100. -/
def slashMem : Mem := memOfList 100 [97, 47]

/-- The ISO-8859-1 descriptor of `a/` in `slashMem`. -/
def slashBuf : fsw_string :=
  { type := FSW_STRING_TYPE_ISO88591, len := 2, size := 2, data := 100 }

/-- A size-consistent ISO-8859-1 descriptor of `2^30` characters at address
4096. -/
def bigIso : fsw_string :=
  { type := FSW_STRING_TYPE_ISO88591, len := 1073741824, size := 1073741824, data := 4096 }

/-- An allocator that always succeeds and hands out address `2^32`, beyond the
bytes of `bigIso`. -/
def allocHigh : Int → Int × Nat := fun _ => (FSW_SUCCESS, 4294967296)

/-- An ISO-8859-1 descriptor with the negative length `-1` over `mixMem`. -/
def negBuf : fsw_string :=
  { type := FSW_STRING_TYPE_ISO88591, len := -1, size := -1, data := 100 }

end Fsw

/-!
# rEFIt boot menu: built-in icons and the placeholder image (`icns.c`, `main.c`)
-/

namespace Refit

/-- A value of type `UINTN`, an unsigned integer of `w` bits (32 or 64 on the
EFI targets): arithmetic results are reduced modulo `2 ^ w`. -/
def UINTN (w : Nat) (x : Nat) : Nat := x % 2 ^ w

/-- The inner loop of `DummyImage`, `for (x = 0; x < 32; x++)`, as the list of
byte stores it performs, in order: each entry is the offset of the store from
`Image->PixelData` and the value stored. `n` iterations are left, the loop is at
column `x` of row `y` and `Ptr` is the current offset. -/
def DummyImage_row (y : Nat) : Nat → Nat → Nat → List (Nat × Nat)
  | 0, _, _ => []
  | n + 1, x, Ptr =>
    (if (x + y) % 12 < 6 then [(Ptr, 0), (Ptr + 1, 0), (Ptr + 2, 0)]
      else [(Ptr, 0), (Ptr + 1, 255), (Ptr + 2, 255)]) ++
      (Ptr + 3, 144) :: DummyImage_row y n (x + 1) (Ptr + 4)

/-- The outer loop of `DummyImage`, `for (y = 0; y < 32; y++)`, with `n`
iterations left, at row `y`, `YPtr` being the offset of the row start. -/
def DummyImage_rows (LineOffset : Nat) : Nat → Nat → Nat → List (Nat × Nat)
  | 0, _, _ => []
  | n + 1, y, YPtr =>
    DummyImage_row y 32 0 YPtr ++ DummyImage_rows LineOffset n (y + 1) (YPtr + LineOffset)

/-- The byte stores of `DummyImage(PixelSize)` into the pixel data of the image
it creates, as offsets from `Image->PixelData`. `LineOffset` and the start
offset are computed in `UINTN` arithmetic of `w` bits; the loop counters stay
below 64 and the offsets are added to a pointer. -/
def DummyImage (w : Nat) (PixelSize : Nat) : List (Nat × Nat) :=
  let LineOffset := UINTN w (PixelSize * 4)
  let YPtr := UINTN w ((UINTN w (PixelSize + 2 ^ w - 32) >>> 1) * UINTN w (LineOffset + 4))
  DummyImage_rows LineOffset 32 0 YPtr

/-- The four bytes of pixel `(x, y)` of the pattern: `(0, 0, 0, 144)` when
`(x + y) mod 12 < 6` and `(0, 255, 255, 144)` otherwise. -/
def dummyPixel (x y : Nat) : List Nat :=
  if (x + y) % 12 < 6 then [0, 0, 0, 144] else [0, 255, 255, 144]

/-! ## The icons the boot menu selects -/

/-- The stores of one loop iteration are the four bytes of the pixel. -/
theorem DummyImage_pixel_mem (x y Ptr : Nat) (rest : List (Nat × Nat)) (p : Nat × Nat) :
    p ∈ (if (x + y) % 12 < 6 then [(Ptr, 0), (Ptr + 1, 0), (Ptr + 2, 0)]
          else [(Ptr, 0), (Ptr + 1, 255), (Ptr + 2, 255)]) ++ (Ptr + 3, 144) :: rest ↔
      (∃ k, k < 4 ∧ p = (Ptr + k, (dummyPixel x y).getD k 0)) ∨ p ∈ rest := by
  by_cases c : (x + y) % 12 < 6
  · simp only [c, if_true, dummyPixel, List.mem_append, List.mem_cons, List.mem_singleton,
      List.not_mem_nil, or_false]
    constructor
    · rintro ((h | h | h) | h | h)
      · exact Or.inl ⟨0, by omega, by simpa using h⟩
      · exact Or.inl ⟨1, by omega, by simpa using h⟩
      · exact Or.inl ⟨2, by omega, by simpa using h⟩
      · exact Or.inl ⟨3, by omega, by simpa using h⟩
      · exact Or.inr h
    · rintro (⟨k, hk, rfl⟩ | h)
      · interval_cases k <;> simp
      · exact Or.inr (Or.inr h)
  · simp only [c, if_false, dummyPixel, List.mem_append, List.mem_cons, List.mem_singleton,
      List.not_mem_nil, or_false]
    constructor
    · rintro ((h | h | h) | h | h)
      · exact Or.inl ⟨0, by omega, by simpa using h⟩
      · exact Or.inl ⟨1, by omega, by simpa using h⟩
      · exact Or.inl ⟨2, by omega, by simpa using h⟩
      · exact Or.inl ⟨3, by omega, by simpa using h⟩
      · exact Or.inr h
    · rintro (⟨k, hk, rfl⟩ | h)
      · interval_cases k <;> simp
      · exact Or.inr (Or.inr h)

/-- The stores of the inner loop. -/
theorem DummyImage_row_mem (y : Nat) :
    ∀ (n x0 Ptr : Nat) (p : Nat × Nat),
      p ∈ DummyImage_row y n x0 Ptr ↔
        ∃ j k, j < n ∧ k < 4 ∧ p = (Ptr + 4 * j + k, (dummyPixel (x0 + j) y).getD k 0) := by
  intro n
  induction n with
  | zero =>
    intro x0 Ptr p
    simp [DummyImage_row]
  | succ n ih =>
    intro x0 Ptr p
    rw [DummyImage_row, DummyImage_pixel_mem, ih]
    constructor
    · rintro (⟨k, hk, rfl⟩ | ⟨j, k, hj, hk, rfl⟩)
      · exact ⟨0, k, by omega, hk, by simp⟩
      · refine ⟨j + 1, k, by omega, hk, ?_⟩
        rw [show Ptr + 4 + 4 * j + k = Ptr + 4 * (j + 1) + k by ring,
          show x0 + 1 + j = x0 + (j + 1) by ring]
    · rintro ⟨j, k, hj, hk, rfl⟩
      rcases j with _ | j
      · exact Or.inl ⟨k, hk, by simp⟩
      · refine Or.inr ⟨j, k, by omega, hk, ?_⟩
        rw [show Ptr + 4 + 4 * j + k = Ptr + 4 * (j + 1) + k by ring,
          show x0 + 1 + j = x0 + (j + 1) by ring]

/-- The stores of the outer loop. -/
theorem DummyImage_rows_mem (L : Nat) :
    ∀ (n y0 YPtr : Nat) (p : Nat × Nat),
      p ∈ DummyImage_rows L n y0 YPtr ↔
        ∃ i j k, i < n ∧ j < 32 ∧ k < 4 ∧
          p = (YPtr + L * i + 4 * j + k, (dummyPixel j (y0 + i)).getD k 0) := by
  intro n
  induction n with
  | zero =>
    intro y0 YPtr p
    simp [DummyImage_rows]
  | succ n ih =>
    intro y0 YPtr p
    rw [DummyImage_rows, List.mem_append, DummyImage_row_mem, ih]
    constructor
    · rintro (⟨j, k, hj, hk, rfl⟩ | ⟨i, j, k, hi, hj, hk, rfl⟩)
      · exact ⟨0, j, k, by omega, hj, hk, by simp⟩
      · refine ⟨i + 1, j, k, by omega, hj, hk, ?_⟩
        rw [show YPtr + L + L * i + 4 * j + k = YPtr + L * (i + 1) + 4 * j + k by ring,
          show y0 + 1 + i = y0 + (i + 1) by ring]
    · rintro ⟨i, j, k, hi, hj, hk, rfl⟩
      rcases i with _ | i
      · exact Or.inl ⟨j, k, hj, hk, by simp⟩
      · refine Or.inr ⟨i, j, k, by omega, hj, hk, ?_⟩
        rw [show YPtr + L + L * i + 4 * j + k = YPtr + L * (i + 1) + 4 * j + k by ring,
          show y0 + 1 + i = y0 + (i + 1) by ring]

/-- The offset of byte `k` of pixel `(x, y)` of the square from the pixel with
row and column `r`, in an image of `P` pixels per row, determines `x`, `y` and
`k`. -/
theorem DummyImage_offset_inj (P r x y k x' y' k' : Nat) (hx : r + x < P) (hx' : r + x' < P)
    (hk : k < 4) (hk' : k' < 4)
    (h : 4 * P * (r + y) + 4 * (r + x) + k = 4 * P * (r + y') + 4 * (r + x') + k') :
    x = x' ∧ y = y' ∧ k = k' := by
  have hA : 0 < 4 * P := by omega
  have hc : 4 * (r + x) + k < 4 * P := by omega
  have hc' : 4 * (r + x') + k' < 4 * P := by omega
  have hd := congrArg (fun o => o / (4 * P)) h
  simp only [Nat.add_assoc] at hd
  rw [Nat.mul_add_div hA, Nat.mul_add_div hA, Nat.div_eq_of_lt hc, Nat.div_eq_of_lt hc'] at hd
  have hy : y = y' := by omega
  subst hy
  omega

/-- Without overflow `DummyImage` starts at row and column `(PixelSize - 32) / 2`
and advances by `4 * PixelSize` bytes per row. -/
theorem DummyImage_eq_rows (w Q : Nat) (hfit : 4 * (Q + 32) * (Q + 32) < 2 ^ w) :
    DummyImage w (Q + 32) =
      DummyImage_rows ((Q + 32) * 4) 32 0 (Q / 2 * ((Q + 32) * 4 + 4)) := by
  have hr : Q / 2 ≤ Q := Nat.div_le_self Q 2
  have hrQ : Q / 2 * Q ≤ Q * Q := Nat.mul_le_mul_right Q hr
  have hL : UINTN w ((Q + 32) * 4) = (Q + 32) * 4 := by
    apply Nat.mod_eq_of_lt
    nlinarith
  have hsub : UINTN w (Q + 32 + 2 ^ w - 32) = Q := by
    unfold UINTN
    rw [show Q + 32 + 2 ^ w - 32 = Q + 2 ^ w by omega, Nat.add_mod_right]
    apply Nat.mod_eq_of_lt
    nlinarith
  have hL4 : UINTN w ((Q + 32) * 4 + 4) = (Q + 32) * 4 + 4 := by
    apply Nat.mod_eq_of_lt
    nlinarith
  have hY : UINTN w (Q / 2 * ((Q + 32) * 4 + 4)) = Q / 2 * ((Q + 32) * 4 + 4) := by
    apply Nat.mod_eq_of_lt
    nlinarith
  simp only [DummyImage, hL, hsub, hL4, Nat.shiftRight_eq_div_pow, pow_one, hY]

/-- C26: the stores of `DummyImage` stay inside the image. For `PixelSize ≥ 32`
such that the pixel data of `4 * PixelSize²` bytes is addressable in `UINTN`
arithmetic, every offset that `DummyImage` stores to is below
`4 * PixelSize²`; the stores are exactly the four bytes of each pixel `(x, y)`,
`x, y < 32`, of the square whose top-left pixel is at row and column
`(PixelSize - 32) / 2`, with the bytes `(0, 0, 0, 144)` when
`(x + y) mod 12 < 6` and `(0, 255, 255, 144)` otherwise; and no offset is
stored to with two different values. -/
theorem DummyImage_stays_inside (w PixelSize : Nat) (hP : 32 ≤ PixelSize)
    (hfit : 4 * PixelSize * PixelSize < 2 ^ w) :
    (∀ p ∈ DummyImage w PixelSize, p.1 < 4 * PixelSize * PixelSize) ∧
      (∀ p, p ∈ DummyImage w PixelSize ↔
        ∃ x y k, x < 32 ∧ y < 32 ∧ k < 4 ∧
          p = (4 * PixelSize * ((PixelSize - 32) / 2 + y) +
                4 * ((PixelSize - 32) / 2 + x) + k, (dummyPixel x y).getD k 0)) ∧
      (∀ o v v', (o, v) ∈ DummyImage w PixelSize → (o, v') ∈ DummyImage w PixelSize →
        v = v') := by
  obtain ⟨Q, rfl⟩ : ∃ Q, PixelSize = Q + 32 := ⟨PixelSize - 32, by omega⟩
  have hr : Q / 2 ≤ Q := Nat.div_le_self Q 2
  have hQ : Q + 32 - 32 = Q := by omega
  rw [hQ, DummyImage_eq_rows w Q hfit]
  generalize Q / 2 = r at hr
  have hmem : ∀ p, p ∈ DummyImage_rows ((Q + 32) * 4) 32 0 (r * ((Q + 32) * 4 + 4)) ↔
      ∃ x y k, x < 32 ∧ y < 32 ∧ k < 4 ∧
        p = (4 * (Q + 32) * (r + y) + 4 * (r + x) + k, (dummyPixel x y).getD k 0) := by
    intro p
    rw [DummyImage_rows_mem]
    constructor
    · rintro ⟨i, j, k, hi, hj, hk, rfl⟩
      refine ⟨j, i, k, hj, hi, hk, ?_⟩
      rw [Nat.zero_add]
      congr 1
      ring
    · rintro ⟨x, y, k, hx, hy, hk, rfl⟩
      refine ⟨y, x, k, hy, hx, hk, ?_⟩
      rw [Nat.zero_add]
      congr 1
      ring
  refine ⟨?_, hmem, ?_⟩
  · intro p hp
    obtain ⟨x, y, k, hx, hy, hk, rfl⟩ := (hmem p).mp hp
    show 4 * (Q + 32) * (r + y) + 4 * (r + x) + k < 4 * (Q + 32) * (Q + 32)
    have h1 : 4 * (Q + 32) * (r + y) ≤ 4 * (Q + 32) * (Q + 31) :=
      Nat.mul_le_mul_left _ (by omega)
    have h2 : 4 * (Q + 32) * (Q + 32) = 4 * (Q + 32) * (Q + 31) + 4 * (Q + 32) := by ring
    omega
  · intro o v v' hv hv'
    obtain ⟨x, y, k, hx, hy, hk, he⟩ := (hmem _).mp hv
    obtain ⟨x', y', k', hx', hy', hk', he'⟩ := (hmem _).mp hv'
    have ho : 4 * (Q + 32) * (r + y) + 4 * (r + x) + k =
        4 * (Q + 32) * (r + y') + 4 * (r + x') + k' := by
      rw [← (Prod.mk.inj he).1, ← (Prod.mk.inj he').1]
    obtain ⟨rfl, rfl, rfl⟩ := DummyImage_offset_inj (Q + 32) r x y k x' y' k' (by omega)
      (by omega) hk hk' ho
    rw [(Prod.mk.inj he).2, (Prod.mk.inj he').2]

theorem DummyImage_stays_inside_witness :
    32 ≤ 128 ∧ 4 * 128 * 128 < 2 ^ 64 ∧
      (∀ p ∈ DummyImage 64 128, p.1 < 4 * 128 * 128) ∧
      (∀ p, p ∈ DummyImage 64 128 ↔
        ∃ x y k, x < 32 ∧ y < 32 ∧ k < 4 ∧
          p = (4 * 128 * ((128 - 32) / 2 + y) + 4 * ((128 - 32) / 2 + x) + k,
            (dummyPixel x y).getD k 0)) ∧
      (∀ o v v', (o, v) ∈ DummyImage 64 128 → (o, v') ∈ DummyImage 64 128 → v = v') :=
  ⟨by decide, by decide, DummyImage_stays_inside 64 128 (by decide) (by decide)⟩

/-- The first stores of `DummyImage(32)`: the square starts at offset 0 and the
first two pixels are `(0, 0, 0, 144)`. -/
theorem DummyImage_example :
    (DummyImage 32 32).take 8 =
      [(0, 0), (1, 0), (2, 0), (3, 144), (4, 0), (5, 0), (6, 0), (7, 144)] := by
  decide

end Refit

namespace Fsw

/-! ## Basic facts -/

theorem fsw_memeq_iff (mem : Mem) (p1 p2 : Nat) (size : Int) :
    fsw_memeq mem p1 p2 size = true ↔
      ∀ i : Nat, (i : Int) < size → readU8 mem (p1 + i) = readU8 mem (p2 + i) := by
  simp only [fsw_memeq, List.all_eq_true, List.mem_range, beq_iff_eq]
  constructor
  · intro h i hi
    exact h i (by omega)
  · intro h i hi
    exact h i (by omega)

theorem fsw_memeq_self (mem : Mem) (p : Nat) (size : Int) :
    fsw_memeq mem p p size = true := by
  rw [fsw_memeq_iff]; intros; rfl

theorem fsw_memeq_comm (mem : Mem) (p1 p2 : Nat) (size : Int) :
    fsw_memeq mem p1 p2 size = fsw_memeq mem p2 p1 size := by
  rw [Bool.eq_iff_iff, fsw_memeq_iff, fsw_memeq_iff]
  constructor <;> intro h i hi <;> exact (h i hi).symm

/-- More fuel never changes a result already reached. -/
theorem fsw_streq_fuel_succ (mem : Mem) (fuel : Nat) :
    ∀ (s1 s2 : fsw_string) (b : Bool),
      fsw_streq fuel mem s1 s2 = some b → fsw_streq (fuel + 1) mem s1 s2 = some b := by
  induction fuel with
  | zero => intro s1 s2 b h; simp [fsw_streq] at h
  | succ n ih =>
    intro s1 s2 b h
    rw [fsw_streq] at h ⊢
    split_ifs at h ⊢ <;> first | exact h | exact ih _ _ _ h

theorem fsw_streq_fuel_add (mem : Mem) (fuel k : Nat) (s1 s2 : fsw_string) (b : Bool)
    (h : fsw_streq fuel mem s1 s2 = some b) : fsw_streq (fuel + k) mem s1 s2 = some b := by
  induction k with
  | zero => exact h
  | succ k ih => exact fsw_streq_fuel_succ mem (fuel + k) s1 s2 b ih

/-- One unfolding of `fsw_streq`. -/
theorem fsw_streq_succ (fuel : Nat) (mem : Mem) (s1 s2 : fsw_string) :
    fsw_streq (fuel + 1) mem s1 s2 =
      if s1.type = FSW_STRING_TYPE_EMPTY then fsw_streq fuel mem streq_temp s2
      else if s2.type = FSW_STRING_TYPE_EMPTY then fsw_streq fuel mem s1 streq_temp
      else if s1.len ≠ s2.len then some false
      else if s1.len = 0 then some true
      else if s1.type = s2.type then
        if s1.size ≠ s2.size then some false
        else some (fsw_memeq mem s1.data s2.data s1.size)
      else if s1.type = FSW_STRING_TYPE_ISO88591 ∧ s2.type = FSW_STRING_TYPE_UTF8 then
        some false
      else if s1.type = FSW_STRING_TYPE_ISO88591 ∧ s2.type = FSW_STRING_TYPE_UTF16 then
        some (streq_iso_utf16 mem s1.len.toNat s1.data s2.data)
      else if s1.type = FSW_STRING_TYPE_UTF8 ∧ s2.type = FSW_STRING_TYPE_UTF16 then
        some false
      else fsw_streq fuel mem s2 s1 := by
  rw [fsw_streq]

/-- Two operands that are not `EMPTY` and carry defined tags are decided within
two nested calls, with the value of the closed form. -/
theorem fsw_streq_two (mem : Mem) (k : Nat) (s1 s2 : fsw_string)
    (h1 : definedType s1.type) (h2 : definedType s2.type)
    (e1 : s1.type ≠ FSW_STRING_TYPE_EMPTY) (e2 : s2.type ≠ FSW_STRING_TYPE_EMPTY) :
    fsw_streq (k + 2) mem s1 s2 = some (streq_closed mem s1 s2) := by
  obtain ⟨t1, l1, z1, d1⟩ := s1
  obtain ⟨t2, l2, z2, d2⟩ := s2
  simp only at h1 h2 e1 e2
  by_cases hl : l1 = l2
  swap
  · have hl' : ¬ l2 = l1 := fun h => hl h.symm
    rw [fsw_streq_succ]
    simp [streq_closed, hl, e1, e2]
  subst hl
  by_cases h0 : l1 = 0
  · rw [fsw_streq_succ]
    simp [streq_closed, h0, e1, e2]
  rcases h1 with h1 | h1 | h1 | h1 <;> rcases h2 with h2 | h2 | h2 | h2 <;>
    first
    | exact absurd h1 e1
    | exact absurd h2 e2
    | (subst h1; subst h2
       simp [fsw_streq_succ, streq_closed, h0] <;> (split_ifs <;> simp [*]))

/-- Every pair of operands with defined tags is decided within three nested
calls, with the value of the closed form on the normalised operands. -/
theorem fsw_streq_three (mem : Mem) (k : Nat) (s1 s2 : fsw_string)
    (h1 : definedType s1.type) (h2 : definedType s2.type) :
    fsw_streq (k + 3) mem s1 s2 = some (streq_closed mem (streq_norm s1) (streq_norm s2)) := by
  have ht : definedType streq_temp.type := Or.inr (Or.inl rfl)
  have hte : streq_temp.type ≠ FSW_STRING_TYPE_EMPTY := by decide
  by_cases e1 : s1.type = FSW_STRING_TYPE_EMPTY
  · by_cases e2 : s2.type = FSW_STRING_TYPE_EMPTY
    · rw [fsw_streq_succ, if_pos e1, fsw_streq_succ, if_neg hte, if_pos e2, fsw_streq_succ]
      simp [streq_norm, e1, e2, streq_closed, streq_temp]
    · rw [fsw_streq_succ, if_pos e1]
      simp only [streq_norm, e1, e2, if_true, if_false]
      exact fsw_streq_two mem k streq_temp s2 ht h2 hte e2
  · by_cases e2 : s2.type = FSW_STRING_TYPE_EMPTY
    · rw [fsw_streq_succ, if_neg e1, if_pos e2]
      simp only [streq_norm, e1, e2, if_true, if_false]
      exact fsw_streq_two mem k s1 streq_temp h1 ht e1 hte
    · simp only [streq_norm, e1, e2, if_false]
      exact fsw_streq_two mem (k + 1) s1 s2 h1 h2 e1 e2

theorem streq_closed_comm (mem : Mem) (s1 s2 : fsw_string) :
    streq_closed mem s1 s2 = streq_closed mem s2 s1 := by
  unfold streq_closed
  by_cases hl : s1.len = s2.len
  swap
  · have hl' : ¬ s2.len = s1.len := fun h => hl h.symm
    simp [hl, hl']
  by_cases h0 : s1.len = 0
  · have h0' : s2.len = 0 := by rw [← hl]; exact h0
    simp [h0, h0']
  have h0' : ¬ s2.len = 0 := by rw [← hl]; exact h0
  by_cases ht : s1.type = s2.type
  · by_cases hz : s1.size = s2.size
    · simp [hl, h0, ht, hz, fsw_memeq_comm mem s1.data s2.data]
    · have hz' : ¬ s2.size = s1.size := fun h => hz h.symm
      simp [hl, h0, ht, hz, hz']
  · have ht' : ¬ s2.type = s1.type := fun h => ht h.symm
    simp only [hl, h0, h0', ht, ht', ne_eq, not_true_eq_false, if_false]
    by_cases a : s1.type = FSW_STRING_TYPE_ISO88591 ∧ s2.type = FSW_STRING_TYPE_UTF16
    · have b : ¬ (s2.type = FSW_STRING_TYPE_ISO88591 ∧ s1.type = FSW_STRING_TYPE_UTF16) := by
        intro hb; rw [hb.2] at a; exact absurd a.1 (by decide)
      simp [a, b, and_comm]
    · by_cases b : s2.type = FSW_STRING_TYPE_ISO88591 ∧ s1.type = FSW_STRING_TYPE_UTF16
      · simp [a, b, and_comm]
      · have a' : ¬ (s2.type = FSW_STRING_TYPE_UTF16 ∧ s1.type = FSW_STRING_TYPE_ISO88591) :=
          fun h => a ⟨h.2, h.1⟩
        have b' : ¬ (s1.type = FSW_STRING_TYPE_UTF16 ∧ s2.type = FSW_STRING_TYPE_ISO88591) :=
          fun h => b ⟨h.2, h.1⟩
        simp only [a, b, a', b', if_false]

/-! ## Symmetry, reflexivity, termination -/

/-- C1: `fsw_streq` is symmetric. For two strings whose type tags are among
EMPTY, ISO88591, UTF8 and UTF16, with any len, size and data, both operand
orders return, and they return the same boolean, at every call depth bound of
three or more. -/
theorem fsw_streq_symmetric (mem : Mem) (fuel : Nat) (s1 s2 : fsw_string)
    (h1 : definedType s1.type) (h2 : definedType s2.type) :
    ∃ b, fsw_streq (fuel + 3) mem s1 s2 = some b ∧ fsw_streq (fuel + 3) mem s2 s1 = some b :=
  ⟨streq_closed mem (streq_norm s1) (streq_norm s2),
    fsw_streq_three mem fuel s1 s2 h1 h2,
    by rw [fsw_streq_three mem fuel s2 s1 h2 h1, streq_closed_comm]⟩

theorem fsw_streq_symmetric_witness :
    definedType utf16Boot.type ∧ definedType isoBoot.type ∧
      ∃ b, fsw_streq (0 + 3) mixMem utf16Boot isoBoot = some b ∧
        fsw_streq (0 + 3) mixMem isoBoot utf16Boot = some b :=
  ⟨by decide, by decide, fsw_streq_symmetric mixMem 0 utf16Boot isoBoot (by decide) (by decide)⟩

/-- C2: `fsw_streq` is reflexive. For every string, whatever its type tag, len,
size and data, comparing it with itself returns true within three nested
calls. -/
theorem fsw_streq_reflexive (mem : Mem) (fuel : Nat) (s : fsw_string) :
    fsw_streq (fuel + 3) mem s s = some true := by
  have hte : streq_temp.type ≠ FSW_STRING_TYPE_EMPTY := by decide
  by_cases e : s.type = FSW_STRING_TYPE_EMPTY
  · rw [fsw_streq_succ, if_pos e, fsw_streq_succ, if_neg hte, if_pos e, fsw_streq_succ]
    simp [streq_temp]
  · rw [fsw_streq_succ, if_neg e, if_neg e]
    by_cases h0 : s.len = 0
    · simp [h0]
    · simp [h0, fsw_memeq_self]

/-- C3: `fsw_streq` terminates on defined type tags. For two strings whose type
tags are among EMPTY, ISO88591, UTF8 and UTF16 the call returns a boolean with
at most three nested calls (the outermost included), and a larger bound gives
the same boolean. -/
theorem fsw_streq_terminates (mem : Mem) (s1 s2 : fsw_string)
    (h1 : definedType s1.type) (h2 : definedType s2.type) :
    ∃ b, fsw_streq 3 mem s1 s2 = some b ∧
      ∀ fuel, 3 ≤ fuel → fsw_streq fuel mem s1 s2 = some b := by
  refine ⟨streq_closed mem (streq_norm s1) (streq_norm s2),
    fsw_streq_three mem 0 s1 s2 h1 h2, ?_⟩
  intro fuel hf
  obtain ⟨k, rfl⟩ : ∃ k, fuel = k + 3 := ⟨fuel - 3, by omega⟩
  exact fsw_streq_three mem k s1 s2 h1 h2

theorem fsw_streq_terminates_witness :
    definedType emptyString.type ∧ definedType emptyString.type ∧
      ∃ b, fsw_streq 3 mixMem emptyString emptyString = some b ∧
        ∀ fuel, 3 ≤ fuel → fsw_streq fuel mixMem emptyString emptyString = some b :=
  ⟨by decide, by decide, fsw_streq_terminates mixMem emptyString emptyString (by decide) (by decide)⟩

/-- The bound of three nested calls is attained: two `EMPTY` operands are not
decided within two. -/
theorem fsw_streq_empty_empty_two (mem : Mem) :
    fsw_streq 2 mem emptyString emptyString = none := by
  rfl

/-- Outside the four enumerators the operand flip can repeat without end: two
distinct undefined tags with equal non-zero length are decided at no depth. -/
theorem fsw_streq_undefined_tags (mem : Mem) (fuel : Nat) (l : Int) (hl : l ≠ 0)
    (z1 z2 : Int) (d1 d2 : Nat) :
    fsw_streq fuel mem ⟨4, l, z1, d1⟩ ⟨5, l, z2, d2⟩ = none ∧
      fsw_streq fuel mem ⟨5, l, z2, d2⟩ ⟨4, l, z1, d1⟩ = none := by
  induction fuel with
  | zero => simp [fsw_streq]
  | succ n ih =>
    constructor
    · rw [fsw_streq_succ]; simp [hl, ih.2]
    · rw [fsw_streq_succ]; simp [hl, ih.1]

/-! ## The cases of the comparison -/

theorem readU8_lt (mem : Mem) (a : Nat) : readU8 mem a < 256 :=
  Nat.mod_lt _ (by decide)

/-- The widening loop succeeds exactly when every byte equals its 16-bit unit. -/
theorem streq_iso_utf16_iff (mem : Mem) (n : Nat) :
    ∀ p1 p2 : Nat, streq_iso_utf16 mem n p1 p2 = true ↔
      ∀ i : Nat, i < n → readU16 mem (p2 + 2 * i) = readU8 mem (p1 + i) := by
  induction n with
  | zero => intro p1 p2; simp [streq_iso_utf16]
  | succ n ih =>
    intro p1 p2
    rw [streq_iso_utf16]
    by_cases h : readU8 mem p1 = readU16 mem p2
    · simp only [ne_eq, h, not_true_eq_false, if_false]
      rw [ih]
      constructor
      · intro hall i hi
        rcases i with _ | i
        · simpa using h.symm
        · have := hall i (by omega)
          rw [show p2 + 2 * (i + 1) = p2 + 2 + 2 * i by ring,
            show p1 + (i + 1) = p1 + 1 + i by ring]
          exact this
      · intro hall i hi
        have := hall (i + 1) (by omega)
        rw [show p2 + 2 * (i + 1) = p2 + 2 + 2 * i by ring,
          show p1 + (i + 1) = p1 + 1 + i by ring] at this
        exact this
    · simp only [ne_eq, h, not_false_eq_true, if_true]
      constructor
      · intro hf; exact absurd hf (by decide)
      · intro hall
        exact absurd (hall 0 (by omega)).symm (by simpa using h)

/-- C4: ISO-8859-1 against UTF-16. For an ISO-8859-1 string `s1` and a UTF-16
string `s2` with the same non-zero character count `n`, both operand orders
return the same boolean, which is true exactly when for every `i < n` the
`i`-th 16-bit unit of `s2` equals the zero-extended `i`-th byte of `s1`; if
some unit of `s2` is above `0xFF` the result is false. -/
theorem fsw_streq_iso_utf16 (mem : Mem) (fuel : Nat) (s1 s2 : fsw_string) (n : Int)
    (t1 : s1.type = FSW_STRING_TYPE_ISO88591) (t2 : s2.type = FSW_STRING_TYPE_UTF16)
    (l1 : s1.len = n) (l2 : s2.len = n) (hn : n ≠ 0) :
    ∃ b, fsw_streq (fuel + 2) mem s1 s2 = some b ∧ fsw_streq (fuel + 2) mem s2 s1 = some b ∧
      (b = true ↔
        ∀ i : Nat, (i : Int) < n → readU16 mem (s2.data + 2 * i) = readU8 mem (s1.data + i)) ∧
      ((∃ i : Nat, (i : Int) < n ∧ 255 < readU16 mem (s2.data + 2 * i)) → b = false) := by
  have h1 : fsw_streq (fuel + 2) mem s1 s2 =
      some (streq_iso_utf16 mem n.toNat s1.data s2.data) := by
    rw [fsw_streq_succ]; simp [t1, t2, l1, l2, hn]
  have h2 : fsw_streq (fuel + 2) mem s2 s1 =
      some (streq_iso_utf16 mem n.toNat s1.data s2.data) := by
    rw [fsw_streq_succ]; simp [t1, t2, l1, l2, hn]
    rw [fsw_streq_succ]; simp [t1, t2, l1, l2, hn]
  have hiff : streq_iso_utf16 mem n.toNat s1.data s2.data = true ↔
      ∀ i : Nat, (i : Int) < n → readU16 mem (s2.data + 2 * i) = readU8 mem (s1.data + i) := by
    rw [streq_iso_utf16_iff]
    constructor
    · intro h i hi; exact h i (by omega)
    · intro h i hi; exact h i (by omega)
  refine ⟨_, h1, h2, hiff, ?_⟩
  rintro ⟨i, hi, hbig⟩
  rw [Bool.eq_false_iff]
  intro hb
  have := (hiff.mp hb) i hi
  have hlt := readU8_lt mem (s1.data + i)
  omega

theorem fsw_streq_iso_utf16_witness :
    isoBoot.type = FSW_STRING_TYPE_ISO88591 ∧ utf16Boot.type = FSW_STRING_TYPE_UTF16 ∧
      isoBoot.len = 4 ∧ utf16Boot.len = 4 ∧ (4 : Int) ≠ 0 ∧
      ∃ b, fsw_streq (0 + 2) mixMem isoBoot utf16Boot = some b ∧
        fsw_streq (0 + 2) mixMem utf16Boot isoBoot = some b ∧
        (b = true ↔ ∀ i : Nat, (i : Int) < 4 →
          readU16 mixMem (utf16Boot.data + 2 * i) = readU8 mixMem (isoBoot.data + i)) ∧
        ((∃ i : Nat, (i : Int) < 4 ∧ 255 < readU16 mixMem (utf16Boot.data + 2 * i)) →
          b = false) :=
  ⟨rfl, rfl, rfl, rfl, by decide,
    fsw_streq_iso_utf16 mixMem 0 isoBoot utf16Boot 4 rfl rfl rfl rfl (by decide)⟩

/-- The widened comparison on the example data: `boot` equals `boot`. -/
theorem fsw_streq_boot_example :
    fsw_streq 2 mixMem utf16Boot isoBoot = some true ∧
      fsw_streq 2 mixMem isoBoot utf16Boot = some true := by
  constructor <;> decide

/-- C5, as the code has it: UTF-8 against ISO-8859-1 or UTF-16. In either
operand order the comparison returns false, unless both strings have len 0, in
which case it returns true. -/
theorem fsw_streq_utf8_cross (mem : Mem) (fuel : Nat) (s1 s2 : fsw_string)
    (t1 : s1.type = FSW_STRING_TYPE_UTF8)
    (t2 : s2.type = FSW_STRING_TYPE_ISO88591 ∨ s2.type = FSW_STRING_TYPE_UTF16) :
    fsw_streq (fuel + 2) mem s1 s2 = some (decide (s1.len = 0 ∧ s2.len = 0)) ∧
      fsw_streq (fuel + 2) mem s2 s1 = some (decide (s1.len = 0 ∧ s2.len = 0)) := by
  obtain ⟨a1, l1, z1, d1⟩ := s1
  obtain ⟨a2, l2, z2, d2⟩ := s2
  simp only at t1 t2
  subst t1
  by_cases hl : l1 = l2
  swap
  · have hl' : ¬ l2 = l1 := fun h => hl h.symm
    have hd : ¬ (l1 = 0 ∧ l2 = 0) := fun h => hl (h.1.trans h.2.symm)
    rcases t2 with t2 | t2 <;> subst t2 <;>
      (simp only [hd, decide_False]
       constructor <;> (rw [fsw_streq_succ]; simp [hl, hl']))
  subst hl
  by_cases h0 : l1 = 0
  · rcases t2 with t2 | t2 <;> subst t2 <;>
      (constructor <;> (rw [fsw_streq_succ]; simp [h0]))
  · rcases t2 with t2 | t2 <;> subst t2 <;>
      (constructor <;> simp [fsw_streq_succ, h0])

theorem fsw_streq_utf8_cross_witness :
    utf8Boot.type = FSW_STRING_TYPE_UTF8 ∧
      (isoBoot.type = FSW_STRING_TYPE_ISO88591 ∨ isoBoot.type = FSW_STRING_TYPE_UTF16) ∧
      fsw_streq (0 + 2) mixMem utf8Boot isoBoot = some (decide (utf8Boot.len = 0 ∧ isoBoot.len = 0)) ∧
      fsw_streq (0 + 2) mixMem isoBoot utf8Boot = some (decide (utf8Boot.len = 0 ∧ isoBoot.len = 0)) :=
  ⟨rfl, Or.inl rfl, fsw_streq_utf8_cross mixMem 0 utf8Boot isoBoot rfl (Or.inl rfl)⟩

/-- C5, as stated, fails: a UTF-8 string and an ISO-8859-1 string, both of
length zero, compare equal in either operand order. -/
theorem fsw_streq_utf8_cross_counterexample :
    utf8Zero.type = FSW_STRING_TYPE_UTF8 ∧ isoZero.type = FSW_STRING_TYPE_ISO88591 ∧
      fsw_streq 3 mixMem utf8Zero isoZero = some true ∧
      fsw_streq 3 mixMem isoZero utf8Zero = some true := by
  refine ⟨rfl, rfl, ?_, ?_⟩ <;> decide

/-- C6: an `EMPTY` string equals exactly the zero-length strings. For a
descriptor `e` of type EMPTY, whatever its other fields hold, and any string
`s`, both operand orders return the same boolean, which is true exactly when
`fsw_strlen s = 0`. -/
theorem fsw_streq_empty (mem : Mem) (fuel : Nat) (e s : fsw_string)
    (he : e.type = FSW_STRING_TYPE_EMPTY) :
    ∃ b, fsw_streq (fuel + 3) mem e s = some b ∧ fsw_streq (fuel + 3) mem s e = some b ∧
      (b = true ↔ fsw_strlen s = 0) := by
  have hte : streq_temp.type ≠ FSW_STRING_TYPE_EMPTY := by decide
  by_cases es : s.type = FSW_STRING_TYPE_EMPTY
  · refine ⟨true, ?_, ?_, by simp [fsw_strlen, es]⟩
    · rw [fsw_streq_succ, if_pos he, fsw_streq_succ, if_neg hte, if_pos es, fsw_streq_succ]
      simp [streq_temp]
    · rw [fsw_streq_succ, if_pos es, fsw_streq_succ, if_neg hte, if_pos he, fsw_streq_succ]
      simp [streq_temp]
  · refine ⟨decide (s.len = 0), ?_, ?_, by simp [fsw_strlen, es]⟩
    · rw [fsw_streq_succ, if_pos he, fsw_streq_succ, if_neg hte, if_neg es]
      by_cases h0 : s.len = 0
      · simp [streq_temp, h0]
      · have h0' : ¬ (0 : Int) = s.len := fun h => h0 h.symm
        simp [streq_temp, h0, h0']
    · rw [fsw_streq_succ, if_neg es, if_pos he, fsw_streq_succ, if_neg es, if_neg hte]
      by_cases h0 : s.len = 0
      · simp [streq_temp, h0]
      · simp [streq_temp, h0]

theorem fsw_streq_empty_witness :
    emptyString.type = FSW_STRING_TYPE_EMPTY ∧
      ∃ b, fsw_streq (0 + 3) mixMem emptyString utf16Boot = some b ∧
        fsw_streq (0 + 3) mixMem utf16Boot emptyString = some b ∧
        (b = true ↔ fsw_strlen utf16Boot = 0) :=
  ⟨rfl, fsw_streq_empty mixMem 0 emptyString utf16Boot rfl⟩

/-- C7: same-encoding strings compare by exact byte equality. For two strings
of the same encoding other than EMPTY with equal non-zero character count, the
comparison returns a boolean that is true exactly when the byte sizes are equal
and the first `size` data bytes are identical. -/
theorem fsw_streq_same_type (mem : Mem) (fuel : Nat) (s1 s2 : fsw_string)
    (ht : s1.type = s2.type) (he : s1.type ≠ FSW_STRING_TYPE_EMPTY)
    (hl : s1.len = s2.len) (h0 : s1.len ≠ 0) :
    ∃ b, fsw_streq (fuel + 1) mem s1 s2 = some b ∧
      (b = true ↔ s1.size = s2.size ∧
        ∀ i : Nat, (i : Int) < s1.size → readU8 mem (s1.data + i) = readU8 mem (s2.data + i)) := by
  have he2 : s2.type ≠ FSW_STRING_TYPE_EMPTY := ht ▸ he
  have hl' : ¬ s1.len ≠ s2.len := not_not.mpr hl
  rw [fsw_streq_succ, if_neg he, if_neg he2, if_neg hl', if_neg h0, if_pos ht]
  by_cases hz : s1.size = s2.size
  · have hz' : ¬ s1.size ≠ s2.size := not_not.mpr hz
    refine ⟨fsw_memeq mem s1.data s2.data s1.size, by rw [if_neg hz'], ?_⟩
    rw [fsw_memeq_iff]
    exact ⟨fun h => ⟨hz, h⟩, fun h => h.2⟩
  · exact ⟨false, by rw [if_pos hz], by simp [hz]⟩

theorem fsw_streq_same_type_witness :
    isoBoot.type = isoBoot.type ∧ isoBoot.type ≠ FSW_STRING_TYPE_EMPTY ∧
      isoBoot.len = isoBoot.len ∧ isoBoot.len ≠ 0 ∧
      ∃ b, fsw_streq (0 + 1) mixMem isoBoot isoBoot = some b ∧
        (b = true ↔ isoBoot.size = isoBoot.size ∧
          ∀ i : Nat, (i : Int) < isoBoot.size →
            readU8 mixMem (isoBoot.data + i) = readU8 mixMem (isoBoot.data + i)) :=
  ⟨rfl, by decide, rfl, by decide,
    fsw_streq_same_type mixMem 0 isoBoot isoBoot rfl (by decide) rfl (by decide)⟩

/-- C8: unequal character counts give false. If `fsw_strlen s1` differs from
`fsw_strlen s2`, the comparison returns false within two nested calls. -/
theorem fsw_streq_len_ne (mem : Mem) (fuel : Nat) (s1 s2 : fsw_string)
    (h : fsw_strlen s1 ≠ fsw_strlen s2) :
    fsw_streq (fuel + 2) mem s1 s2 = some false := by
  have hte : streq_temp.type ≠ FSW_STRING_TYPE_EMPTY := by decide
  unfold fsw_strlen at h
  by_cases e1 : s1.type = FSW_STRING_TYPE_EMPTY
  · by_cases e2 : s2.type = FSW_STRING_TYPE_EMPTY
    · simp [e1, e2] at h
    · simp only [e1, e2, if_true, if_false] at h
      rw [fsw_streq_succ, if_pos e1, fsw_streq_succ, if_neg hte, if_neg e2]
      simp [streq_temp, h]
  · by_cases e2 : s2.type = FSW_STRING_TYPE_EMPTY
    · simp only [e1, e2, if_true, if_false] at h
      rw [fsw_streq_succ, if_neg e1, if_pos e2, fsw_streq_succ, if_neg e1, if_neg hte]
      simp [streq_temp, h]
    · simp only [e1, e2, if_false] at h
      rw [fsw_streq_succ, if_neg e1, if_neg e2]
      simp [h]

theorem fsw_streq_len_ne_witness :
    fsw_strlen emptyString ≠ fsw_strlen utf16Boot ∧
      fsw_streq (0 + 2) mixMem emptyString utf16Boot = some false :=
  ⟨by decide, fsw_streq_len_ne mixMem 0 emptyString utf16Boot (by decide)⟩

/-! ## `fsw_streq_cstr` -/

/-- The length loop finds the first NUL when the fuel exceeds the distance to it
and the count fits an `int`. -/
theorem cstr_len_eq (mem : Mem) (c n : Nat)
    (hnz : ∀ j : Nat, j < n → readU8 mem (c + j) ≠ 0) (hz : readU8 mem (c + n) = 0)
    (hmax : (n : Int) ≤ INT_MAX) :
    ∀ (fuel i : Nat), i ≤ n → n - i < fuel → cstr_len mem c fuel i = some (n : Int) := by
  intro fuel
  induction fuel with
  | zero => intro i _ hf; omega
  | succ f ih =>
    intro i hi hf
    rw [cstr_len]
    by_cases hin : i = n
    · subst hin
      simp [hz]
    · have hlt : i < n := lt_of_le_of_ne hi hin
      have hover : ¬ ((i : Int) + 1 > INT_MAX) := by
        have : (i : Int) + 1 ≤ (n : Int) := by exact_mod_cast hlt
        omega
      rw [if_pos (hnz i hlt), if_neg hover]
      exact ih (i + 1) hlt (by omega)

/-- C9: `fsw_streq_cstr` interprets the literal as ISO-8859-1. For a C string
at address `c` whose first NUL is at offset `n` (with `n` representable as an
`int`) and fuel beyond `n`, the call equals `fsw_streq` against the ISO88591
descriptor with len = size = `n` and data = `c`. -/
theorem fsw_streq_cstr_iso (mem : Mem) (fuel : Nat) (s : fsw_string) (c n : Nat)
    (hnz : ∀ j : Nat, j < n → readU8 mem (c + j) ≠ 0) (hz : readU8 mem (c + n) = 0)
    (hmax : (n : Int) ≤ INT_MAX) (hf : n < fuel) :
    fsw_streq_cstr fuel mem s c =
      fsw_streq fuel mem s
        { type := FSW_STRING_TYPE_ISO88591, len := (n : Int), size := (n : Int), data := c } := by
  unfold fsw_streq_cstr
  rw [cstr_len_eq mem c n hnz hz hmax fuel 0 (Nat.zero_le n) (by omega)]

theorem fsw_streq_cstr_iso_witness :
    (∀ j : Nat, j < 4 → readU8 mixMem (100 + j) ≠ 0) ∧ readU8 mixMem (100 + 4) = 0 ∧
      ((4 : Nat) : Int) ≤ INT_MAX ∧ 4 < 5 ∧
      fsw_streq_cstr 5 mixMem utf16Boot 100 =
        fsw_streq 5 mixMem utf16Boot
          { type := FSW_STRING_TYPE_ISO88591, len := ((4 : Nat) : Int),
            size := ((4 : Nat) : Int), data := 100 } :=
  have hnz : ∀ j : Nat, j < 4 → readU8 mixMem (100 + j) ≠ 0 := by
    intro j hj; interval_cases j <;> decide
  ⟨hnz, by decide, by decide, by decide,
    fsw_streq_cstr_iso mixMem 5 utf16Boot 100 4 hnz (by decide) (by decide) (by decide)⟩

/-- The literal comparison on the example data: the UTF-16 string `boot` equals
the C string `boot`, and the literal `boot\efi\x64` does not. -/
theorem fsw_streq_cstr_example :
    fsw_streq_cstr 5 mixMem utf16Boot 100 = some true ∧
      fsw_streq_cstr 13 bootMem utf16Boot 100 = some false := by
  constructor <;> decide

/-! ## `fsw_strsplit` -/

/-- The search loop stops at the first separator. -/
theorem strsplit_scan_found (rd : Nat → Nat) (w : Nat) (sep : Int) :
    ∀ (n : Nat) (i0 : Int) (p0 k : Nat), k < n → (rd (p0 + w * k) : Int) = sep →
      (∀ j : Nat, j < k → (rd (p0 + w * j) : Int) ≠ sep) →
      strsplit_scan rd w sep n i0 p0 = (i0 + k, p0 + w * k, true) := by
  intro n
  induction n with
  | zero => intro i0 p0 k hk; omega
  | succ n ih =>
    intro i0 p0 k hk hsep hfirst
    rw [strsplit_scan]
    rcases k with _ | k
    · simp only [Nat.mul_zero, Nat.add_zero] at hsep
      simp [hsep]
    · have h0 : ¬ (rd p0 : Int) = sep := by simpa using hfirst 0 (by omega)
      rw [if_neg h0]
      have hs : (rd (p0 + w + w * k) : Int) = sep := by
        rw [show p0 + w + w * k = p0 + w * (k + 1) by ring]; exact hsep
      have hf : ∀ j : Nat, j < k → (rd (p0 + w + w * j) : Int) ≠ sep := by
        intro j hj
        rw [show p0 + w + w * j = p0 + w * (j + 1) by ring]
        exact hfirst (j + 1) (by omega)
      rw [ih (i0 + 1) (p0 + w) k (by omega) hs hf]
      simp only [Prod.mk.injEq, and_true]
      constructor
      · push_cast; ring
      · ring

/-- The search loop runs to `maxlen` when there is no separator. -/
theorem strsplit_scan_absent (rd : Nat → Nat) (w : Nat) (sep : Int) :
    ∀ (n : Nat) (i0 : Int) (p0 : Nat), (∀ j : Nat, j < n → (rd (p0 + w * j) : Int) ≠ sep) →
      strsplit_scan rd w sep n i0 p0 = (i0 + n, p0 + w * n, false) := by
  intro n
  induction n with
  | zero => intro i0 p0 _; simp [strsplit_scan]
  | succ n ih =>
    intro i0 p0 hall
    rw [strsplit_scan]
    have h0 : ¬ (rd p0 : Int) = sep := by simpa using hall 0 (by omega)
    rw [if_neg h0]
    have hf : ∀ j : Nat, j < n → (rd (p0 + w + w * j) : Int) ≠ sep := by
      intro j hj
      rw [show p0 + w + w * j = p0 + w * (j + 1) by ring]
      exact hall (j + 1) (by omega)
    rw [ih (i0 + 1) (p0 + w) hf]
    simp only [Prod.mk.injEq, and_true]
    constructor
    · push_cast; ring
    · ring

/-- The two descriptors after splitting an ISO-8859-1 buffer whose first
separator is the character of index `i`. -/
theorem fsw_strsplit_iso_found (mem : Mem) (element buffer : fsw_string) (sep : Int)
    (n i : Nat) (ht : buffer.type = FSW_STRING_TYPE_ISO88591) (hlen : buffer.len = n)
    (hi : i < n) (hsep : (readU8 mem (buffer.data + i) : Int) = sep)
    (hfirst : ∀ j : Nat, j < i → (readU8 mem (buffer.data + j) : Int) ≠ sep) :
    fsw_strsplit mem element buffer sep =
      ({ type := FSW_STRING_TYPE_ISO88591, len := i, size := i, data := buffer.data },
       { type := FSW_STRING_TYPE_ISO88591, len := (n : Int) - (i + 1),
         size := (n : Int) - (i + 1), data := buffer.data + i + 1 }) := by
  obtain ⟨t, l, z, d⟩ := buffer
  simp only at ht hlen hsep hfirst
  subst ht hlen
  have hn0 : ¬ ((n : Int) = 0) := by omega
  have hscan := strsplit_scan_found (readU8 mem) 1 sep n 0 d i hi
    (by simpa using hsep) (by simpa using hfirst)
  have hin : ¬ ((i : Int) = (n : Int)) := by omega
  simp [fsw_strsplit, hn0, hscan, hin]

/-- The two descriptors after splitting a UTF-16 buffer whose first separator
is the character of index `i`. -/
theorem fsw_strsplit_utf16_found (mem : Mem) (element buffer : fsw_string) (sep : Int)
    (n i : Nat) (ht : buffer.type = FSW_STRING_TYPE_UTF16) (hlen : buffer.len = n)
    (hi : i < n) (hsep : (readU16 mem (buffer.data + 2 * i) : Int) = sep)
    (hfirst : ∀ j : Nat, j < i → (readU16 mem (buffer.data + 2 * j) : Int) ≠ sep) :
    fsw_strsplit mem element buffer sep =
      ({ type := FSW_STRING_TYPE_UTF16, len := i, size := toInt32 ((i : Int) * 2),
         data := buffer.data },
       { type := FSW_STRING_TYPE_UTF16, len := (n : Int) - (i + 1),
         size := toInt32 (((n : Int) - (i + 1)) * 2), data := buffer.data + 2 * i + 2 }) := by
  obtain ⟨t, l, z, d⟩ := buffer
  simp only at ht hlen hsep hfirst
  subst ht hlen
  have hn0 : ¬ ((n : Int) = 0) := by omega
  have hscan := strsplit_scan_found (readU16 mem) 2 sep n 0 d i hi hsep hfirst
  have hin : ¬ ((i : Int) = (n : Int)) := by omega
  simp [fsw_strsplit, hn0, hscan, hin]

/-- Splitting the UTF-16 string `boot` on the letter `o`: the element is `b`,
the remainder is `ot`, two bytes per character. -/
theorem fsw_strsplit_utf16_example :
    fsw_strsplit mixMem emptyString utf16Boot 111 =
      ({ type := FSW_STRING_TYPE_UTF16, len := 1, size := 2, data := 200 },
       { type := FSW_STRING_TYPE_UTF16, len := 2, size := 4, data := 204 }) := by
  decide

theorem toInt32_of_fits (x : Int) (h0 : 0 ≤ x) (h1 : x ≤ INT_MAX) : toInt32 x = x := by
  unfold toInt32
  have h2 : x ≤ 2147483647 := h1
  have : (x + 2147483648) % 4294967296 = x + 2147483648 :=
    Int.emod_eq_of_lt (by omega) (by omega)
  omega

/-- C10, as the code has it: `fsw_strsplit` splits at the first occurrence of
the separator. For an ISO-8859-1 or UTF-16 buffer of len `n` whose first
separator is the character of index `i < n`, after the call `element` has the
encoding of the buffer, starts at the original data start, has len `i` and holds
the characters `[0, i)` of the original, none of which is the separator; its
size is `i` times the character width whenever that product fits an `int`. The
buffer keeps its encoding, has len `n - i - 1`, starts one character behind the
separator and holds the characters `[i + 1, n)` of the original. -/
theorem fsw_strsplit_first (mem : Mem) (element buffer : fsw_string) (separator : Int)
    (n i : Nat)
    (ht : buffer.type = FSW_STRING_TYPE_ISO88591 ∨ buffer.type = FSW_STRING_TYPE_UTF16)
    (hlen : buffer.len = n) (hi : i < n)
    (hsep : (charAt mem buffer i : Int) = separator)
    (hfirst : ∀ j : Nat, j < i → (charAt mem buffer j : Int) ≠ separator) :
    ∃ e b, fsw_strsplit mem element buffer separator = (e, b) ∧
      e.type = buffer.type ∧ e.len = i ∧ e.data = buffer.data ∧
      (((charWidth buffer.type * i : Nat) : Int) ≤ INT_MAX →
        e.size = ((charWidth buffer.type * i : Nat) : Int)) ∧
      b.type = buffer.type ∧ b.len = (n : Int) - i - 1 ∧
      b.data = buffer.data + charWidth buffer.type * (i + 1) ∧
      (∀ k : Nat, k < i → charAt mem e k = charAt mem buffer k) ∧
      (∀ k : Nat, k < n - i - 1 → charAt mem b k = charAt mem buffer (i + 1 + k)) ∧
      (∀ k : Nat, k < i → (charAt mem e k : Int) ≠ separator) := by
  rcases ht with ht | ht
  · have hne : ¬ buffer.type = FSW_STRING_TYPE_UTF16 := by rw [ht]; decide
    simp only [charAt, hne, if_false] at hsep hfirst
    refine ⟨_, _, fsw_strsplit_iso_found mem element buffer separator n i ht hlen hi hsep hfirst,
      ?_⟩
    have h13 : (FSW_STRING_TYPE_ISO88591 = FSW_STRING_TYPE_UTF16) = False :=
      eq_false (by decide)
    simp only [charAt, charWidth, ht, h13, if_false]
    refine ⟨trivial, trivial, trivial, ?_, trivial, by ring, by ring, ?_, ?_, ?_⟩
    · intro _; simp
    · intro k _; trivial
    · intro k _
      rw [show buffer.data + i + 1 + k = buffer.data + (i + 1 + k) by ring]
    · intro k hk; exact hfirst k hk
  · simp only [charAt, ht, if_true] at hsep hfirst
    refine ⟨_, _, fsw_strsplit_utf16_found mem element buffer separator n i ht hlen hi hsep hfirst,
      ?_⟩
    simp only [charAt, charWidth, ht, if_true]
    refine ⟨trivial, trivial, trivial, ?_, trivial, by ring, by ring, ?_, ?_, ?_⟩
    · intro hfit
      rw [toInt32_of_fits _ (by positivity) (by push_cast at hfit ⊢; omega)]
      push_cast; ring
    · intro k _; trivial
    · intro k _
      rw [show buffer.data + 2 * i + 2 + 2 * k = buffer.data + 2 * (i + 1 + k) by ring]
    · intro k hk; exact hfirst k hk

theorem fsw_strsplit_first_witness :
    (bootBuf.type = FSW_STRING_TYPE_ISO88591 ∨ bootBuf.type = FSW_STRING_TYPE_UTF16) ∧
      bootBuf.len = ((12 : Nat) : Int) ∧ 4 < 12 ∧ (charAt bootMem bootBuf 4 : Int) = 92 ∧
      (∀ j : Nat, j < 4 → (charAt bootMem bootBuf j : Int) ≠ 92) ∧
      (∃ e b, fsw_strsplit bootMem emptyString bootBuf 92 = (e, b) ∧
        e.type = bootBuf.type ∧ e.len = ((4 : Nat) : Int) ∧ e.data = bootBuf.data ∧
        (((charWidth bootBuf.type * 4 : Nat) : Int) ≤ INT_MAX →
          e.size = ((charWidth bootBuf.type * 4 : Nat) : Int)) ∧
        b.type = bootBuf.type ∧ b.len = ((12 : Nat) : Int) - ((4 : Nat) : Int) - 1 ∧
        b.data = bootBuf.data + charWidth bootBuf.type * (4 + 1) ∧
        (∀ k : Nat, k < 4 → charAt bootMem e k = charAt bootMem bootBuf k) ∧
        (∀ k : Nat, k < 12 - 4 - 1 → charAt bootMem b k = charAt bootMem bootBuf (4 + 1 + k)) ∧
        (∀ k : Nat, k < 4 → (charAt bootMem e k : Int) ≠ 92)) ∧
      strChars bootMem (fsw_strsplit bootMem emptyString bootBuf 92).1 = [98, 111, 111, 116] ∧
      (fsw_strsplit bootMem emptyString bootBuf 92).2 = bootRest ∧
      strChars bootMem bootRest = [101, 102, 105, 92, 120, 54, 52] ∧
      strChars bootMem (fsw_strsplit bootMem emptyString bootRest 92).1 = [101, 102, 105] ∧
      strChars bootMem (fsw_strsplit bootMem emptyString bootRest 92).2 = [120, 54, 52] :=
  have hfirst : ∀ j : Nat, j < 4 → (charAt bootMem bootBuf j : Int) ≠ 92 := by
    intro j hj; interval_cases j <;> decide
  ⟨Or.inl rfl, rfl, by decide, by decide, hfirst,
    fsw_strsplit_first bootMem emptyString bootBuf 92 12 4 (Or.inl rfl) rfl (by decide)
      (by decide) hfirst,
    by decide, by decide, by decide, by decide, by decide⟩

/-- C10, as stated, fails on the size of `element` for a UTF-16 buffer of more
than `2^30` characters: with the first separator at index `2^30` the element
has len `2^30`, and its size, computed as `len * sizeof(fsw_u16)` and stored in
an `int`, is `-2^31` instead of `2^31`. -/
theorem fsw_strsplit_first_counterexample :
    bigBuf.type = FSW_STRING_TYPE_UTF16 ∧ bigBuf.len = 1073741825 ∧
      (charAt bigMem bigBuf 1073741824 : Int) = 92 ∧
      (∀ j : Nat, j < 1073741824 → (charAt bigMem bigBuf j : Int) ≠ 92) ∧
      (fsw_strsplit bigMem emptyString bigBuf 92).1.len = 1073741824 ∧
      (fsw_strsplit bigMem emptyString bigBuf 92).1.size = -2147483648 ∧
      (fsw_strsplit bigMem emptyString bigBuf 92).1.size ≠
        2 * (fsw_strsplit bigMem emptyString bigBuf 92).1.len := by
  have hsep : (readU16 bigMem (bigBuf.data + 2 * 1073741824) : Int) = 92 := by
    simp [readU16, readU8, bigMem, bigBuf]
  have hfirst : ∀ j : Nat, j < 1073741824 →
      (readU16 bigMem (bigBuf.data + 2 * j) : Int) ≠ 92 := by
    intro j hj
    have h1 : ¬ (4096 + 2 * j = 2147487744) := by omega
    have h2 : ¬ (4096 + 2 * j + 1 = 2147487744) := by omega
    simp [readU16, readU8, bigMem, bigBuf, h1, h2]
  have hsplit := fsw_strsplit_utf16_found bigMem emptyString bigBuf 92 1073741825 1073741824
    rfl rfl (by decide) hsep hfirst
  have hsize : toInt32 (((1073741824 : Nat) : Int) * 2) = -2147483648 := by decide
  refine ⟨rfl, rfl, ?_, ?_, ?_, ?_, ?_⟩
  · simpa [charAt, bigBuf] using hsep
  · intro j hj
    simpa [charAt, bigBuf] using hfirst j hj
  · rw [hsplit]; rfl
  · rw [hsplit]; exact hsize
  · rw [hsplit]
    show toInt32 (((1073741824 : Nat) : Int) * 2) ≠ 2 * ((1073741824 : Nat) : Int)
    rw [hsize]; decide

/-- The two descriptors after splitting an ISO-8859-1 buffer of `n > 0`
characters that holds no separator. -/
theorem fsw_strsplit_iso_absent (mem : Mem) (element buffer : fsw_string) (sep : Int)
    (n : Nat) (ht : buffer.type = FSW_STRING_TYPE_ISO88591) (hlen : buffer.len = n)
    (hn : 0 < n)
    (habs : ∀ j : Nat, j < n → (readU8 mem (buffer.data + j) : Int) ≠ sep) :
    fsw_strsplit mem element buffer sep =
      ({ type := FSW_STRING_TYPE_ISO88591, len := n, size := n, data := buffer.data },
       { type := FSW_STRING_TYPE_ISO88591, len := 0, size := 0, data := buffer.data + n }) := by
  obtain ⟨t, l, z, d⟩ := buffer
  simp only at ht hlen habs
  subst ht hlen
  have hn0 : ¬ ((n : Int) = 0) := by omega
  have hscan := strsplit_scan_absent (readU8 mem) 1 sep n 0 d (by simpa using habs)
  simp [fsw_strsplit, hn0, hscan]

/-- The two descriptors after splitting a UTF-16 buffer of `n > 0` characters
that holds no separator. -/
theorem fsw_strsplit_utf16_absent (mem : Mem) (element buffer : fsw_string) (sep : Int)
    (n : Nat) (ht : buffer.type = FSW_STRING_TYPE_UTF16) (hlen : buffer.len = n)
    (hn : 0 < n)
    (habs : ∀ j : Nat, j < n → (readU16 mem (buffer.data + 2 * j) : Int) ≠ sep) :
    fsw_strsplit mem element buffer sep =
      ({ type := FSW_STRING_TYPE_UTF16, len := n, size := toInt32 ((n : Int) * 2),
         data := buffer.data },
       { type := FSW_STRING_TYPE_UTF16, len := 0, size := 0, data := buffer.data + 2 * n }) := by
  obtain ⟨t, l, z, d⟩ := buffer
  simp only at ht hlen habs
  subst ht hlen
  have hn0 : ¬ ((n : Int) = 0) := by omega
  have hscan := strsplit_scan_absent (readU16 mem) 2 sep n 0 d habs
  have hz : toInt32 0 = 0 := by decide
  simp [fsw_strsplit, hn0, hscan, hz]

/-- The two descriptors after splitting a buffer that is `EMPTY` or has len 0. -/
theorem fsw_strsplit_empty (mem : Mem) (element buffer : fsw_string) (sep : Int)
    (h : buffer.type = FSW_STRING_TYPE_EMPTY ∨ buffer.len = 0) :
    fsw_strsplit mem element buffer sep =
      ({ element with type := FSW_STRING_TYPE_EMPTY }, buffer) := by
  simp [fsw_strsplit, h]

/-- The two descriptors after splitting a non-empty buffer that is neither
ISO-8859-1 nor UTF-16. -/
theorem fsw_strsplit_fallback (mem : Mem) (element buffer : fsw_string) (sep : Int)
    (he : buffer.type ≠ FSW_STRING_TYPE_EMPTY) (h0 : buffer.len ≠ 0)
    (h1 : buffer.type ≠ FSW_STRING_TYPE_ISO88591) (h3 : buffer.type ≠ FSW_STRING_TYPE_UTF16) :
    fsw_strsplit mem element buffer sep =
      (buffer, { buffer with type := FSW_STRING_TYPE_EMPTY }) := by
  simp [fsw_strsplit, he, h0, h1, h3]

/-- C11, as the code has it: `fsw_strsplit` with an absent separator. For a
buffer of any encoding in which the separator does not occur, and whose len is
not negative when the encoding is ISO-8859-1 or UTF-16, after the call
`element` has the character count and the characters of the original buffer,
and the remaining buffer has `fsw_strlen` 0. -/
theorem fsw_strsplit_absent (mem : Mem) (element buffer : fsw_string) (separator : Int)
    (hlen : buffer.type = FSW_STRING_TYPE_ISO88591 ∨ buffer.type = FSW_STRING_TYPE_UTF16 →
      0 ≤ buffer.len)
    (habs : ∀ k : Nat, (k : Int) < fsw_strlen buffer →
      (charAt mem buffer k : Int) ≠ separator) :
    ∃ e b, fsw_strsplit mem element buffer separator = (e, b) ∧
      fsw_strlen e = fsw_strlen buffer ∧ strChars mem e = strChars mem buffer ∧
      fsw_strlen b = 0 := by
  by_cases h : buffer.type = FSW_STRING_TYPE_EMPTY ∨ buffer.len = 0
  · refine ⟨_, _, fsw_strsplit_empty mem element buffer separator h, ?_⟩
    have hb : fsw_strlen buffer = 0 := by
      unfold fsw_strlen
      rcases h with h | h
      · rw [if_pos h]
      · split_ifs <;> simp [h]
    have hb' : (if buffer.type = FSW_STRING_TYPE_EMPTY then 0 else buffer.len) = 0 := hb
    refine ⟨?_, ?_, ?_⟩
    · simp [fsw_strlen, hb']
    · simp [strChars, fsw_strlen, hb']
    · exact hb
  · have he : buffer.type ≠ FSW_STRING_TYPE_EMPTY := fun e => h (Or.inl e)
    have h0 : buffer.len ≠ 0 := fun e => h (Or.inr e)
    have hsl : fsw_strlen buffer = buffer.len := by simp [fsw_strlen, he]
    rw [hsl] at habs
    by_cases h1 : buffer.type = FSW_STRING_TYPE_ISO88591
    · have hnn := hlen (Or.inl h1)
      obtain ⟨n, hn⟩ : ∃ n : Nat, buffer.len = n := ⟨buffer.len.toNat, by omega⟩
      have hpos : 0 < n := by omega
      have h13 : ¬ buffer.type = FSW_STRING_TYPE_UTF16 := by rw [h1]; decide
      have habs1 : ∀ j : Nat, j < n → (readU8 mem (buffer.data + j) : Int) ≠ separator := by
        intro j hj
        have := habs j (by omega)
        simpa [charAt, h13] using this
      refine ⟨_, _, fsw_strsplit_iso_absent mem element buffer separator n h1 hn hpos habs1, ?_⟩
      simp [strChars, fsw_strlen, charAt, h1, hn, he]
    · by_cases h3 : buffer.type = FSW_STRING_TYPE_UTF16
      · have hnn := hlen (Or.inr h3)
        obtain ⟨n, hn⟩ : ∃ n : Nat, buffer.len = n := ⟨buffer.len.toNat, by omega⟩
        have hpos : 0 < n := by omega
        have habs3 : ∀ j : Nat, j < n →
            (readU16 mem (buffer.data + 2 * j) : Int) ≠ separator := by
          intro j hj
          have := habs j (by omega)
          simpa [charAt, h3] using this
        refine ⟨_, _,
          fsw_strsplit_utf16_absent mem element buffer separator n h3 hn hpos habs3, ?_⟩
        simp [strChars, fsw_strlen, charAt, h3, hn, he]
      · refine ⟨_, _, fsw_strsplit_fallback mem element buffer separator he h0 h1 h3, ?_⟩
        simp [fsw_strlen]

theorem fsw_strsplit_absent_witness :
    (isoBoot.type = FSW_STRING_TYPE_ISO88591 ∨ isoBoot.type = FSW_STRING_TYPE_UTF16 →
        0 ≤ isoBoot.len) ∧
      (∀ k : Nat, (k : Int) < fsw_strlen isoBoot → (charAt mixMem isoBoot k : Int) ≠ 92) ∧
      ∃ e b, fsw_strsplit mixMem emptyString isoBoot 92 = (e, b) ∧
        fsw_strlen e = fsw_strlen isoBoot ∧ strChars mixMem e = strChars mixMem isoBoot ∧
        fsw_strlen b = 0 :=
  have hlen : isoBoot.type = FSW_STRING_TYPE_ISO88591 ∨ isoBoot.type = FSW_STRING_TYPE_UTF16 →
      0 ≤ isoBoot.len := fun _ => by decide
  have habs : ∀ k : Nat, (k : Int) < fsw_strlen isoBoot →
      (charAt mixMem isoBoot k : Int) ≠ 92 := by
    intro k hk
    have hk4 : k < 4 := by
      have : fsw_strlen isoBoot = 4 := by decide
      omega
    interval_cases k <;> decide
  ⟨hlen, habs, fsw_strsplit_absent mixMem emptyString isoBoot 92 hlen habs⟩

/-- C11, as stated, fails for a negative len: an ISO-8859-1 buffer with len `-1`
holds no separator, yet after the call the element has `fsw_strlen` 0, not the
`-1` of the original, and the buffer is unchanged, with `fsw_strlen` `-1`. -/
theorem fsw_strsplit_absent_counterexample :
    definedType negBuf.type ∧
      (∀ k : Nat, (k : Int) < fsw_strlen negBuf → (charAt mixMem negBuf k : Int) ≠ 92) ∧
      fsw_strlen (fsw_strsplit mixMem emptyString negBuf 92).1 = 0 ∧
      fsw_strlen negBuf = -1 ∧
      (fsw_strsplit mixMem emptyString negBuf 92).2 = negBuf ∧
      fsw_strlen (fsw_strsplit mixMem emptyString negBuf 92).2 = -1 := by
  refine ⟨by decide, ?_, by decide, by decide, by decide, by decide⟩
  intro k hk
  have : fsw_strlen negBuf = -1 := by decide
  omega

/-- An absent separator on the example data: splitting `x64` gives `x64` and an
empty remainder. -/
theorem fsw_strsplit_absent_example :
    fsw_strsplit bootMem emptyString
        { type := FSW_STRING_TYPE_ISO88591, len := 3, size := 3, data := 109 } 92 =
      ({ type := FSW_STRING_TYPE_ISO88591, len := 3, size := 3, data := 109 },
       { type := FSW_STRING_TYPE_ISO88591, len := 0, size := 0, data := 112 }) := by
  decide

/-! ## `fsw_strdup_coerce` -/

theorem writeU8_apply (mem : Mem) (a v x : Nat) :
    writeU8 mem a v x = if x = a then v % 256 else mem x := rfl

theorem writeU16_apply (mem : Mem) (a v x : Nat) :
    writeU16 mem a v x =
      if x = a + 1 then v / 256 % 256 else if x = a then v % 256 else mem x := rfl

/-- The widening loop stores every source byte as one 16-bit unit and touches
nothing outside the destination block, when that block and the source bytes do
not overlap. -/
theorem strdup_widen_spec (n : Nat) :
    ∀ (mem : Mem) (sp dp : Nat),
      (∀ i j : Nat, i < n → j < 2 * n → sp + i ≠ dp + j) →
      (∀ i : Nat, i < n → readU16 (strdup_widen n mem sp dp) (dp + 2 * i) = readU8 mem (sp + i)) ∧
      (∀ a : Nat, a < dp ∨ dp + 2 * n ≤ a → strdup_widen n mem sp dp a = mem a) := by
  induction n with
  | zero =>
    intro mem sp dp _
    exact ⟨fun i hi => absurd hi (Nat.not_lt_zero i), fun a _ => rfl⟩
  | succ n ih =>
    intro mem sp dp hdis
    have hdis' : ∀ i j : Nat, i < n → j < 2 * n → sp + 1 + i ≠ dp + 2 + j := by
      intro i j hi hj
      have := hdis (i + 1) (j + 2) (by omega) (by omega)
      omega
    obtain ⟨hA, hB⟩ := ih (writeU16 mem dp (readU8 mem sp)) (sp + 1) (dp + 2) hdis'
    have hv := readU8_lt mem sp
    rw [strdup_widen]
    constructor
    · intro i hi
      rcases i with _ | k
      · have h0 := hB dp (Or.inl (by omega))
        have h1 := hB (dp + 1) (Or.inl (by omega))
        simp only [Nat.mul_zero, Nat.add_zero, readU16, readU8] at h0 h1 ⊢
        rw [h0, h1, writeU16_apply, writeU16_apply]
        simp only [Nat.add_zero, if_true, show ¬ (dp = dp + 1) by omega, if_false]
        have hv' : mem sp % 256 < 256 := hv
        omega
      · have hk := hA k (by omega)
        rw [show dp + 2 * (k + 1) = dp + 2 + 2 * k by ring, hk]
        have hne0 := hdis (k + 1) 0 (by omega) (by omega)
        have hne1 := hdis (k + 1) 1 (by omega) (by omega)
        simp only [readU8]
        rw [writeU16_apply, if_neg (by omega), if_neg (by omega)]
        rw [show sp + 1 + k = sp + (k + 1) by ring]
    · intro a ha
      rw [hB a (by omega), writeU16_apply, if_neg (by omega), if_neg (by omega)]

/-- The result of the ISO-8859-1 to UTF-16 branch when the allocator reports
success. -/
theorem fsw_strdup_coerce_widen (fsw_alloc : Int → Int × Nat) (mem : Mem)
    (dest src : fsw_string) (ht : src.type = FSW_STRING_TYPE_ISO88591) (h0 : src.len ≠ 0)
    (ha : (fsw_alloc (toInt32 (src.len * 2))).1 = FSW_SUCCESS) :
    fsw_strdup_coerce fsw_alloc mem dest FSW_STRING_TYPE_UTF16 src =
      { status := FSW_SUCCESS,
        dest := { type := FSW_STRING_TYPE_UTF16, len := src.len,
                  size := toInt32 (src.len * 2),
                  data := (fsw_alloc (toInt32 (src.len * 2))).2 },
        mem := strdup_widen src.len.toNat mem src.data (fsw_alloc (toInt32 (src.len * 2))).2,
        allocs := [toInt32 (src.len * 2)] } := by
  simp [fsw_strdup_coerce, ht, h0, ha]

/-- The result of the same-encoding branch when the allocator reports success. -/
theorem fsw_strdup_coerce_copy (fsw_alloc : Int → Int × Nat) (mem : Mem)
    (dest src : fsw_string) (he : src.type ≠ FSW_STRING_TYPE_EMPTY) (h0 : src.len ≠ 0)
    (ha : (fsw_alloc src.size).1 = FSW_SUCCESS) :
    fsw_strdup_coerce fsw_alloc mem dest src.type src =
      { status := FSW_SUCCESS,
        dest := { type := src.type, len := src.len, size := src.size,
                  data := (fsw_alloc src.size).2 },
        mem := fsw_memcpy mem (fsw_alloc src.size).2 src.data src.size,
        allocs := [src.size] } := by
  simp [fsw_strdup_coerce, he, h0, ha]

/-- The result for a source that is `EMPTY` or has len 0. -/
theorem fsw_strdup_coerce_empty (fsw_alloc : Int → Int × Nat) (mem : Mem)
    (dest : fsw_string) (type : Int) (src : fsw_string)
    (h : src.type = FSW_STRING_TYPE_EMPTY ∨ src.len = 0) :
    fsw_strdup_coerce fsw_alloc mem dest type src =
      { status := FSW_SUCCESS, dest := { type := type, len := 0, size := 0, data := NULL },
        mem := mem, allocs := [] } := by
  simp [fsw_strdup_coerce, h]

/-- Widening `boot` on the example data gives the UTF-16 units of `boot` at the
allocated address. -/
theorem fsw_strdup_coerce_example :
    (fsw_strdup_coerce allocAt300 mixMem emptyString FSW_STRING_TYPE_UTF16 isoBoot).dest =
        { type := FSW_STRING_TYPE_UTF16, len := 4, size := 8, data := 300 } ∧
      strChars (fsw_strdup_coerce allocAt300 mixMem emptyString FSW_STRING_TYPE_UTF16 isoBoot).mem
          (fsw_strdup_coerce allocAt300 mixMem emptyString FSW_STRING_TYPE_UTF16 isoBoot).dest =
        [98, 111, 111, 116] := by
  constructor <;> decide

theorem toInt32_double_of_nonneg (n : Int) (h0 : 0 ≤ n) (h1 : n ≤ INT_MAX)
    (h : 0 ≤ toInt32 (n * 2)) : toInt32 (n * 2) = 2 * n := by
  have h2 : n ≤ 2147483647 := h1
  unfold toInt32 at h ⊢
  omega

/-- C12, as the code has it: ISO-8859-1 to UTF-16 duplication widens each byte.
For an ISO88591 source with len `n > 0`, when allocation succeeds, that is when
`fsw_alloc` reports `FSW_SUCCESS` and the block handed out does not overlap the
source bytes, the call returns `FSW_SUCCESS` with dest.type = UTF16,
dest.len = `n`, and the `i`-th 16-bit unit of dest is the zero-extended `i`-th
byte of the source for every `i < n`; dest.size is `2 * n` whenever `2 * n`
fits the `int` size field. -/
theorem fsw_strdup_coerce_iso_utf16 (fsw_alloc : Int → Int × Nat) (mem : Mem)
    (dest src : fsw_string) (n : Nat)
    (ht : src.type = FSW_STRING_TYPE_ISO88591) (hlen : src.len = n) (hn : 0 < n)
    (hok : (fsw_alloc (toInt32 (src.len * 2))).1 = FSW_SUCCESS)
    (hdis : ∀ i j : Nat, i < n → j < 2 * n →
      src.data + i ≠ (fsw_alloc (toInt32 (src.len * 2))).2 + j) :
    ∃ r, fsw_strdup_coerce fsw_alloc mem dest FSW_STRING_TYPE_UTF16 src = r ∧
      r.status = FSW_SUCCESS ∧ r.dest.type = FSW_STRING_TYPE_UTF16 ∧ r.dest.len = n ∧
      (2 * (n : Int) ≤ INT_MAX → r.dest.size = 2 * (n : Int)) ∧
      ∀ i : Nat, i < n → readU16 r.mem (r.dest.data + 2 * i) = readU8 mem (src.data + i) := by
  have h0 : src.len ≠ 0 := by rw [hlen]; omega
  refine ⟨_, fsw_strdup_coerce_widen fsw_alloc mem dest src ht h0 hok, rfl, rfl, hlen, ?_, ?_⟩
  · intro hfit
    have hfit' : 2 * (n : Int) ≤ 2147483647 := hfit
    show toInt32 (src.len * 2) = 2 * (n : Int)
    rw [hlen, toInt32_of_fits _ (by omega) (by show (n : Int) * 2 ≤ 2147483647; omega)]
    ring
  · intro i hi
    have hnat : src.len.toNat = n := by rw [hlen]; simp
    show readU16 (strdup_widen src.len.toNat mem src.data _) (_ + 2 * i) = _
    rw [hnat]
    exact (strdup_widen_spec n mem src.data _ hdis).1 i hi

theorem fsw_strdup_coerce_iso_utf16_witness :
    isoBoot.type = FSW_STRING_TYPE_ISO88591 ∧ isoBoot.len = ((4 : Nat) : Int) ∧ 0 < 4 ∧
      (allocAt300 (toInt32 (isoBoot.len * 2))).1 = FSW_SUCCESS ∧
      (∀ i j : Nat, i < 4 → j < 2 * 4 →
        isoBoot.data + i ≠ (allocAt300 (toInt32 (isoBoot.len * 2))).2 + j) ∧
      ∃ r, fsw_strdup_coerce allocAt300 mixMem emptyString FSW_STRING_TYPE_UTF16 isoBoot = r ∧
        r.status = FSW_SUCCESS ∧ r.dest.type = FSW_STRING_TYPE_UTF16 ∧
        r.dest.len = ((4 : Nat) : Int) ∧
        (2 * ((4 : Nat) : Int) ≤ INT_MAX → r.dest.size = 2 * ((4 : Nat) : Int)) ∧
        ∀ i : Nat, i < 4 →
          readU16 r.mem (r.dest.data + 2 * i) = readU8 mixMem (isoBoot.data + i) :=
  have hdis : ∀ i j : Nat, i < 4 → j < 2 * 4 →
      isoBoot.data + i ≠ (allocAt300 (toInt32 (isoBoot.len * 2))).2 + j := by
    intro i j hi hj
    show 100 + i ≠ 300 + j
    omega
  ⟨rfl, rfl, by decide, rfl, hdis,
    fsw_strdup_coerce_iso_utf16 allocAt300 mixMem emptyString isoBoot 4 rfl rfl (by decide)
      rfl hdis⟩

/-- C12, as stated, fails on dest.size for a source of `2^30` characters: the
allocation succeeds, with a block that does not overlap the source, the call
returns `FSW_SUCCESS`, and dest.size, computed as `len * sizeof(fsw_u16)` and
stored in an `int`, is `-2^31` instead of `2^31`. -/
theorem fsw_strdup_coerce_iso_utf16_counterexample :
    bigIso.type = FSW_STRING_TYPE_ISO88591 ∧ 0 < bigIso.len ∧
      (allocHigh (toInt32 (bigIso.len * 2))).1 = FSW_SUCCESS ∧
      (∀ i j : Nat, i < 1073741824 → j < 2 * 1073741824 →
        bigIso.data + i ≠ (allocHigh (toInt32 (bigIso.len * 2))).2 + j) ∧
      (fsw_strdup_coerce allocHigh mixMem emptyString FSW_STRING_TYPE_UTF16 bigIso).status =
        FSW_SUCCESS ∧
      (fsw_strdup_coerce allocHigh mixMem emptyString FSW_STRING_TYPE_UTF16 bigIso).dest.size =
        -2147483648 ∧
      (fsw_strdup_coerce allocHigh mixMem emptyString FSW_STRING_TYPE_UTF16 bigIso).dest.size ≠
        2 * bigIso.len := by
  have h := fsw_strdup_coerce_widen allocHigh mixMem emptyString bigIso rfl (by decide) rfl
  have hsize : toInt32 (bigIso.len * 2) = -2147483648 := by decide
  refine ⟨rfl, by decide, rfl, ?_, ?_, ?_, ?_⟩
  · intro i j hi hj
    show 4096 + i ≠ 4294967296 + j
    omega
  · rw [h]
  · rw [h]; exact hsize
  · rw [h]
    show toInt32 (bigIso.len * 2) ≠ 2 * bigIso.len
    rw [hsize]; decide

theorem readU8_fsw_memcpy (mem : Mem) (d sp : Nat) (size : Int) (i : Nat)
    (hi : (i : Int) < size) :
    readU8 (fsw_memcpy mem d sp size) (d + i) = readU8 mem (sp + i) := by
  have h : d ≤ d + i ∧ d + i < d + size.toNat := ⟨by omega, by omega⟩
  simp only [readU8, fsw_memcpy, h, and_self, if_true, Nat.add_sub_cancel_left, Nat.mod_mod]

/-- C13: same-encoding duplication is a byte-exact copy. For a source of an
encoding other than EMPTY with len ≠ 0 and the target type equal to its own,
when `fsw_alloc` reports `FSW_SUCCESS` the call returns `FSW_SUCCESS`, dest has
the type, len and size of the source, its data is the block handed out by the
one allocation made (of `size` bytes), and the first `size` bytes of dest are
those of the source. -/
theorem fsw_strdup_coerce_same_type (fsw_alloc : Int → Int × Nat) (mem : Mem)
    (dest src : fsw_string) (he : src.type ≠ FSW_STRING_TYPE_EMPTY) (h0 : src.len ≠ 0)
    (hok : (fsw_alloc src.size).1 = FSW_SUCCESS) :
    ∃ r, fsw_strdup_coerce fsw_alloc mem dest src.type src = r ∧
      r.status = FSW_SUCCESS ∧ r.dest.type = src.type ∧ r.dest.len = src.len ∧
      r.dest.size = src.size ∧ r.dest.data = (fsw_alloc src.size).2 ∧
      r.allocs = [src.size] ∧
      ∀ i : Nat, (i : Int) < src.size →
        readU8 r.mem (r.dest.data + i) = readU8 mem (src.data + i) :=
  ⟨_, fsw_strdup_coerce_copy fsw_alloc mem dest src he h0 hok, rfl, rfl, rfl, rfl, rfl, rfl,
    fun i hi => readU8_fsw_memcpy mem _ src.data src.size i hi⟩

theorem fsw_strdup_coerce_same_type_witness :
    utf16Boot.type ≠ FSW_STRING_TYPE_EMPTY ∧ utf16Boot.len ≠ 0 ∧
      (allocAt300 utf16Boot.size).1 = FSW_SUCCESS ∧
      ∃ r, fsw_strdup_coerce allocAt300 mixMem emptyString utf16Boot.type utf16Boot = r ∧
        r.status = FSW_SUCCESS ∧ r.dest.type = utf16Boot.type ∧ r.dest.len = utf16Boot.len ∧
        r.dest.size = utf16Boot.size ∧ r.dest.data = (allocAt300 utf16Boot.size).2 ∧
        r.allocs = [utf16Boot.size] ∧
        ∀ i : Nat, (i : Int) < utf16Boot.size →
          readU8 r.mem (r.dest.data + i) = readU8 mixMem (utf16Boot.data + i) :=
  ⟨by decide, by decide, rfl,
    fsw_strdup_coerce_same_type allocAt300 mixMem emptyString utf16Boot (by decide) (by decide)
      rfl⟩

/-- C14: unsupported conversions fail with `FSW_UNSUPPORTED`. With an allocator
that never reports `FSW_UNSUPPORTED` itself, the call returns `FSW_UNSUPPORTED`
exactly when the source is not EMPTY, has len ≠ 0, the target type differs from
its type, and the pair is not ISO88591 to UTF16. In particular UTF16 to
ISO88591, ISO88591 to UTF8 and every conversion from or to UTF8 of such a
source are rejected. -/
theorem fsw_strdup_coerce_unsupported_iff (fsw_alloc : Int → Int × Nat) (mem : Mem)
    (dest : fsw_string) (type : Int) (src : fsw_string)
    (halloc : ∀ z : Int, (fsw_alloc z).1 ≠ FSW_UNSUPPORTED) :
    ((fsw_strdup_coerce fsw_alloc mem dest type src).status = FSW_UNSUPPORTED ↔
        src.type ≠ FSW_STRING_TYPE_EMPTY ∧ src.len ≠ 0 ∧ type ≠ src.type ∧
          ¬ (src.type = FSW_STRING_TYPE_ISO88591 ∧ type = FSW_STRING_TYPE_UTF16)) ∧
      (src.type ≠ FSW_STRING_TYPE_EMPTY → src.len ≠ 0 →
        (src.type = FSW_STRING_TYPE_UTF16 ∧ type = FSW_STRING_TYPE_ISO88591) ∨
          (src.type = FSW_STRING_TYPE_ISO88591 ∧ type = FSW_STRING_TYPE_UTF8) ∨
          (src.type = FSW_STRING_TYPE_UTF8 ∧ type ≠ FSW_STRING_TYPE_UTF8) ∨
          (type = FSW_STRING_TYPE_UTF8 ∧ src.type ≠ FSW_STRING_TYPE_UTF8) →
        (fsw_strdup_coerce fsw_alloc mem dest type src).status = FSW_UNSUPPORTED) := by
  have hiff : (fsw_strdup_coerce fsw_alloc mem dest type src).status = FSW_UNSUPPORTED ↔
      src.type ≠ FSW_STRING_TYPE_EMPTY ∧ src.len ≠ 0 ∧ type ≠ src.type ∧
        ¬ (src.type = FSW_STRING_TYPE_ISO88591 ∧ type = FSW_STRING_TYPE_UTF16) := by
    have h03 : ¬ ((FSW_SUCCESS : Int) = FSW_UNSUPPORTED) := by decide
    unfold fsw_strdup_coerce
    by_cases h : src.type = FSW_STRING_TYPE_EMPTY ∨ src.len = 0
    · rw [if_pos h]
      constructor
      · intro hs
        exact absurd hs h03
      · rintro ⟨he, h0, -, -⟩
        rcases h with h | h
        · exact absurd h he
        · exact absurd h h0
    · have he : src.type ≠ FSW_STRING_TYPE_EMPTY := fun e => h (Or.inl e)
      have h0 : src.len ≠ 0 := fun e => h (Or.inr e)
      rw [if_neg h]
      by_cases hs : src.type = type
      · rw [if_pos hs]
        constructor
        · intro hst
          dsimp only at hst
          split_ifs at hst with ha
          · exact absurd hst (halloc _)
          · exact absurd hst h03
        · rintro ⟨-, -, hne, -⟩
          exact absurd hs.symm hne
      · rw [if_neg hs]
        by_cases hw : src.type = FSW_STRING_TYPE_ISO88591 ∧ type = FSW_STRING_TYPE_UTF16
        · rw [if_pos hw]
          constructor
          · intro hst
            dsimp only at hst
            split_ifs at hst with ha
            · exact absurd hst (halloc _)
            · exact absurd hst h03
          · rintro ⟨-, -, -, hn⟩
            exact absurd hw hn
        · rw [if_neg hw]
          exact ⟨fun _ => ⟨he, h0, fun e => hs e.symm, hw⟩, fun _ => rfl⟩
  refine ⟨hiff, ?_⟩
  intro he h0 hc
  rw [hiff]
  refine ⟨he, h0, ?_, ?_⟩
  · rcases hc with ⟨a, b⟩ | ⟨a, b⟩ | ⟨a, b⟩ | ⟨a, b⟩
    · rw [a, b]; decide
    · rw [a, b]; decide
    · rw [a]; exact b
    · rw [a]; exact fun e => b e.symm
  · rintro ⟨a, b⟩
    rcases hc with ⟨c, d⟩ | ⟨c, d⟩ | ⟨c, d⟩ | ⟨c, d⟩
    · rw [a] at c; exact absurd c (by decide)
    · rw [b] at d; exact absurd d (by decide)
    · rw [a] at c; exact absurd c (by decide)
    · rw [b] at c; exact absurd c (by decide)

theorem fsw_strdup_coerce_unsupported_iff_witness :
    (∀ z : Int, (allocAt300 z).1 ≠ FSW_UNSUPPORTED) ∧
      ((fsw_strdup_coerce allocAt300 mixMem emptyString FSW_STRING_TYPE_ISO88591
            utf16Boot).status = FSW_UNSUPPORTED ↔
          utf16Boot.type ≠ FSW_STRING_TYPE_EMPTY ∧ utf16Boot.len ≠ 0 ∧
            FSW_STRING_TYPE_ISO88591 ≠ utf16Boot.type ∧
            ¬ (utf16Boot.type = FSW_STRING_TYPE_ISO88591 ∧
              FSW_STRING_TYPE_ISO88591 = FSW_STRING_TYPE_UTF16)) ∧
      (utf16Boot.type ≠ FSW_STRING_TYPE_EMPTY → utf16Boot.len ≠ 0 →
        (utf16Boot.type = FSW_STRING_TYPE_UTF16 ∧
            FSW_STRING_TYPE_ISO88591 = FSW_STRING_TYPE_ISO88591) ∨
          (utf16Boot.type = FSW_STRING_TYPE_ISO88591 ∧
            FSW_STRING_TYPE_ISO88591 = FSW_STRING_TYPE_UTF8) ∨
          (utf16Boot.type = FSW_STRING_TYPE_UTF8 ∧
            FSW_STRING_TYPE_ISO88591 ≠ FSW_STRING_TYPE_UTF8) ∨
          (FSW_STRING_TYPE_ISO88591 = FSW_STRING_TYPE_UTF8 ∧
            utf16Boot.type ≠ FSW_STRING_TYPE_UTF8) →
        (fsw_strdup_coerce allocAt300 mixMem emptyString FSW_STRING_TYPE_ISO88591
          utf16Boot).status = FSW_UNSUPPORTED) :=
  have halloc : ∀ z : Int, (allocAt300 z).1 ≠ FSW_UNSUPPORTED := by
    intro z
    show (FSW_SUCCESS : Int) ≠ FSW_UNSUPPORTED
    decide
  ⟨halloc, fsw_strdup_coerce_unsupported_iff allocAt300 mixMem emptyString
    FSW_STRING_TYPE_ISO88591 utf16Boot halloc⟩

/-- The conversions the code rejects on the example data, and the one it
performs. -/
theorem fsw_strdup_coerce_status_example :
    (fsw_strdup_coerce allocAt300 mixMem emptyString FSW_STRING_TYPE_ISO88591
        utf16Boot).status = FSW_UNSUPPORTED ∧
      (fsw_strdup_coerce allocAt300 mixMem emptyString FSW_STRING_TYPE_UTF8
        isoBoot).status = FSW_UNSUPPORTED ∧
      (fsw_strdup_coerce allocAt300 mixMem emptyString FSW_STRING_TYPE_UTF16
        utf8Boot).status = FSW_UNSUPPORTED ∧
      (fsw_strdup_coerce allocAt300 mixMem emptyString FSW_STRING_TYPE_UTF16
        isoBoot).status = FSW_SUCCESS ∧
      (fsw_strdup_coerce allocFail mixMem emptyString FSW_STRING_TYPE_UTF16
        isoBoot).status = FSW_OUT_OF_MEMORY := by
  refine ⟨?_, ?_, ?_, ?_, ?_⟩ <;> decide

/-- A string of len 0 and an `EMPTY` string compare equal in both orders. -/
theorem fsw_streq_zero_len_empty (mem : Mem) (fuel : Nat) (d e : fsw_string)
    (hd : d.len = 0) (he : e.type = FSW_STRING_TYPE_EMPTY) :
    fsw_streq (fuel + 3) mem d e = some true ∧ fsw_streq (fuel + 3) mem e d = some true := by
  have hte : streq_temp.type ≠ FSW_STRING_TYPE_EMPTY := by decide
  by_cases ed : d.type = FSW_STRING_TYPE_EMPTY
  · constructor
    · rw [fsw_streq_succ, if_pos ed, fsw_streq_succ, if_neg hte, if_pos he, fsw_streq_succ]
      simp [streq_temp]
    · rw [fsw_streq_succ, if_pos he, fsw_streq_succ, if_neg hte, if_pos ed, fsw_streq_succ]
      simp [streq_temp]
  · constructor
    · rw [fsw_streq_succ, if_neg ed, if_pos he, fsw_streq_succ, if_neg ed, if_neg hte]
      simp [streq_temp, hd]
    · rw [fsw_streq_succ, if_pos he, fsw_streq_succ, if_neg hte, if_neg ed]
      simp [streq_temp, hd]

/-- C15: converting an empty input always succeeds. For a source of type EMPTY
or of len 0 and every target type, the call returns `FSW_SUCCESS`, requests no
allocation, leaves the memory as it was, and sets dest to the requested type
with len = size = 0 and data = NULL; that dest compares equal to every `EMPTY`
string under `fsw_streq`, in both operand orders. -/
theorem fsw_strdup_coerce_of_empty (fsw_alloc : Int → Int × Nat) (mem : Mem)
    (dest : fsw_string) (type : Int) (src : fsw_string)
    (h : src.type = FSW_STRING_TYPE_EMPTY ∨ src.len = 0) :
    ∃ r, fsw_strdup_coerce fsw_alloc mem dest type src = r ∧
      r.status = FSW_SUCCESS ∧ r.allocs = [] ∧ r.mem = mem ∧
      r.dest = { type := type, len := 0, size := 0, data := NULL } ∧
      ∀ (e : fsw_string) (fuel : Nat), e.type = FSW_STRING_TYPE_EMPTY →
        fsw_streq (fuel + 3) r.mem r.dest e = some true ∧
          fsw_streq (fuel + 3) r.mem e r.dest = some true :=
  ⟨_, fsw_strdup_coerce_empty fsw_alloc mem dest type src h, rfl, rfl, rfl, rfl,
    fun e fuel he => fsw_streq_zero_len_empty mem fuel _ e rfl he⟩

theorem fsw_strdup_coerce_of_empty_witness :
    (utf8Zero.type = FSW_STRING_TYPE_EMPTY ∨ utf8Zero.len = 0) ∧
      ∃ r, fsw_strdup_coerce allocFail mixMem isoBoot FSW_STRING_TYPE_UTF16 utf8Zero = r ∧
        r.status = FSW_SUCCESS ∧ r.allocs = [] ∧ r.mem = mixMem ∧
        r.dest = { type := FSW_STRING_TYPE_UTF16, len := 0, size := 0, data := NULL } ∧
        ∀ (e : fsw_string) (fuel : Nat), e.type = FSW_STRING_TYPE_EMPTY →
          fsw_streq (fuel + 3) r.mem r.dest e = some true ∧
            fsw_streq (fuel + 3) r.mem e r.dest = some true :=
  ⟨Or.inr rfl,
    fsw_strdup_coerce_of_empty allocFail mixMem isoBoot FSW_STRING_TYPE_UTF16 utf8Zero
      (Or.inr rfl)⟩

/-! ## The size invariant -/

/-- Among the first `n` indices either some index is the first to satisfy `f`,
or none satisfies it. -/
theorem first_or_absent (f : Nat → Prop) [DecidablePred f] (n : Nat) :
    (∃ i, i < n ∧ f i ∧ ∀ j, j < i → ¬ f j) ∨ (∀ j, j < n → ¬ f j) := by
  by_cases h : ∃ i, i < n ∧ f i
  · left
    refine ⟨Nat.find h, (Nat.find_spec h).1, (Nat.find_spec h).2, ?_⟩
    intro j hj hf
    exact Nat.find_min h hj ⟨lt_trans hj (Nat.find_spec h).1, hf⟩
  · right
    intro j hj hf
    exact h ⟨j, hj, hf⟩

/-- Both descriptors after a split are size-consistent, for a size-consistent
buffer with len ≥ 0 whose size fits an `int`. -/
theorem fsw_strsplit_sizeConsistent (mem : Mem) (element s : fsw_string) (separator : Int)
    (hlen : 0 ≤ s.len) (hcons : sizeConsistent s) (hint : s.size ≤ INT_MAX) :
    sizeConsistent (fsw_strsplit mem element s separator).1 ∧
      sizeConsistent (fsw_strsplit mem element s separator).2 := by
  have h13 : ¬ ((FSW_STRING_TYPE_ISO88591 : Int) = FSW_STRING_TYPE_UTF16) := by decide
  have h31 : ¬ ((FSW_STRING_TYPE_UTF16 : Int) = FSW_STRING_TYPE_ISO88591) := by decide
  have h03 : ¬ ((FSW_STRING_TYPE_EMPTY : Int) = FSW_STRING_TYPE_UTF16) := by decide
  have h01 : ¬ ((FSW_STRING_TYPE_EMPTY : Int) = FSW_STRING_TYPE_ISO88591) := by decide
  by_cases h : s.type = FSW_STRING_TYPE_EMPTY ∨ s.len = 0
  · rw [fsw_strsplit_empty mem element s separator h]
    exact ⟨⟨fun e => absurd e h03, fun e => absurd e h01⟩, hcons⟩
  have he : s.type ≠ FSW_STRING_TYPE_EMPTY := fun e => h (Or.inl e)
  have h0 : s.len ≠ 0 := fun e => h (Or.inr e)
  obtain ⟨n, hn⟩ : ∃ n : Nat, s.len = n := ⟨s.len.toNat, by omega⟩
  have hpos : 0 < n := by omega
  by_cases h1 : s.type = FSW_STRING_TYPE_ISO88591
  · rcases first_or_absent (fun j => (readU8 mem (s.data + j) : Int) = separator) n with
      ⟨i, hi, hs, hf⟩ | habs
    · rw [fsw_strsplit_iso_found mem element s separator n i h1 hn hi hs hf]
      exact ⟨⟨fun e => absurd e h13, fun _ => rfl⟩, ⟨fun e => absurd e h13, fun _ => rfl⟩⟩
    · rw [fsw_strsplit_iso_absent mem element s separator n h1 hn hpos habs]
      exact ⟨⟨fun e => absurd e h13, fun _ => rfl⟩, ⟨fun e => absurd e h13, fun _ => rfl⟩⟩
  by_cases h3 : s.type = FSW_STRING_TYPE_UTF16
  · have hsz : s.size = 2 * s.len := hcons.1 h3
    have hfit : 2 * (n : Int) ≤ 2147483647 := by
      have : s.size ≤ 2147483647 := hint
      omega
    rcases first_or_absent (fun j => (readU16 mem (s.data + 2 * j) : Int) = separator) n with
      ⟨i, hi, hs, hf⟩ | habs
    · rw [fsw_strsplit_utf16_found mem element s separator n i h3 hn hi hs hf]
      refine ⟨⟨fun _ => ?_, fun e => absurd e h31⟩, ⟨fun _ => ?_, fun e => absurd e h31⟩⟩
      · show toInt32 ((i : Int) * 2) = 2 * (i : Int)
        rw [toInt32_of_fits _ (by omega) (by show (i : Int) * 2 ≤ 2147483647; omega)]
        ring
      · show toInt32 (((n : Int) - (i + 1)) * 2) = 2 * ((n : Int) - (i + 1))
        rw [toInt32_of_fits _ (by omega)
          (by show ((n : Int) - (i + 1)) * 2 ≤ 2147483647; omega)]
        ring
    · rw [fsw_strsplit_utf16_absent mem element s separator n h3 hn hpos habs]
      refine ⟨⟨fun _ => ?_, fun e => absurd e h31⟩, ⟨fun _ => rfl, fun e => absurd e h31⟩⟩
      show toInt32 ((n : Int) * 2) = 2 * (n : Int)
      rw [toInt32_of_fits _ (by omega) (by show (n : Int) * 2 ≤ 2147483647; omega)]
      ring
  · rw [fsw_strsplit_fallback mem element s separator he h0 h1 h3]
    exact ⟨hcons, ⟨fun e => absurd e h03, fun e => absurd e h01⟩⟩

/-- The result of the same-encoding branch when the allocator reports failure. -/
theorem fsw_strdup_coerce_copy_fail (fsw_alloc : Int → Int × Nat) (mem : Mem)
    (dest src : fsw_string) (he : src.type ≠ FSW_STRING_TYPE_EMPTY) (h0 : src.len ≠ 0)
    (ha : (fsw_alloc src.size).1 ≠ FSW_SUCCESS) :
    fsw_strdup_coerce fsw_alloc mem dest src.type src =
      { status := (fsw_alloc src.size).1,
        dest := { type := src.type, len := src.len, size := src.size,
                  data := (fsw_alloc src.size).2 },
        mem := mem, allocs := [src.size] } := by
  have ha' : ¬ (fsw_alloc src.size).1 = 0 := ha
  simp [fsw_strdup_coerce, he, h0, ha']

/-- The result of the ISO-8859-1 to UTF-16 branch when the allocator reports
failure. -/
theorem fsw_strdup_coerce_widen_fail (fsw_alloc : Int → Int × Nat) (mem : Mem)
    (dest src : fsw_string) (ht : src.type = FSW_STRING_TYPE_ISO88591) (h0 : src.len ≠ 0)
    (ha : (fsw_alloc (toInt32 (src.len * 2))).1 ≠ FSW_SUCCESS) :
    fsw_strdup_coerce fsw_alloc mem dest FSW_STRING_TYPE_UTF16 src =
      { status := (fsw_alloc (toInt32 (src.len * 2))).1,
        dest := { type := FSW_STRING_TYPE_UTF16, len := src.len,
                  size := toInt32 (src.len * 2),
                  data := (fsw_alloc (toInt32 (src.len * 2))).2 },
        mem := mem, allocs := [toInt32 (src.len * 2)] } := by
  have ha' : ¬ (fsw_alloc (toInt32 (src.len * 2))).1 = 0 := ha
  simp [fsw_strdup_coerce, ht, h0, ha']

/-- The result for a conversion the code does not implement. -/
theorem fsw_strdup_coerce_unsupported (fsw_alloc : Int → Int × Nat) (mem : Mem)
    (dest : fsw_string) (type : Int) (src : fsw_string)
    (he : src.type ≠ FSW_STRING_TYPE_EMPTY) (h0 : src.len ≠ 0) (hs : src.type ≠ type)
    (hw : ¬ (src.type = FSW_STRING_TYPE_ISO88591 ∧ type = FSW_STRING_TYPE_UTF16)) :
    fsw_strdup_coerce fsw_alloc mem dest type src =
      { status := FSW_UNSUPPORTED, dest := dest, mem := mem, allocs := [] } := by
  have h : ¬ (src.type = FSW_STRING_TYPE_EMPTY ∨ src.len = 0) := by
    rintro (h | h)
    · exact he h
    · exact h0 h
  unfold fsw_strdup_coerce
  rw [if_neg h, if_neg hs, if_neg hw]

/-- The descriptor `dest` of a successful duplication is size-consistent, for a
size-consistent source with len ≥ 0, provided that `2 * len` fits an `int` when
the conversion is ISO-8859-1 to UTF-16. -/
theorem fsw_strdup_coerce_sizeConsistent (fsw_alloc : Int → Int × Nat) (mem : Mem)
    (dest : fsw_string) (type : Int) (s : fsw_string)
    (hlen : 0 ≤ s.len) (hcons : sizeConsistent s)
    (hok : (fsw_strdup_coerce fsw_alloc mem dest type s).status = FSW_SUCCESS)
    (hfit : s.type = FSW_STRING_TYPE_ISO88591 → type = FSW_STRING_TYPE_UTF16 →
      2 * s.len ≤ INT_MAX) :
    sizeConsistent (fsw_strdup_coerce fsw_alloc mem dest type s).dest := by
  have h03 : ¬ ((FSW_UNSUPPORTED : Int) = FSW_SUCCESS) := by decide
  have h31 : ¬ ((FSW_STRING_TYPE_UTF16 : Int) = FSW_STRING_TYPE_ISO88591) := by decide
  by_cases h : s.type = FSW_STRING_TYPE_EMPTY ∨ s.len = 0
  · rw [fsw_strdup_coerce_empty fsw_alloc mem dest type s h]
    exact ⟨fun _ => rfl, fun _ => rfl⟩
  have he : s.type ≠ FSW_STRING_TYPE_EMPTY := fun e => h (Or.inl e)
  have h0 : s.len ≠ 0 := fun e => h (Or.inr e)
  by_cases hs : s.type = type
  · subst hs
    by_cases ha : (fsw_alloc s.size).1 = FSW_SUCCESS
    · rw [fsw_strdup_coerce_copy fsw_alloc mem dest s he h0 ha]
      exact hcons
    · rw [fsw_strdup_coerce_copy_fail fsw_alloc mem dest s he h0 ha] at hok
      exact absurd hok ha
  by_cases hw : s.type = FSW_STRING_TYPE_ISO88591 ∧ type = FSW_STRING_TYPE_UTF16
  · obtain ⟨hw1, hw2⟩ := hw
    have hfit' : 2 * s.len ≤ 2147483647 := hfit hw1 hw2
    subst hw2
    by_cases ha : (fsw_alloc (toInt32 (s.len * 2))).1 = FSW_SUCCESS
    · rw [fsw_strdup_coerce_widen fsw_alloc mem dest s hw1 h0 ha]
      refine ⟨fun _ => ?_, fun e => absurd e h31⟩
      show toInt32 (s.len * 2) = 2 * s.len
      rw [toInt32_of_fits _ (by omega) (by show s.len * 2 ≤ 2147483647; omega)]
      ring
    · rw [fsw_strdup_coerce_widen_fail fsw_alloc mem dest s hw1 h0 ha] at hok
      exact absurd hok ha
  · rw [fsw_strdup_coerce_unsupported fsw_alloc mem dest type s he h0 hs hw] at hok
    exact absurd hok h03

/-- C16, as the code has it: the string operations preserve the size invariant.
For an input string with len ≥ 0 whose size, a C `int`, is consistent with its
encoding (UTF-16: size = 2·len, ISO-8859-1: size = len): the dest of a
successful `fsw_strdup_coerce` is size-consistent, provided that `2 * len` fits
the `int` size field when the conversion is ISO-8859-1 to UTF-16; and the
element and the remaining buffer after `fsw_strsplit` are size-consistent. -/
theorem size_invariant_preserved (fsw_alloc : Int → Int × Nat) (mem : Mem)
    (dest element s : fsw_string) (type separator : Int)
    (hlen : 0 ≤ s.len) (hcons : sizeConsistent s) (hint : s.size ≤ INT_MAX) :
    ((fsw_strdup_coerce fsw_alloc mem dest type s).status = FSW_SUCCESS →
        (s.type = FSW_STRING_TYPE_ISO88591 → type = FSW_STRING_TYPE_UTF16 →
          2 * s.len ≤ INT_MAX) →
        sizeConsistent (fsw_strdup_coerce fsw_alloc mem dest type s).dest) ∧
      sizeConsistent (fsw_strsplit mem element s separator).1 ∧
      sizeConsistent (fsw_strsplit mem element s separator).2 :=
  ⟨fsw_strdup_coerce_sizeConsistent fsw_alloc mem dest type s hlen hcons,
    fsw_strsplit_sizeConsistent mem element s separator hlen hcons hint⟩

theorem size_invariant_preserved_witness :
    0 ≤ isoBoot.len ∧ sizeConsistent isoBoot ∧ isoBoot.size ≤ INT_MAX ∧
      ((fsw_strdup_coerce allocAt300 mixMem emptyString FSW_STRING_TYPE_UTF16
            isoBoot).status = FSW_SUCCESS →
          (isoBoot.type = FSW_STRING_TYPE_ISO88591 →
            FSW_STRING_TYPE_UTF16 = FSW_STRING_TYPE_UTF16 → 2 * isoBoot.len ≤ INT_MAX) →
          sizeConsistent (fsw_strdup_coerce allocAt300 mixMem emptyString
            FSW_STRING_TYPE_UTF16 isoBoot).dest) ∧
      sizeConsistent (fsw_strsplit mixMem emptyString isoBoot 111).1 ∧
      sizeConsistent (fsw_strsplit mixMem emptyString isoBoot 111).2 :=
  ⟨by decide, by decide, by decide,
    size_invariant_preserved allocAt300 mixMem emptyString emptyString isoBoot
      FSW_STRING_TYPE_UTF16 111 (by decide) (by decide) (by decide)⟩

/-- C16, as stated, fails for the duplication of a size-consistent ISO-8859-1
string of `2^30` characters to UTF-16: the call returns `FSW_SUCCESS` and dest
has len `2^30` and size `-2^31`, which is not twice the len. -/
theorem size_invariant_preserved_counterexample :
    0 ≤ bigIso.len ∧ sizeConsistent bigIso ∧ bigIso.len ≤ INT_MAX ∧
      bigIso.size ≤ INT_MAX ∧
      (fsw_strdup_coerce allocHigh mixMem emptyString FSW_STRING_TYPE_UTF16 bigIso).status =
        FSW_SUCCESS ∧
      (fsw_strdup_coerce allocHigh mixMem emptyString FSW_STRING_TYPE_UTF16 bigIso).dest.type =
        FSW_STRING_TYPE_UTF16 ∧
      (fsw_strdup_coerce allocHigh mixMem emptyString FSW_STRING_TYPE_UTF16 bigIso).dest.len =
        1073741824 ∧
      (fsw_strdup_coerce allocHigh mixMem emptyString FSW_STRING_TYPE_UTF16 bigIso).dest.size =
        -2147483648 ∧
      ¬ sizeConsistent
        (fsw_strdup_coerce allocHigh mixMem emptyString FSW_STRING_TYPE_UTF16 bigIso).dest := by
  have h := fsw_strdup_coerce_widen allocHigh mixMem emptyString bigIso rfl (by decide) rfl
  have hsize : toInt32 (bigIso.len * 2) = -2147483648 := by decide
  refine ⟨by decide, by decide, by decide, by decide, ?_, ?_, ?_, ?_, ?_⟩
  · rw [h]
  · rw [h]
  · rw [h]; rfl
  · rw [h]; exact hsize
  · rw [h]
    intro hc
    have h2 : toInt32 (bigIso.len * 2) = 2 * bigIso.len := hc.1 rfl
    rw [hsize] at h2
    exact absurd h2 (by decide)

/-- The invariant on the example data: widening `boot` and splitting the UTF-16
`boot` on `o` give size-consistent descriptors. -/
theorem size_invariant_example :
    (fsw_strdup_coerce allocFrom300 mixMem emptyString FSW_STRING_TYPE_UTF16
        isoBoot).status = FSW_SUCCESS ∧
      sizeConsistent (fsw_strdup_coerce allocFrom300 mixMem emptyString
        FSW_STRING_TYPE_UTF16 isoBoot).dest ∧
      sizeConsistent (fsw_strsplit mixMem emptyString utf16Boot 111).1 ∧
      sizeConsistent (fsw_strsplit mixMem emptyString utf16Boot 111).2 := by
  refine ⟨?_, ?_, ?_, ?_⟩ <;> decide

/-! ## `fsw_strfree` -/

/-- C17: release is a no-op for `EMPTY` and leaves every string `EMPTY`. For a
string `e` of type EMPTY, `fsw_strfree` hands nothing to `fsw_free` and leaves
the type EMPTY. For every string `s`, after `fsw_strfree` the type is EMPTY and
`fsw_strlen` is 0, a second `fsw_strfree` on the result hands nothing to
`fsw_free`, and the two calls together free at most one pointer, which is the
data pointer of `s`. -/
theorem fsw_strfree_once (s e : fsw_string) (he : e.type = FSW_STRING_TYPE_EMPTY) :
    (fsw_strfree e).2 = [] ∧ (fsw_strfree e).1.type = FSW_STRING_TYPE_EMPTY ∧
      (fsw_strfree s).1.type = FSW_STRING_TYPE_EMPTY ∧ fsw_strlen (fsw_strfree s).1 = 0 ∧
      (fsw_strfree (fsw_strfree s).1).2 = [] ∧
      ((fsw_strfree s).2 ++ (fsw_strfree (fsw_strfree s).1).2).length ≤ 1 ∧
      (∀ p, p ∈ (fsw_strfree s).2 ++ (fsw_strfree (fsw_strfree s).1).2 → p = s.data) := by
  refine ⟨by simp [fsw_strfree, he], rfl, rfl, by simp [fsw_strfree, fsw_strlen],
    by simp [fsw_strfree], ?_, ?_⟩
  · have h2 : (fsw_strfree (fsw_strfree s).1).2 = [] := by simp [fsw_strfree]
    rw [h2, List.append_nil]
    simp only [fsw_strfree]
    split_ifs <;> simp
  · intro p hp
    simp only [fsw_strfree] at hp
    split_ifs at hp <;> simp_all

theorem fsw_strfree_once_witness :
    emptyString.type = FSW_STRING_TYPE_EMPTY ∧
      (fsw_strfree emptyString).2 = [] ∧
      (fsw_strfree emptyString).1.type = FSW_STRING_TYPE_EMPTY ∧
      (fsw_strfree utf16Boot).1.type = FSW_STRING_TYPE_EMPTY ∧
      fsw_strlen (fsw_strfree utf16Boot).1 = 0 ∧
      (fsw_strfree (fsw_strfree utf16Boot).1).2 = [] ∧
      ((fsw_strfree utf16Boot).2 ++ (fsw_strfree (fsw_strfree utf16Boot).1).2).length ≤ 1 ∧
      (∀ p, p ∈ (fsw_strfree utf16Boot).2 ++ (fsw_strfree (fsw_strfree utf16Boot).1).2 →
        p = utf16Boot.data) :=
  ⟨rfl, fsw_strfree_once utf16Boot emptyString rfl⟩

/-- Release on the example data: the first call frees the data pointer, the
second frees nothing. -/
theorem fsw_strfree_example :
    (fsw_strfree utf16Boot).2 = [200] ∧ (fsw_strfree (fsw_strfree utf16Boot).1).2 = [] := by
  constructor <;> decide

/-! ## The node store -/

/-- Mapping with a function that only changes nodes at address `a` leaves a
list without such a node as it is. -/
theorem map_other_nodes (l : List fsw_dnode) (a : Nat) (g : fsw_dnode → fsw_dnode)
    (hfresh : ∀ d ∈ l, d.addr ≠ a) :
    (l.map fun d => if d.addr = a then g d else d) = l := by
  induction l with
  | nil => rfl
  | cons x xs ih =>
    have hx : x.addr ≠ a := hfresh x (List.mem_cons_self x xs)
    have hxs : ∀ d ∈ xs, d.addr ≠ a := fun d hd => hfresh d (List.mem_cons_of_mem x hd)
    simp only [List.map_cons, if_neg hx, ih hxs]

/-- C18: refcount invariant of the node store. For a volume without a node at
address `a`: after `fsw_dnode_create` the node at `a` is in the volume's list
with refcount 1; after one `fsw_dnode_retain` and two `fsw_dnode_release` calls
no node at `a` is in the list, the other nodes are as before, and the teardown
hook was invoked exactly once, for `a`. -/
theorem dnode_refcount_invariant (vol : fsw_volume) (a : Nat) (parent : Option Nat)
    (dnode_id : Nat) (type : Int) (name : fsw_string)
    (hfresh : ∀ d ∈ vol.dnode_head, d.addr ≠ a) :
    ((dnode_at (fsw_dnode_create vol a parent dnode_id type name) a).map
        fun d => d.refcount) = some 1 ∧
      dnode_at (fsw_dnode_release (fsw_dnode_release
        (fsw_dnode_retain (fsw_dnode_create vol a parent dnode_id type name) a) a) a) a = none ∧
      (fsw_dnode_release (fsw_dnode_release
        (fsw_dnode_retain (fsw_dnode_create vol a parent dnode_id type name) a) a) a).dnode_head
        = vol.dnode_head ∧
      (fsw_dnode_release (fsw_dnode_release
        (fsw_dnode_retain (fsw_dnode_create vol a parent dnode_id type name) a) a) a
        ).dnode_free_calls = vol.dnode_free_calls ++ [a] := by
  have hcreate : (dnode_at (fsw_dnode_create vol a parent dnode_id type name) a).map
      (fun d => d.refcount) = some 1 := by
    simp [dnode_at, fsw_dnode_create]
  have hretain : fsw_dnode_retain (fsw_dnode_create vol a parent dnode_id type name) a =
      { vol with
        dnode_head :=
          { addr := a, refcount := 2, dnode_id := dnode_id, type := type, parent := parent,
            name := name } :: vol.dnode_head } := by
    simp only [fsw_dnode_retain, fsw_dnode_create, List.map_cons, if_true]
    rw [map_other_nodes vol.dnode_head a _ hfresh]
  have hrel1 : fsw_dnode_release
      { vol with
        dnode_head :=
          { addr := a, refcount := 2, dnode_id := dnode_id, type := type, parent := parent,
            name := name } :: vol.dnode_head } a =
      { vol with
        dnode_head :=
          { addr := a, refcount := 1, dnode_id := dnode_id, type := type, parent := parent,
            name := name } :: vol.dnode_head } := by
    simp only [fsw_dnode_release, dnode_at, List.find?_cons, decide_True, List.map_cons, if_true]
    rw [map_other_nodes vol.dnode_head a _ hfresh]
    simp
  have hrel2 : fsw_dnode_release
      { vol with
        dnode_head :=
          { addr := a, refcount := 1, dnode_id := dnode_id, type := type, parent := parent,
            name := name } :: vol.dnode_head } a =
      { dnode_head := vol.dnode_head, dnode_free_calls := vol.dnode_free_calls ++ [a] } := by
    simp only [fsw_dnode_release, dnode_at, List.find?_cons, decide_True]
    simp
    exact hfresh
  rw [hretain, hrel1, hrel2]
  refine ⟨hcreate, ?_, rfl, rfl⟩
  simp only [dnode_at]
  rw [List.find?_eq_none]
  intro d hd
  simpa using hfresh d hd

theorem dnode_refcount_invariant_witness :
    (∀ d ∈ oneNodeVolume.dnode_head, d.addr ≠ 32) ∧
      ((dnode_at (fsw_dnode_create oneNodeVolume 32 (some 16) 7 0 isoBoot) 32).map
          fun d => d.refcount) = some 1 ∧
      dnode_at (fsw_dnode_release (fsw_dnode_release
        (fsw_dnode_retain (fsw_dnode_create oneNodeVolume 32 (some 16) 7 0 isoBoot) 32) 32) 32)
        32 = none ∧
      (fsw_dnode_release (fsw_dnode_release
        (fsw_dnode_retain (fsw_dnode_create oneNodeVolume 32 (some 16) 7 0 isoBoot) 32) 32) 32
        ).dnode_head = oneNodeVolume.dnode_head ∧
      (fsw_dnode_release (fsw_dnode_release
        (fsw_dnode_retain (fsw_dnode_create oneNodeVolume 32 (some 16) 7 0 isoBoot) 32) 32) 32
        ).dnode_free_calls = oneNodeVolume.dnode_free_calls ++ [32] :=
  have hfresh : ∀ d ∈ oneNodeVolume.dnode_head, d.addr ≠ 32 := by
    intro d hd
    simp only [oneNodeVolume, List.mem_singleton] at hd
    rw [hd]
    decide
  ⟨hfresh, dnode_refcount_invariant oneNodeVolume 32 (some 16) 7 0 isoBoot hfresh⟩

/-! ## Iterated splitting -/

theorem splitOnSep_ne_nil (sep : Int) (l : List Nat) : splitOnSep sep l ≠ [] := by
  cases l with
  | nil => simp [splitOnSep]
  | cons c cs =>
    rw [splitOnSep]
    split_ifs
    · simp
    · split <;> simp

/-- A sequence without separator is a single segment. -/
theorem splitOnSep_no_sep (sep : Int) (l : List Nat) (h : ∀ x ∈ l, (x : Int) ≠ sep) :
    splitOnSep sep l = [l] := by
  induction l with
  | nil => rfl
  | cons c cs ih =>
    have hc : ¬ (c : Int) = sep := h c (List.mem_cons_self c cs)
    have hcs : ∀ x ∈ cs, (x : Int) ≠ sep := fun x hx => h x (List.mem_cons_of_mem c hx)
    rw [splitOnSep, if_neg hc, ih hcs]

/-- The first segment ends at the first separator. -/
theorem splitOnSep_first (sep : Int) (pre : List Nat) (c : Nat) (tail : List Nat)
    (hpre : ∀ x ∈ pre, (x : Int) ≠ sep) (hc : (c : Int) = sep) :
    splitOnSep sep (pre ++ c :: tail) = pre :: splitOnSep sep tail := by
  induction pre with
  | nil => simp [splitOnSep, hc]
  | cons x xs ih =>
    have hx : ¬ (x : Int) = sep := hpre x (List.mem_cons_self x xs)
    have hxs : ∀ y ∈ xs, (y : Int) ≠ sep := fun y hy => hpre y (List.mem_cons_of_mem x hy)
    rw [List.cons_append, splitOnSep, if_neg hx, ih hxs]

theorem dropTrailingEmpty_cons (seg : List Nat) (l : List (List Nat)) (hl : l ≠ []) :
    dropTrailingEmpty (seg :: l) = seg :: dropTrailingEmpty l := by
  obtain ⟨y, ys, rfl⟩ := List.exists_cons_of_ne_nil hl
  unfold dropTrailingEmpty
  rw [List.getLast?_cons_cons]
  split_ifs
  · rw [List.dropLast_cons₂]
  · rfl

theorem dropTrailingEmpty_single (seg : List Nat) (h : seg ≠ []) :
    dropTrailingEmpty [seg] = [seg] := by
  simp [dropTrailingEmpty, h]

theorem map_range_split {α : Type} (f : Nat → α) (i m : Nat) :
    (List.range (i + 1 + m)).map f =
      (List.range i).map f ++ f i :: (List.range m).map (fun k => f (i + 1 + k)) := by
  rw [List.range_add, List.range_succ]
  simp [List.map_append, List.map_map, Function.comp_def]

theorem strChars_eq (mem : Mem) (s : fsw_string) (n : Nat)
    (he : s.type ≠ FSW_STRING_TYPE_EMPTY) (hlen : s.len = n) :
    strChars mem s = (List.range n).map (charAt mem s) := by
  simp [strChars, fsw_strlen, he, hlen]

theorem charAt_congr (mem : Mem) (s t : fsw_string) (ht : s.type = t.type)
    (hd : s.data = t.data) (k : Nat) : charAt mem s k = charAt mem t k := by
  simp [charAt, ht, hd]

theorem strChars_congr (mem : Mem) (s t : fsw_string) (n : Nat)
    (he : s.type ≠ FSW_STRING_TYPE_EMPTY) (ht : s.type = t.type) (hd : s.data = t.data)
    (hlen : s.len = n) : strChars mem s = (List.range n).map (charAt mem t) := by
  rw [strChars_eq mem s n he hlen]
  exact List.map_congr_left fun k _ => charAt_congr mem s t ht hd k

/-- The characters of the buffer are those of the element, the separator, and
those of the remaining buffer, when the first separator is at index `i`. -/
theorem fsw_strsplit_found_chars (mem : Mem) (element buffer : fsw_string) (sep : Int)
    (i m : Nat)
    (ht : buffer.type = FSW_STRING_TYPE_ISO88591 ∨ buffer.type = FSW_STRING_TYPE_UTF16)
    (hlen : buffer.len = ((i + 1 + m : Nat) : Int))
    (hsep : (charAt mem buffer i : Int) = sep)
    (hfirst : ∀ j : Nat, j < i → (charAt mem buffer j : Int) ≠ sep) :
    ∃ e b, fsw_strsplit mem element buffer sep = (e, b) ∧
      (b.type = FSW_STRING_TYPE_ISO88591 ∨ b.type = FSW_STRING_TYPE_UTF16) ∧
      b.len = (m : Int) ∧
      strChars mem buffer = strChars mem e ++ charAt mem buffer i :: strChars mem b ∧
      (∀ x ∈ strChars mem e, (x : Int) ≠ sep) := by
  have hi : i < i + 1 + m := by omega
  have he : buffer.type ≠ FSW_STRING_TYPE_EMPTY := by
    rcases ht with h | h <;> rw [h] <;> decide
  have hbuf := strChars_eq mem buffer (i + 1 + m) he hlen
  rw [map_range_split] at hbuf
  have hmem : ∀ x ∈ (List.range i).map (charAt mem buffer), (x : Int) ≠ sep := by
    intro x hx
    obtain ⟨k, hk, rfl⟩ := List.mem_map.mp hx
    exact hfirst k (List.mem_range.mp hk)
  rcases ht with ht | ht
  · have hne : ¬ buffer.type = FSW_STRING_TYPE_UTF16 := by rw [ht]; decide
    have h13 : ¬ ((FSW_STRING_TYPE_ISO88591 : Int) = FSW_STRING_TYPE_UTF16) := by decide
    have h10 : (FSW_STRING_TYPE_ISO88591 : Int) ≠ FSW_STRING_TYPE_EMPTY := by decide
    have hsep' : (readU8 mem (buffer.data + i) : Int) = sep := by
      simpa [charAt, hne] using hsep
    have hfirst' : ∀ j : Nat, j < i → (readU8 mem (buffer.data + j) : Int) ≠ sep := by
      intro j hj; simpa [charAt, hne] using hfirst j hj
    have hE := strChars_congr mem
      ⟨FSW_STRING_TYPE_ISO88591, (i : Int), (i : Int), buffer.data⟩ buffer i h10 ht.symm rfl rfl
    have hB : strChars mem ⟨FSW_STRING_TYPE_ISO88591, ((i + 1 + m : Nat) : Int) - (i + 1),
        ((i + 1 + m : Nat) : Int) - (i + 1), buffer.data + i + 1⟩ =
        (List.range m).map (fun k => charAt mem buffer (i + 1 + k)) := by
      rw [strChars_eq mem _ m h10 (by push_cast; ring)]
      apply List.map_congr_left
      intro k _
      simp only [charAt, hne, h13, if_false]
      rw [show buffer.data + i + 1 + k = buffer.data + (i + 1 + k) by ring]
    refine ⟨_, _, fsw_strsplit_iso_found mem element buffer sep (i + 1 + m) i ht hlen hi
      hsep' hfirst', Or.inl rfl, by push_cast; ring, ?_, ?_⟩
    · rw [hbuf, hE, hB]
    · rw [hE]; exact hmem
  · have h30 : (FSW_STRING_TYPE_UTF16 : Int) ≠ FSW_STRING_TYPE_EMPTY := by decide
    have hsep' : (readU16 mem (buffer.data + 2 * i) : Int) = sep := by
      simpa [charAt, ht] using hsep
    have hfirst' : ∀ j : Nat, j < i → (readU16 mem (buffer.data + 2 * j) : Int) ≠ sep := by
      intro j hj; simpa [charAt, ht] using hfirst j hj
    have hE := strChars_congr mem
      ⟨FSW_STRING_TYPE_UTF16, (i : Int), toInt32 ((i : Int) * 2), buffer.data⟩ buffer i h30
      ht.symm rfl rfl
    have hB : strChars mem ⟨FSW_STRING_TYPE_UTF16, ((i + 1 + m : Nat) : Int) - (i + 1),
        toInt32 ((((i + 1 + m : Nat) : Int) - (i + 1)) * 2), buffer.data + 2 * i + 2⟩ =
        (List.range m).map (fun k => charAt mem buffer (i + 1 + k)) := by
      rw [strChars_eq mem _ m h30 (by push_cast; ring)]
      apply List.map_congr_left
      intro k _
      simp only [charAt, ht, if_true]
      rw [show buffer.data + 2 * i + 2 + 2 * k = buffer.data + 2 * (i + 1 + k) by ring]
    refine ⟨_, _, fsw_strsplit_utf16_found mem element buffer sep (i + 1 + m) i ht hlen hi
      hsep' hfirst', Or.inr rfl, by push_cast; ring, ?_, ?_⟩
    · rw [hbuf, hE, hB]
    · rw [hE]; exact hmem

/-- Without a separator the element has the characters of the buffer and the
remaining buffer has len 0. -/
theorem fsw_strsplit_absent_chars (mem : Mem) (element buffer : fsw_string) (sep : Int)
    (n : Nat)
    (ht : buffer.type = FSW_STRING_TYPE_ISO88591 ∨ buffer.type = FSW_STRING_TYPE_UTF16)
    (hlen : buffer.len = (n : Int)) (hn : 0 < n)
    (habs : ∀ j : Nat, j < n → (charAt mem buffer j : Int) ≠ sep) :
    ∃ e b, fsw_strsplit mem element buffer sep = (e, b) ∧
      (b.type = FSW_STRING_TYPE_ISO88591 ∨ b.type = FSW_STRING_TYPE_UTF16) ∧
      b.len = 0 ∧ strChars mem e = strChars mem buffer ∧
      (∀ x ∈ strChars mem buffer, (x : Int) ≠ sep) := by
  have he : buffer.type ≠ FSW_STRING_TYPE_EMPTY := by
    rcases ht with h | h <;> rw [h] <;> decide
  have hbuf := strChars_eq mem buffer n he hlen
  have hmem : ∀ x ∈ strChars mem buffer, (x : Int) ≠ sep := by
    intro x hx
    rw [hbuf] at hx
    obtain ⟨k, hk, rfl⟩ := List.mem_map.mp hx
    exact habs k (List.mem_range.mp hk)
  rcases ht with ht | ht
  · have hne : ¬ buffer.type = FSW_STRING_TYPE_UTF16 := by rw [ht]; decide
    have h10 : (FSW_STRING_TYPE_ISO88591 : Int) ≠ FSW_STRING_TYPE_EMPTY := by decide
    have habs' : ∀ j : Nat, j < n → (readU8 mem (buffer.data + j) : Int) ≠ sep := by
      intro j hj; simpa [charAt, hne] using habs j hj
    have hE := strChars_congr mem
      ⟨FSW_STRING_TYPE_ISO88591, (n : Int), (n : Int), buffer.data⟩ buffer n h10 ht.symm rfl rfl
    refine ⟨_, _, fsw_strsplit_iso_absent mem element buffer sep n ht hlen hn habs',
      Or.inl rfl, rfl, ?_, hmem⟩
    rw [hE, hbuf]
  · have h30 : (FSW_STRING_TYPE_UTF16 : Int) ≠ FSW_STRING_TYPE_EMPTY := by decide
    have habs' : ∀ j : Nat, j < n → (readU16 mem (buffer.data + 2 * j) : Int) ≠ sep := by
      intro j hj; simpa [charAt, ht] using habs j hj
    have hE := strChars_congr mem
      ⟨FSW_STRING_TYPE_UTF16, (n : Int), toInt32 ((n : Int) * 2), buffer.data⟩ buffer n h30
      ht.symm rfl rfl
    refine ⟨_, _, fsw_strsplit_utf16_absent mem element buffer sep n ht hlen hn habs',
      Or.inr rfl, rfl, ?_, hmem⟩
    rw [hE, hbuf]

/-- The loop makes no call on a buffer whose `fsw_strlen` is not positive. -/
theorem strsplit_all_done (mem : Mem) (sep : Int) (fuel : Nat) (element buffer : fsw_string)
    (h : ¬ fsw_strlen buffer > 0) :
    strsplit_all mem sep fuel element buffer = some [] := by
  cases fuel with
  | zero => rw [strsplit_all, if_neg h]
  | succ f => rw [strsplit_all, if_neg h]

/-- The loop on an ISO-8859-1 or UTF-16 buffer of len `n`, with any bound of at
least `n` calls: it ends, makes at most `n` calls, and the characters of its
elements are the segments of the character sequence. -/
theorem strsplit_all_spec (mem : Mem) (sep : Int) :
    ∀ (n fuel : Nat) (element buffer : fsw_string), n ≤ fuel →
      (buffer.type = FSW_STRING_TYPE_ISO88591 ∨ buffer.type = FSW_STRING_TYPE_UTF16) →
      buffer.len = (n : Int) →
      ∃ els, strsplit_all mem sep fuel element buffer = some els ∧ els.length ≤ n ∧
        els.map (strChars mem) = dropTrailingEmpty (splitOnSep sep (strChars mem buffer)) := by
  intro n
  induction n using Nat.strong_induction_on with
  | _ n ih =>
    intro fuel element buffer hfuel ht hlen
    have he : buffer.type ≠ FSW_STRING_TYPE_EMPTY := by
      rcases ht with h | h <;> rw [h] <;> decide
    have hsl : fsw_strlen buffer = (n : Int) := by simp [fsw_strlen, he, hlen]
    have hbuf := strChars_eq mem buffer n he hlen
    rcases Nat.eq_zero_or_pos n with h0 | hpos
    · subst h0
      refine ⟨[], strsplit_all_done mem sep fuel element buffer (by rw [hsl]; simp), ?_, ?_⟩
      · simp
      · rw [hbuf]
        simp [splitOnSep, dropTrailingEmpty]
    · obtain ⟨f, rfl⟩ : ∃ f, fuel = f + 1 := ⟨fuel - 1, by omega⟩
      have hgt : fsw_strlen buffer > 0 := by rw [hsl]; exact_mod_cast hpos
      rw [strsplit_all, if_pos hgt]
      rcases first_or_absent (fun j => (charAt mem buffer j : Int) = sep) n with
        ⟨i, hi, hs, hf⟩ | habs
      · obtain ⟨m, rfl⟩ : ∃ m, n = i + 1 + m := ⟨n - i - 1, by omega⟩
        obtain ⟨e, b, hsplit, hbt, hbl, hchars, hpre⟩ :=
          fsw_strsplit_found_chars mem element buffer sep i m ht hlen hs hf
        obtain ⟨els, h1, h2, h3⟩ := ih m (by omega) f e b (by omega) hbt hbl
        simp only [hsplit]
        rw [h1]
        refine ⟨e :: els, rfl, by simp only [List.length_cons]; omega, ?_⟩
        rw [List.map_cons, h3, hchars, splitOnSep_first sep _ _ _ hpre hs,
          dropTrailingEmpty_cons _ _ (splitOnSep_ne_nil sep _)]
      · obtain ⟨e, b, hsplit, hbt, hbl, hE, hmem⟩ :=
          fsw_strsplit_absent_chars mem element buffer sep n ht hlen hpos habs
        have hb0 : ¬ fsw_strlen b > 0 := by
          unfold fsw_strlen
          split_ifs <;> simp [hbl]
        simp only [hsplit]
        rw [strsplit_all_done mem sep f e b hb0]
        refine ⟨[e], rfl, by simp only [List.length_singleton]; omega, ?_⟩
        have hne : strChars mem buffer ≠ [] := by
          rw [hbuf]
          intro hnil
          have := congrArg List.length hnil
          simp at this
          omega
        rw [List.map_singleton, hE, splitOnSep_no_sep sep _ hmem,
          dropTrailingEmpty_single _ hne]

/-- C19: iterated splitting enumerates the path segments in order. For an
ISO-8859-1 or UTF-16 buffer with len `n ≥ 0` and every separator, calling
`fsw_strsplit` while `fsw_strlen(buffer) > 0` stops after at most `n` calls, and
the character sequences of the elements produced, in order, are the segments of
the original character sequence split on the separator, with one trailing
empty segment dropped. -/
theorem strsplit_all_segments (mem : Mem) (element buffer : fsw_string) (separator : Int)
    (n : Nat)
    (ht : buffer.type = FSW_STRING_TYPE_ISO88591 ∨ buffer.type = FSW_STRING_TYPE_UTF16)
    (hlen : buffer.len = (n : Int)) :
    ∃ els, strsplit_all mem separator n element buffer = some els ∧ els.length ≤ n ∧
      els.map (strChars mem) =
        dropTrailingEmpty (splitOnSep separator (strChars mem buffer)) :=
  strsplit_all_spec mem separator n n element buffer (Nat.le_refl n) ht hlen

theorem strsplit_all_segments_witness :
    (bootBuf.type = FSW_STRING_TYPE_ISO88591 ∨ bootBuf.type = FSW_STRING_TYPE_UTF16) ∧
      bootBuf.len = ((12 : Nat) : Int) ∧
      (∃ els, strsplit_all bootMem 92 12 emptyString bootBuf = some els ∧ els.length ≤ 12 ∧
        els.map (strChars bootMem) =
          dropTrailingEmpty (splitOnSep 92 (strChars bootMem bootBuf))) ∧
      (strsplit_all bootMem 92 12 emptyString bootBuf).map (List.map (strChars bootMem)) =
        some [[98, 111, 111, 116], [101, 102, 105], [120, 54, 52]] ∧
      (strsplit_all slashMem 47 2 emptyString slashBuf).map (List.map (strChars slashMem)) =
        some [[97]] ∧
      (strsplit_all bootMem 92 0 emptyString isoZero).map (List.map (strChars bootMem)) =
        some [] :=
  ⟨Or.inl rfl, rfl,
    strsplit_all_segments bootMem emptyString bootBuf 92 12 (Or.inl rfl) rfl,
    by decide, by decide, by decide⟩

/-- The segments of the example sequences, as the claim lists them. -/
theorem splitOnSep_example :
    dropTrailingEmpty (splitOnSep 92 bootPath) =
        [[98, 111, 111, 116], [101, 102, 105], [120, 54, 52]] ∧
      dropTrailingEmpty (splitOnSep 47 [97, 47]) = [[97]] ∧
      dropTrailingEmpty (splitOnSep 47 []) = [] ∧
      dropTrailingEmpty (splitOnSep 47 [97, 47, 47, 98]) = [[97], [], [98]] ∧
      dropTrailingEmpty (splitOnSep 47 [47, 97]) = [[], [97]] := by
  refine ⟨?_, ?_, ?_, ?_, ?_⟩ <;> decide

/-! ## Progress of splitting -/

/-- One call on a buffer with positive `fsw_strlen`: the remaining buffer is
strictly shorter, not negative, and element and remainder together are not
longer than the original. -/
theorem fsw_strsplit_progress (mem : Mem) (element buffer : fsw_string) (sep : Int)
    (h : 0 < fsw_strlen buffer) :
    fsw_strlen (fsw_strsplit mem element buffer sep).2 < fsw_strlen buffer ∧
      fsw_strlen (fsw_strsplit mem element buffer sep).1 +
          fsw_strlen (fsw_strsplit mem element buffer sep).2 ≤ fsw_strlen buffer ∧
      0 ≤ fsw_strlen (fsw_strsplit mem element buffer sep).2 := by
  have he : buffer.type ≠ FSW_STRING_TYPE_EMPTY := by
    intro e
    simp [fsw_strlen, e] at h
  have hsl : fsw_strlen buffer = buffer.len := by simp [fsw_strlen, he]
  rw [hsl] at h ⊢
  have h0 : buffer.len ≠ 0 := by omega
  obtain ⟨n, hn⟩ : ∃ n : Nat, buffer.len = n := ⟨buffer.len.toNat, by omega⟩
  have hpos : 0 < n := by omega
  by_cases h1 : buffer.type = FSW_STRING_TYPE_ISO88591
  · rcases first_or_absent (fun j => (readU8 mem (buffer.data + j) : Int) = sep) n with
      ⟨i, hi, hs, hf⟩ | habs
    · rw [fsw_strsplit_iso_found mem element buffer sep n i h1 hn hi hs hf]
      simp only [fsw_strlen]
      rw [hn]
      simp
      omega
    · rw [fsw_strsplit_iso_absent mem element buffer sep n h1 hn hpos habs]
      simp only [fsw_strlen]
      rw [hn]
      simp
      omega
  by_cases h3 : buffer.type = FSW_STRING_TYPE_UTF16
  · rcases first_or_absent (fun j => (readU16 mem (buffer.data + 2 * j) : Int) = sep) n with
      ⟨i, hi, hs, hf⟩ | habs
    · rw [fsw_strsplit_utf16_found mem element buffer sep n i h3 hn hi hs hf]
      simp only [fsw_strlen]
      rw [hn]
      simp
      omega
    · rw [fsw_strsplit_utf16_absent mem element buffer sep n h3 hn hpos habs]
      simp only [fsw_strlen]
      rw [hn]
      simp
      omega
  · rw [fsw_strsplit_fallback mem element buffer sep he h0 h1 h3]
    simp only [fsw_strlen, if_true, if_neg he]
    omega

/-- The splitting loop ends within `n` calls on every buffer whose `fsw_strlen`
is at most `n`. -/
theorem strsplit_all_terminates (mem : Mem) (sep : Int) :
    ∀ (n fuel : Nat) (element buffer : fsw_string), n ≤ fuel →
      fsw_strlen buffer ≤ (n : Int) →
      ∃ els, strsplit_all mem sep fuel element buffer = some els ∧ els.length ≤ n := by
  intro n
  induction n with
  | zero =>
    intro fuel element buffer _ hle
    exact ⟨[], strsplit_all_done mem sep fuel element buffer (by simp at hle; omega), by simp⟩
  | succ n ih =>
    intro fuel element buffer hfuel hle
    by_cases hgt : fsw_strlen buffer > 0
    · obtain ⟨f, rfl⟩ : ∃ f, fuel = f + 1 := ⟨fuel - 1, by omega⟩
      obtain ⟨hlt, -, -⟩ := fsw_strsplit_progress mem element buffer sep hgt
      obtain ⟨els, h1, h2⟩ := ih f (fsw_strsplit mem element buffer sep).1
        (fsw_strsplit mem element buffer sep).2 (by omega) (by push_cast at hle; omega)
      rw [strsplit_all, if_pos hgt, h1]
      exact ⟨_ :: els, rfl, by simp only [List.length_cons]; omega⟩
    · exact ⟨[], strsplit_all_done mem sep fuel element buffer hgt, by simp⟩

/-- C23: each split makes progress. For a buffer with `fsw_strlen(buffer) > 0`,
whatever its type tag, after `fsw_strsplit` the remaining buffer is strictly
shorter, `fsw_strlen(element) + fsw_strlen(buffer')` is at most the original
`fsw_strlen(buffer)`, and the loop that splits while the buffer is not empty
ends after at most `fsw_strlen(buffer)` calls. -/
theorem fsw_strsplit_makes_progress (mem : Mem) (element buffer : fsw_string)
    (separator : Int) (h : 0 < fsw_strlen buffer) :
    fsw_strlen (fsw_strsplit mem element buffer separator).2 < fsw_strlen buffer ∧
      fsw_strlen (fsw_strsplit mem element buffer separator).1 +
          fsw_strlen (fsw_strsplit mem element buffer separator).2 ≤ fsw_strlen buffer ∧
      ∃ els, strsplit_all mem separator (fsw_strlen buffer).toNat element buffer = some els ∧
        els.length ≤ (fsw_strlen buffer).toNat :=
  ⟨(fsw_strsplit_progress mem element buffer separator h).1,
    (fsw_strsplit_progress mem element buffer separator h).2.1,
    strsplit_all_terminates mem separator (fsw_strlen buffer).toNat
      (fsw_strlen buffer).toNat element buffer (Nat.le_refl _) (by omega)⟩

theorem fsw_strsplit_makes_progress_witness :
    0 < fsw_strlen utf8Boot ∧
      fsw_strlen (fsw_strsplit mixMem emptyString utf8Boot 111).2 < fsw_strlen utf8Boot ∧
      fsw_strlen (fsw_strsplit mixMem emptyString utf8Boot 111).1 +
          fsw_strlen (fsw_strsplit mixMem emptyString utf8Boot 111).2 ≤
        fsw_strlen utf8Boot ∧
      ∃ els, strsplit_all mixMem 111 (fsw_strlen utf8Boot).toNat emptyString utf8Boot =
          some els ∧
        els.length ≤ (fsw_strlen utf8Boot).toNat :=
  ⟨by decide, fsw_strsplit_makes_progress mixMem emptyString utf8Boot 111 (by decide)⟩

/-- Progress on the example data: splitting the ISO-8859-1 `boot` on `o` leaves
a buffer of two characters after an element of one. -/
theorem fsw_strsplit_progress_example :
    fsw_strlen (fsw_strsplit mixMem emptyString isoBoot 111).1 = 1 ∧
      fsw_strlen (fsw_strsplit mixMem emptyString isoBoot 111).2 = 2 ∧
      (strsplit_all mixMem 111 4 emptyString isoBoot).map (List.map (strChars mixMem)) =
        some [[98], [], [116]] := by
  refine ⟨?_, ?_, ?_⟩ <;> decide

/-- C24: a UTF-8 buffer is never split. For a UTF-8 buffer with len > 0 and
every separator, whether or not the separator byte occurs in the data,
`fsw_strsplit` makes element a copy of the whole original descriptor (type,
len, size, data) and sets the type of the buffer to EMPTY, leaving its other
fields as they were. -/
theorem fsw_strsplit_utf8 (mem : Mem) (element buffer : fsw_string) (separator : Int)
    (ht : buffer.type = FSW_STRING_TYPE_UTF8) (hlen : 0 < buffer.len) :
    (fsw_strsplit mem element buffer separator).1 = buffer ∧
      (fsw_strsplit mem element buffer separator).2 =
        { buffer with type := FSW_STRING_TYPE_EMPTY } := by
  have he : buffer.type ≠ FSW_STRING_TYPE_EMPTY := by rw [ht]; decide
  have h1 : buffer.type ≠ FSW_STRING_TYPE_ISO88591 := by rw [ht]; decide
  have h3 : buffer.type ≠ FSW_STRING_TYPE_UTF16 := by rw [ht]; decide
  have h0 : buffer.len ≠ 0 := by omega
  rw [fsw_strsplit_fallback mem element buffer separator he h0 h1 h3]
  exact ⟨rfl, rfl⟩

theorem fsw_strsplit_utf8_witness :
    utf8Boot.type = FSW_STRING_TYPE_UTF8 ∧ 0 < utf8Boot.len ∧
      (charAt mixMem utf8Boot 1 : Int) = 111 ∧
      (fsw_strsplit mixMem emptyString utf8Boot 111).1 = utf8Boot ∧
      (fsw_strsplit mixMem emptyString utf8Boot 111).2 =
        { utf8Boot with type := FSW_STRING_TYPE_EMPTY } :=
  ⟨rfl, by decide, by decide,
    fsw_strsplit_utf8 mixMem emptyString utf8Boot 111 rfl (by decide)⟩

/-- C25: an unsupported conversion leaves the destination untouched. With an
allocator that never reports `FSW_UNSUPPORTED` itself, whenever
`fsw_strdup_coerce` returns `FSW_UNSUPPORTED` every field of dest is as before
the call, no allocation was requested and the memory is unchanged. -/
theorem fsw_strdup_coerce_unsupported_untouched (fsw_alloc : Int → Int × Nat) (mem : Mem)
    (dest : fsw_string) (type : Int) (src : fsw_string)
    (halloc : ∀ z : Int, (fsw_alloc z).1 ≠ FSW_UNSUPPORTED)
    (hst : (fsw_strdup_coerce fsw_alloc mem dest type src).status = FSW_UNSUPPORTED) :
    (fsw_strdup_coerce fsw_alloc mem dest type src).dest = dest ∧
      (fsw_strdup_coerce fsw_alloc mem dest type src).allocs = [] ∧
      (fsw_strdup_coerce fsw_alloc mem dest type src).mem = mem := by
  have h03 : ¬ ((FSW_SUCCESS : Int) = FSW_UNSUPPORTED) := by decide
  by_cases h : src.type = FSW_STRING_TYPE_EMPTY ∨ src.len = 0
  · rw [fsw_strdup_coerce_empty fsw_alloc mem dest type src h] at hst
    exact absurd hst h03
  have he : src.type ≠ FSW_STRING_TYPE_EMPTY := fun e => h (Or.inl e)
  have h0 : src.len ≠ 0 := fun e => h (Or.inr e)
  by_cases hs : src.type = type
  · subst hs
    by_cases ha : (fsw_alloc src.size).1 = FSW_SUCCESS
    · rw [fsw_strdup_coerce_copy fsw_alloc mem dest src he h0 ha] at hst
      exact absurd hst h03
    · rw [fsw_strdup_coerce_copy_fail fsw_alloc mem dest src he h0 ha] at hst
      exact absurd hst (halloc _)
  by_cases hw : src.type = FSW_STRING_TYPE_ISO88591 ∧ type = FSW_STRING_TYPE_UTF16
  · obtain ⟨hw1, hw2⟩ := hw
    subst hw2
    by_cases ha : (fsw_alloc (toInt32 (src.len * 2))).1 = FSW_SUCCESS
    · rw [fsw_strdup_coerce_widen fsw_alloc mem dest src hw1 h0 ha] at hst
      exact absurd hst h03
    · rw [fsw_strdup_coerce_widen_fail fsw_alloc mem dest src hw1 h0 ha] at hst
      exact absurd hst (halloc _)
  · rw [fsw_strdup_coerce_unsupported fsw_alloc mem dest type src he h0 hs hw]
    exact ⟨rfl, rfl, rfl⟩

theorem fsw_strdup_coerce_unsupported_untouched_witness :
    (∀ z : Int, (allocFrom300 z).1 ≠ FSW_UNSUPPORTED) ∧
      (fsw_strdup_coerce allocFrom300 mixMem isoBoot FSW_STRING_TYPE_ISO88591
        utf16Boot).status = FSW_UNSUPPORTED ∧
      (fsw_strdup_coerce allocFrom300 mixMem isoBoot FSW_STRING_TYPE_ISO88591
        utf16Boot).dest = isoBoot ∧
      (fsw_strdup_coerce allocFrom300 mixMem isoBoot FSW_STRING_TYPE_ISO88591
        utf16Boot).allocs = [] ∧
      (fsw_strdup_coerce allocFrom300 mixMem isoBoot FSW_STRING_TYPE_ISO88591
        utf16Boot).mem = mixMem :=
  have halloc : ∀ z : Int, (allocFrom300 z).1 ≠ FSW_UNSUPPORTED := by
    intro z
    unfold allocFrom300
    split_ifs <;> decide
  ⟨halloc, by decide,
    fsw_strdup_coerce_unsupported_untouched allocFrom300 mixMem isoBoot
      FSW_STRING_TYPE_ISO88591 utf16Boot halloc (by decide)⟩

/-! ## Duplicate, then compare -/

/-- Two strings whose `fsw_strlen` is 0 compare equal. -/
theorem fsw_streq_both_zero (mem : Mem) (fuel : Nat) (d s : fsw_string)
    (hd : fsw_strlen d = 0) (hs : fsw_strlen s = 0) :
    fsw_streq (fuel + 3) mem d s = some true := by
  have hte : streq_temp.type ≠ FSW_STRING_TYPE_EMPTY := by decide
  unfold fsw_strlen at hd hs
  by_cases ed : d.type = FSW_STRING_TYPE_EMPTY
  · by_cases es : s.type = FSW_STRING_TYPE_EMPTY
    · rw [fsw_streq_succ, if_pos ed, fsw_streq_succ, if_neg hte, if_pos es, fsw_streq_succ]
      simp [streq_temp]
    · rw [if_neg es] at hs
      rw [fsw_streq_succ, if_pos ed, fsw_streq_succ, if_neg hte, if_neg es]
      simp [streq_temp, hs]
  · rw [if_neg ed] at hd
    by_cases es : s.type = FSW_STRING_TYPE_EMPTY
    · rw [fsw_streq_succ, if_neg ed, if_pos es, fsw_streq_succ, if_neg ed, if_neg hte]
      simp [streq_temp, hd]
    · rw [if_neg es] at hs
      rw [fsw_streq_succ, if_neg ed, if_neg es]
      simp [hd, hs]

/-- The copy leaves every byte outside the destination block as it was. -/
theorem fsw_memcpy_frame (mem : Mem) (d sp : Nat) (size : Int) (a : Nat)
    (h : ¬ (d ≤ a ∧ a < d + size.toNat)) : fsw_memcpy mem d sp size a = mem a := by
  simp only [fsw_memcpy, h, if_false]

/-- After a successful same-encoding duplication into a block that does not
overlap the source bytes, source and copy compare equal in both orders. -/
theorem fsw_streq_after_copy (fsw_alloc : Int → Int × Nat) (mem : Mem) (fuel : Nat)
    (src : fsw_string) (he : src.type ≠ FSW_STRING_TYPE_EMPTY) (h0 : src.len ≠ 0)
    (hdis : ∀ i j : Nat, (i : Int) < src.size → (j : Int) < src.size →
      src.data + i ≠ (fsw_alloc src.size).2 + j) :
    fsw_streq (fuel + 1) (fsw_memcpy mem (fsw_alloc src.size).2 src.data src.size)
        ⟨src.type, src.len, src.size, (fsw_alloc src.size).2⟩ src = some true ∧
      fsw_streq (fuel + 1) (fsw_memcpy mem (fsw_alloc src.size).2 src.data src.size)
        src ⟨src.type, src.len, src.size, (fsw_alloc src.size).2⟩ = some true := by
  have hbytes : ∀ i : Nat, (i : Int) < src.size →
      readU8 (fsw_memcpy mem (fsw_alloc src.size).2 src.data src.size)
          ((fsw_alloc src.size).2 + i) =
        readU8 (fsw_memcpy mem (fsw_alloc src.size).2 src.data src.size) (src.data + i) := by
    intro i hi
    rw [readU8_fsw_memcpy mem _ src.data src.size i hi]
    have hout : ¬ ((fsw_alloc src.size).2 ≤ src.data + i ∧
        src.data + i < (fsw_alloc src.size).2 + src.size.toNat) := by
      rintro ⟨h1, h2⟩
      exact hdis i (src.data + i - (fsw_alloc src.size).2) hi (by omega) (by omega)
    simp only [readU8, fsw_memcpy_frame mem _ src.data src.size _ hout]
  have hm1 : fsw_memeq (fsw_memcpy mem (fsw_alloc src.size).2 src.data src.size)
      (fsw_alloc src.size).2 src.data src.size = true := by
    rw [fsw_memeq_iff]; exact hbytes
  have hm2 : fsw_memeq (fsw_memcpy mem (fsw_alloc src.size).2 src.data src.size)
      src.data (fsw_alloc src.size).2 src.size = true := by
    rw [fsw_memeq_comm]; exact hm1
  constructor
  · rw [fsw_streq_succ]
    simp [he, h0, hm1]
  · rw [fsw_streq_succ]
    simp [he, h0, hm2]

/-- After a successful widening duplication into a block that does not overlap
the source bytes, source and copy compare equal in both orders. -/
theorem fsw_streq_after_widen (mem : Mem) (fuel : Nat) (src : fsw_string) (p : Nat)
    (z : Int) (n : Nat) (ht : src.type = FSW_STRING_TYPE_ISO88591) (hlen : src.len = n)
    (hn : 0 < n)
    (hdis : ∀ i j : Nat, i < n → j < 2 * n → src.data + i ≠ p + j) :
    fsw_streq (fuel + 2) (strdup_widen n mem src.data p)
        ⟨FSW_STRING_TYPE_UTF16, src.len, z, p⟩ src = some true ∧
      fsw_streq (fuel + 2) (strdup_widen n mem src.data p)
        src ⟨FSW_STRING_TYPE_UTF16, src.len, z, p⟩ = some true := by
  obtain ⟨hA, hB⟩ := strdup_widen_spec n mem src.data p hdis
  have hloop : streq_iso_utf16 (strdup_widen n mem src.data p) n src.data p = true := by
    rw [streq_iso_utf16_iff]
    intro i hi
    rw [hA i hi]
    have hout : src.data + i < p ∨ p + 2 * n ≤ src.data + i := by
      by_contra hcon
      exact hdis i (src.data + i - p) hi (by omega) (by omega)
    simp only [readU8, hB _ hout]
  have h0 : ¬ ((n : Int) = 0) := by omega
  have hnat : ((n : Int)).toNat = n := by simp
  constructor
  · rw [fsw_streq_succ]
    simp [ht, hlen, h0]
    rw [fsw_streq_succ]
    simp [ht, hlen, h0, hloop]
  · rw [fsw_streq_succ]
    simp [ht, hlen, h0, hloop]

/-- C21: duplicate-then-compare round trip. For a source with
`0 ≤ len ≤ INT_MAX` and every target type, with a host allocator that reports
success only for a non-negative byte count and then hands out a block that does
not overlap the bytes of the source: whenever `fsw_strdup_coerce` returns
`FSW_SUCCESS`, `fsw_streq(dest, src)` and `fsw_streq(src, dest)` are true and
`fsw_strlen(dest) = fsw_strlen(src)`. -/
theorem fsw_strdup_coerce_then_streq (fsw_alloc : Int → Int × Nat) (mem : Mem)
    (dest : fsw_string) (type : Int) (src : fsw_string) (fuel : Nat)
    (hlen : 0 ≤ src.len) (hint : src.len ≤ INT_MAX)
    (halloc : ∀ z : Int, (fsw_alloc z).1 = FSW_SUCCESS →
      0 ≤ z ∧ ∀ i j : Nat, ((i : Int) < src.size ∨ (i : Int) < src.len) → (j : Int) < z →
        src.data + i ≠ (fsw_alloc z).2 + j)
    (hok : (fsw_strdup_coerce fsw_alloc mem dest type src).status = FSW_SUCCESS) :
    fsw_streq (fuel + 3) (fsw_strdup_coerce fsw_alloc mem dest type src).mem
        (fsw_strdup_coerce fsw_alloc mem dest type src).dest src = some true ∧
      fsw_streq (fuel + 3) (fsw_strdup_coerce fsw_alloc mem dest type src).mem
        src (fsw_strdup_coerce fsw_alloc mem dest type src).dest = some true ∧
      fsw_strlen (fsw_strdup_coerce fsw_alloc mem dest type src).dest = fsw_strlen src := by
  have h03 : ¬ ((FSW_UNSUPPORTED : Int) = FSW_SUCCESS) := by decide
  by_cases h : src.type = FSW_STRING_TYPE_EMPTY ∨ src.len = 0
  · rw [fsw_strdup_coerce_empty fsw_alloc mem dest type src h]
    have hs : fsw_strlen src = 0 := by
      unfold fsw_strlen
      rcases h with h | h
      · rw [if_pos h]
      · split_ifs <;> simp [h]
    have hd : fsw_strlen ⟨type, 0, 0, NULL⟩ = 0 := by
      unfold fsw_strlen
      split_ifs <;> rfl
    exact ⟨fsw_streq_both_zero mem fuel _ src hd hs, fsw_streq_both_zero mem fuel src _ hs hd,
      by rw [hd, hs]⟩
  have he : src.type ≠ FSW_STRING_TYPE_EMPTY := fun e => h (Or.inl e)
  have h0 : src.len ≠ 0 := fun e => h (Or.inr e)
  by_cases hs : src.type = type
  · subst hs
    by_cases ha : (fsw_alloc src.size).1 = FSW_SUCCESS
    · obtain ⟨-, hdis⟩ := halloc _ ha
      rw [fsw_strdup_coerce_copy fsw_alloc mem dest src he h0 ha]
      have hcmp := fsw_streq_after_copy fsw_alloc mem (fuel + 2) src he h0
        (fun i j hi hj => hdis i j (Or.inl hi) hj)
      exact ⟨hcmp.1, hcmp.2, by simp [fsw_strlen, he]⟩
    · rw [fsw_strdup_coerce_copy_fail fsw_alloc mem dest src he h0 ha] at hok
      exact absurd hok ha
  by_cases hw : src.type = FSW_STRING_TYPE_ISO88591 ∧ type = FSW_STRING_TYPE_UTF16
  · obtain ⟨hw1, hw2⟩ := hw
    subst hw2
    by_cases ha : (fsw_alloc (toInt32 (src.len * 2))).1 = FSW_SUCCESS
    · obtain ⟨hz, hdis⟩ := halloc _ ha
      have hsz := toInt32_double_of_nonneg src.len hlen hint hz
      obtain ⟨n, hn⟩ : ∃ n : Nat, src.len = n := ⟨src.len.toNat, by omega⟩
      have hpos : 0 < n := by omega
      have hnat : src.len.toNat = n := by rw [hn]; simp
      rw [fsw_strdup_coerce_widen fsw_alloc mem dest src hw1 h0 ha]
      simp only [hnat]
      have hcmp := fsw_streq_after_widen mem (fuel + 1) src
        (fsw_alloc (toInt32 (src.len * 2))).2 (toInt32 (src.len * 2)) n hw1 hn hpos
        (fun i j hi hj => hdis i j (Or.inr (by omega)) (by omega))
      refine ⟨hcmp.1, hcmp.2, ?_⟩
      have h30 : ¬ ((FSW_STRING_TYPE_UTF16 : Int) = FSW_STRING_TYPE_EMPTY) := by decide
      simp [fsw_strlen, he, h30]
    · rw [fsw_strdup_coerce_widen_fail fsw_alloc mem dest src hw1 h0 ha] at hok
      exact absurd hok ha
  · rw [fsw_strdup_coerce_unsupported fsw_alloc mem dest type src he h0 hs hw] at hok
    exact absurd hok h03

theorem fsw_strdup_coerce_then_streq_witness :
    0 ≤ isoBoot.len ∧ isoBoot.len ≤ INT_MAX ∧
      (∀ z : Int, (allocFrom300 z).1 = FSW_SUCCESS →
        0 ≤ z ∧ ∀ i j : Nat, ((i : Int) < isoBoot.size ∨ (i : Int) < isoBoot.len) →
          (j : Int) < z → isoBoot.data + i ≠ (allocFrom300 z).2 + j) ∧
      (fsw_strdup_coerce allocFrom300 mixMem emptyString FSW_STRING_TYPE_UTF16
        isoBoot).status = FSW_SUCCESS ∧
      fsw_streq (0 + 3)
          (fsw_strdup_coerce allocFrom300 mixMem emptyString FSW_STRING_TYPE_UTF16 isoBoot).mem
          (fsw_strdup_coerce allocFrom300 mixMem emptyString FSW_STRING_TYPE_UTF16 isoBoot).dest
          isoBoot = some true ∧
      fsw_streq (0 + 3)
          (fsw_strdup_coerce allocFrom300 mixMem emptyString FSW_STRING_TYPE_UTF16 isoBoot).mem
          isoBoot
          (fsw_strdup_coerce allocFrom300 mixMem emptyString FSW_STRING_TYPE_UTF16 isoBoot).dest
          = some true ∧
      fsw_strlen
          (fsw_strdup_coerce allocFrom300 mixMem emptyString FSW_STRING_TYPE_UTF16 isoBoot).dest
        = fsw_strlen isoBoot :=
  have halloc : ∀ z : Int, (allocFrom300 z).1 = FSW_SUCCESS →
      0 ≤ z ∧ ∀ i j : Nat, ((i : Int) < isoBoot.size ∨ (i : Int) < isoBoot.len) →
        (j : Int) < z → isoBoot.data + i ≠ (allocFrom300 z).2 + j := by
    intro z hz
    have hnn : 0 ≤ z := by
      by_contra hneg
      have hlt : z < 0 := by omega
      simp [allocFrom300, hlt] at hz
    refine ⟨hnn, ?_⟩
    intro i j hi _
    have hlt : ¬ z < 0 := by omega
    have hi4 : (i : Int) < 4 := by
      rcases hi with hi | hi <;> exact hi
    simp only [allocFrom300, hlt, if_false]
    show 100 + i ≠ 300 + j
    omega
  ⟨by decide, by decide, halloc, by decide,
    fsw_strdup_coerce_then_streq allocFrom300 mixMem emptyString FSW_STRING_TYPE_UTF16 isoBoot 0
      (by decide) (by decide) halloc (by decide)⟩

/-! ## Transitivity of the comparison -/

/-- Two blocks of `2 * n` bytes are equal byte by byte exactly when they are
equal 16-bit unit by unit. -/
theorem bytes_eq_iff_units_eq (mem : Mem) (p q n : Nat) :
    (∀ j : Nat, j < 2 * n → readU8 mem (p + j) = readU8 mem (q + j)) ↔
      ∀ i : Nat, i < n → readU16 mem (p + 2 * i) = readU16 mem (q + 2 * i) := by
  constructor
  · intro h i hi
    have h0 := h (2 * i) (by omega)
    have h1 := h (2 * i + 1) (by omega)
    simp only [readU16]
    rw [h0, show p + 2 * i + 1 = p + (2 * i + 1) by ring, h1,
      show q + (2 * i + 1) = q + 2 * i + 1 by ring]
  · intro h j hj
    have hu := h (j / 2) (by omega)
    simp only [readU16] at hu
    have a0 := readU8_lt mem (p + 2 * (j / 2))
    have a1 := readU8_lt mem (p + 2 * (j / 2) + 1)
    have b0 := readU8_lt mem (q + 2 * (j / 2))
    have b1 := readU8_lt mem (q + 2 * (j / 2) + 1)
    rcases Nat.mod_two_eq_zero_or_one j with hj0 | hj1
    · have hje : j = 2 * (j / 2) := by omega
      rw [hje]
      omega
    · have hje : j = 2 * (j / 2) + 1 := by omega
      rw [hje, show p + (2 * (j / 2) + 1) = p + 2 * (j / 2) + 1 by ring,
        show q + (2 * (j / 2) + 1) = q + 2 * (j / 2) + 1 by ring]
      omega

theorem streq_closed_len (mem : Mem) (a b : fsw_string) (h : streq_closed mem a b = true) :
    a.len = b.len := by
  by_contra hne
  simp [streq_closed, hne] at h

theorem streq_closed_zero (mem : Mem) (a b : fsw_string) (hl : a.len = b.len)
    (h0 : a.len = 0) : streq_closed mem a b = true := by
  have hb : b.len = 0 := by rw [← hl]; exact h0
  simp [streq_closed, h0, hb]

theorem streq_closed_self (mem : Mem) (a : fsw_string) : streq_closed mem a a = true := by
  by_cases h0 : a.len = 0
  · exact streq_closed_zero mem a a rfl h0
  · simp [streq_closed, h0, fsw_memeq_self]

/-- The type pairs on which the closed form can be true for non-zero len. -/
theorem streq_closed_types (mem : Mem) (a b : fsw_string) (h : streq_closed mem a b = true)
    (h0 : a.len ≠ 0) :
    a.type = b.type ∨
      (a.type = FSW_STRING_TYPE_ISO88591 ∧ b.type = FSW_STRING_TYPE_UTF16) ∨
      (a.type = FSW_STRING_TYPE_UTF16 ∧ b.type = FSW_STRING_TYPE_ISO88591) := by
  by_contra hcon
  push_neg at hcon
  obtain ⟨c1, c2, c3⟩ := hcon
  have hl := streq_closed_len mem a b h
  have d2 : ¬ (a.type = FSW_STRING_TYPE_ISO88591 ∧ b.type = FSW_STRING_TYPE_UTF16) :=
    fun e => c2 e.1 e.2
  have d3 : ¬ (a.type = FSW_STRING_TYPE_UTF16 ∧ b.type = FSW_STRING_TYPE_ISO88591) :=
    fun e => c3 e.1 e.2
  have hl' : ¬ a.len ≠ b.len := not_not.mpr hl
  unfold streq_closed at h
  rw [if_neg hl', if_neg h0, if_neg c1, if_neg d2, if_neg d3] at h
  exact absurd h (by decide)

/-- The closed form on two strings of the same type and equal non-zero len. -/
theorem streq_closed_same (mem : Mem) (a b : fsw_string) (ht : a.type = b.type)
    (hl : a.len = b.len) (h0 : a.len ≠ 0) :
    streq_closed mem a b = true ↔
      a.size = b.size ∧
        ∀ i : Nat, (i : Int) < a.size → readU8 mem (a.data + i) = readU8 mem (b.data + i) := by
  have hl' : ¬ a.len ≠ b.len := not_not.mpr hl
  unfold streq_closed
  rw [if_neg hl', if_neg h0, if_pos ht]
  by_cases hz : a.size = b.size
  · have hz' : ¬ a.size ≠ b.size := not_not.mpr hz
    rw [if_neg hz', fsw_memeq_iff]
    exact ⟨fun h => ⟨hz, h⟩, fun h => h.2⟩
  · rw [if_pos hz]
    exact ⟨fun h => absurd h (by decide), fun h => absurd h.1 hz⟩

/-- On size-consistent ISO-8859-1 and UTF-16 strings of the same non-zero len
the closed form is equality of the character sequences. -/
theorem streq_closed_chars (mem : Mem) (a b : fsw_string) (n : Nat)
    (ta : a.type = FSW_STRING_TYPE_ISO88591 ∨ a.type = FSW_STRING_TYPE_UTF16)
    (tb : b.type = FSW_STRING_TYPE_ISO88591 ∨ b.type = FSW_STRING_TYPE_UTF16)
    (la : a.len = n) (lb : b.len = n) (hn : 0 < n)
    (ca : sizeConsistent a) (cb : sizeConsistent b) :
    streq_closed mem a b = true ↔ ∀ i : Nat, i < n → charAt mem a i = charAt mem b i := by
  have h13 : ¬ ((FSW_STRING_TYPE_ISO88591 : Int) = FSW_STRING_TYPE_UTF16) := by decide
  have h31 : ¬ ((FSW_STRING_TYPE_UTF16 : Int) = FSW_STRING_TYPE_ISO88591) := by decide
  have h0 : a.len ≠ 0 := by rw [la]; omega
  have hl : a.len = b.len := by rw [la, lb]
  have hl' : ¬ a.len ≠ b.len := not_not.mpr hl
  have hnat : ((n : Int)).toNat = n := by simp
  rcases ta with ta | ta <;> rcases tb with tb | tb
  · -- ISO-8859-1, ISO-8859-1
    have hza : a.size = n := by rw [ca.2 ta, la]
    have hzb : b.size = n := by rw [cb.2 tb, lb]
    rw [streq_closed_same mem a b (by rw [ta, tb]) hl h0]
    simp only [charAt, ta, tb, h13, if_false, hza, hzb, true_and]
    constructor
    · intro h i hi; exact h i (by omega)
    · intro h i hi; exact h i (by omega)
  · -- ISO-8859-1, UTF-16
    have hne : ¬ a.type = b.type := by rw [ta, tb]; exact h13
    unfold streq_closed
    rw [if_neg hl', if_neg h0, if_neg hne, if_pos ⟨ta, tb⟩, la, hnat, streq_iso_utf16_iff]
    simp only [charAt, ta, tb, h13, if_false, if_true]
    constructor
    · intro h i hi; exact (h i hi).symm
    · intro h i hi; exact (h i hi).symm
  · -- UTF-16, ISO-8859-1
    have hne : ¬ a.type = b.type := by rw [ta, tb]; exact h31
    have hn1 : ¬ (a.type = FSW_STRING_TYPE_ISO88591 ∧ b.type = FSW_STRING_TYPE_UTF16) := by
      rw [ta]; exact fun e => h31 e.1
    unfold streq_closed
    rw [if_neg hl', if_neg h0, if_neg hne, if_neg hn1, if_pos ⟨ta, tb⟩, lb, hnat,
      streq_iso_utf16_iff]
    simp only [charAt, ta, tb, h13, if_false, if_true]
  · -- UTF-16, UTF-16
    have hza : a.size = 2 * (n : Int) := by rw [ca.1 ta, la]
    have hzb : b.size = 2 * (n : Int) := by rw [cb.1 tb, lb]
    rw [streq_closed_same mem a b (by rw [ta, tb]) hl h0]
    simp only [charAt, ta, tb, if_true, hza, hzb, true_and]
    rw [← bytes_eq_iff_units_eq]
    constructor
    · intro h j hj; exact h j (by omega)
    · intro h j hj; exact h j (by omega)

/-- The closed form is transitive on size-consistent strings with len ≥ 0. -/
theorem streq_closed_trans (mem : Mem) (a b c : fsw_string)
    (na : 0 ≤ a.len) (ca : sizeConsistent a) (cb : sizeConsistent b) (cc : sizeConsistent c)
    (hab : streq_closed mem a b = true) (hbc : streq_closed mem b c = true) :
    streq_closed mem a c = true := by
  have lab := streq_closed_len mem a b hab
  have lbc := streq_closed_len mem b c hbc
  by_cases h0 : a.len = 0
  · exact streq_closed_zero mem a c (lab.trans lbc) h0
  have hb0 : b.len ≠ 0 := by rw [← lab]; exact h0
  obtain ⟨n, hn⟩ : ∃ n : Nat, a.len = n := ⟨a.len.toNat, by omega⟩
  have hpos : 0 < n := by omega
  have hnb : b.len = n := by rw [← lab]; exact hn
  have hnc : c.len = n := by rw [← lbc]; exact hnb
  have tab := streq_closed_types mem a b hab h0
  have tbc := streq_closed_types mem b c hbc hb0
  by_cases hb : b.type = FSW_STRING_TYPE_ISO88591 ∨ b.type = FSW_STRING_TYPE_UTF16
  · have ha : a.type = FSW_STRING_TYPE_ISO88591 ∨ a.type = FSW_STRING_TYPE_UTF16 := by
      rcases tab with e | ⟨e, -⟩ | ⟨e, -⟩
      · rw [e]; exact hb
      · exact Or.inl e
      · exact Or.inr e
    have hc : c.type = FSW_STRING_TYPE_ISO88591 ∨ c.type = FSW_STRING_TYPE_UTF16 := by
      rcases tbc with e | ⟨-, e⟩ | ⟨-, e⟩
      · rw [← e]; exact hb
      · exact Or.inr e
      · exact Or.inl e
    rw [streq_closed_chars mem a b n ha hb hn hnb hpos ca cb] at hab
    rw [streq_closed_chars mem b c n hb hc hnb hnc hpos cb cc] at hbc
    rw [streq_closed_chars mem a c n ha hc hn hnc hpos ca cc]
    intro i hi
    exact (hab i hi).trans (hbc i hi)
  · have eab : a.type = b.type := by
      rcases tab with e | ⟨-, e⟩ | ⟨-, e⟩
      · exact e
      · exact absurd (Or.inr e) hb
      · exact absurd (Or.inl e) hb
    have ebc : b.type = c.type := by
      rcases tbc with e | ⟨e, -⟩ | ⟨e, -⟩
      · exact e
      · exact absurd (Or.inl e) hb
      · exact absurd (Or.inr e) hb
    rw [streq_closed_same mem a b eab lab h0] at hab
    rw [streq_closed_same mem b c ebc lbc hb0] at hbc
    rw [streq_closed_same mem a c (eab.trans ebc) (lab.trans lbc) h0]
    refine ⟨hab.1.trans hbc.1, ?_⟩
    intro i hi
    exact (hab.2 i hi).trans (hbc.2 i (by rw [← hab.1]; exact hi))

theorem streq_norm_type (s : fsw_string) (h : definedType s.type) :
    definedType (streq_norm s).type ∧ (streq_norm s).type ≠ FSW_STRING_TYPE_EMPTY := by
  unfold streq_norm
  split_ifs with he
  · exact ⟨Or.inr (Or.inl rfl), by decide⟩
  · exact ⟨h, he⟩

theorem streq_norm_wellFormed (s : fsw_string) (h : wellFormed s) :
    0 ≤ (streq_norm s).len ∧ sizeConsistent (streq_norm s) := by
  unfold streq_norm
  split_ifs with he
  · exact ⟨by decide, by decide⟩
  · exact ⟨h.2.1, h.2.2⟩

/-- A comparison that returned true at some depth bound has a true closed form. -/
theorem streq_closed_of_fsw_streq (mem : Mem) (f : Nat) (s1 s2 : fsw_string)
    (h1 : definedType s1.type) (h2 : definedType s2.type)
    (h : fsw_streq f mem s1 s2 = some true) :
    streq_closed mem (streq_norm s1) (streq_norm s2) = true := by
  have h3 := fsw_streq_fuel_add mem f 3 s1 s2 true h
  rw [fsw_streq_three mem f s1 s2 h1 h2] at h3
  exact Option.some.inj h3

/-- C22: `fsw_streq` is transitive on well-formed strings. For strings with
defined type tags, len ≥ 0 and a size consistent with the encoding, if
`fsw_streq(s1, s2)` and `fsw_streq(s2, s3)` return true (at any depth bound)
then `fsw_streq(s1, s3)` returns true; the comparison is also reflexive and
symmetric there, so it is an equivalence relation on well-formed strings. -/
theorem fsw_streq_transitive (mem : Mem) (f1 f2 fuel : Nat) (s1 s2 s3 : fsw_string)
    (w1 : wellFormed s1) (w2 : wellFormed s2) (w3 : wellFormed s3) :
    (fsw_streq f1 mem s1 s2 = some true → fsw_streq f2 mem s2 s3 = some true →
        fsw_streq (fuel + 3) mem s1 s3 = some true) ∧
      fsw_streq (fuel + 3) mem s1 s1 = some true ∧
      (fsw_streq f1 mem s1 s2 = some true → fsw_streq (fuel + 3) mem s2 s1 = some true) := by
  refine ⟨?_, ?_, ?_⟩
  · intro h12 h23
    have c12 := streq_closed_of_fsw_streq mem f1 s1 s2 w1.1 w2.1 h12
    have c23 := streq_closed_of_fsw_streq mem f2 s2 s3 w2.1 w3.1 h23
    rw [fsw_streq_three mem fuel s1 s3 w1.1 w3.1]
    exact congrArg some (streq_closed_trans mem _ _ _ (streq_norm_wellFormed s1 w1).1
      (streq_norm_wellFormed s1 w1).2 (streq_norm_wellFormed s2 w2).2
      (streq_norm_wellFormed s3 w3).2 c12 c23)
  · rw [fsw_streq_three mem fuel s1 s1 w1.1 w1.1]
    exact congrArg some (streq_closed_self mem _)
  · intro h12
    have c12 := streq_closed_of_fsw_streq mem f1 s1 s2 w1.1 w2.1 h12
    rw [fsw_streq_three mem fuel s2 s1 w2.1 w1.1, streq_closed_comm]
    exact congrArg some c12

theorem fsw_streq_transitive_witness :
    wellFormed isoBoot ∧ wellFormed utf16Boot ∧ wellFormed isoBoot ∧
      (fsw_streq 3 mixMem isoBoot utf16Boot = some true →
          fsw_streq 3 mixMem utf16Boot isoBoot = some true →
          fsw_streq (0 + 3) mixMem isoBoot isoBoot = some true) ∧
      fsw_streq (0 + 3) mixMem isoBoot isoBoot = some true ∧
      (fsw_streq 3 mixMem isoBoot utf16Boot = some true →
        fsw_streq (0 + 3) mixMem utf16Boot isoBoot = some true) ∧
      fsw_streq 3 mixMem isoBoot utf16Boot = some true ∧
      fsw_streq 3 mixMem utf16Boot isoBoot = some true :=
  ⟨by decide, by decide, by decide,
    (fsw_streq_transitive mixMem 3 3 0 isoBoot utf16Boot isoBoot (by decide) (by decide)
      (by decide)).1,
    (fsw_streq_transitive mixMem 3 3 0 isoBoot utf16Boot isoBoot (by decide) (by decide)
      (by decide)).2.1,
    (fsw_streq_transitive mixMem 3 3 0 isoBoot utf16Boot isoBoot (by decide) (by decide)
      (by decide)).2.2,
    by decide, by decide⟩

end Fsw
